import Mathlib

/-! # vircon / fbvncserver: the capture, diff and translate engine

A shallow embedding of `src/fbvncserver.c`:

* the frame differencing pass `update_screen` with `readScreenInfo_m`,
  `PIXEL_FB_TO_RFB` and `changeResolution`;
* the key translation `keysym2scancode`, `get_key_sym`, `keyevent`,
  `injectKeyEvent`;
* the pointer callback `ptrevent` with `injectTouchEvent`, `injectWheelEvent`
  and `injectMoveEvent`;
* the keyboard start-up `init_kbd` with `open_a_console`;
* the event loop of `main` with `sig_handler`, as a transition system on the
  place of `main`, the shutdown flag and the number of clients, in which
  signals and changes of the client list are events of their own;
* the buffer sizes that `init_fb` and `init_fb_server` compute;

and of `src/vircon.c`: the mode check `vircon_check_var` with
`get_line_length`, and the pan request `vircon_pan_display`.

Conventions.  `unsigned int` words are `Nat`; C `int` values are `Int`.  The
three buffers are word addressed memories `Nat → Nat` indexed from the base
pointer (`fbmmap`, `fbbuf`, `vncbuf` cast to `unsigned int *`).  Calls into
libvncserver and `write(2)` on an input device are recorded, in order, in a
list.  The time stamp that `gettimeofday` puts into an event is not modelled.
A call that ends the process (`exit`) makes the result `none`.  A `for` loop
is a function recursive in the number of iterations left.

The definitions come first; the theorems follow the heading "Theorems".
-/

namespace Vircon

/-! ## Data model -/

/-- A buffer seen through an `unsigned int *`: word offset to 32-bit word. -/
abbrev Buf := Nat → Nat

/-- The fields of `struct fb_var_screeninfo` that `fbvncserver.c` compares
(`__u32` each). -/
structure fb_var_screeninfo where
  xres : Nat
  yres : Nat
  bits_per_pixel : Nat
  deriving DecidableEq, Repr

/-- The `varblock` global (`struct varblock_t`). -/
structure varblock_t where
  min_i : Int
  min_j : Int
  max_i : Int
  max_j : Int
  r_offset : Nat
  g_offset : Nat
  b_offset : Nat
  rfb_xres : Int
  rfb_maxy : Int
  deriving DecidableEq, Repr

/-- One call `rfbMarkRectAsModified(vncscr, x1, y1, x2, y2)`. -/
structure Rect where
  x1 : Int
  y1 : Int
  x2 : Int
  y2 : Int
  deriving DecidableEq, Repr

/-- The globals that the diff pass reads and writes. -/
structure State where
  scrinfo : fb_var_screeninfo
  scrinfo_m : fb_var_screeninfo
  fbmmap : Buf
  fbbuf : Buf
  vncbuf : Buf
  varblock : varblock_t

/-- Store `v` at word offset `k` of a buffer (`*ptr = v`). -/
def Buf.store (b : Buf) (k v : Nat) : Buf := fun i => if i = k then v else b i

/-- A `calloc`ed buffer. -/
def Buf.zero : Buf := fun _ => 0

/-! ## Pixel conversion -/

/-- The macro
`#define PIXEL_FB_TO_RFB(p,r,g,b) ((p>>r)&0x1f001f)|(((p>>g)&0x1f001f)<<5)|(((p>>b)&0x1f001f)<<10)`
on an `unsigned int` `p`. -/
def PIXEL_FB_TO_RFB (p r g b : Nat) : Nat :=
  ((p >>> r) &&& 0x1f001f) ||| (((p >>> g) &&& 0x1f001f) <<< 5)
    ||| (((p >>> b) &&& 0x1f001f) <<< 10)

/-! ## Geometry check -/

/-- The function `readScreenInfo_m` after a successful `FBIOGET_VSCREENINFO`
that stored `m` in `scrinfo_m`: 1 when the geometry differs, else 0. -/
def readScreenInfo_m_cmp (scrinfo m : fb_var_screeninfo) : Int :=
  if scrinfo.xres ≠ m.xres ∨ scrinfo.yres ≠ m.yres ∨
      scrinfo.bits_per_pixel ≠ m.bits_per_pixel then 1 else 0

/-- The function `readScreenInfo_m`.  `io` is what the ioctl delivers:
`none` when it fails (the process exits with `EXIT_FAILURE`), `some m` when
it fills `scrinfo_m` with `m`.  The result is the new state and the return
value. -/
def readScreenInfo_m (io : Option fb_var_screeninfo) (st : State) :
    Option (State × Int) :=
  match io with
  | none => none
  | some m => some ({ st with scrinfo_m := m }, readScreenInfo_m_cmp st.scrinfo m)

/-! ## The diff pass -/

/-- The locals and globals that change while `update_screen` scans.  `pos` is
the common word offset of the pointers `f`, `c` and `r`, which start at the
three buffer bases and are incremented together; `rects` lists the
`rfbMarkRectAsModified` calls made so far, the oldest first; `cmps` lists the
word offsets at which `*f` was compared with `*c`, the oldest first. -/
structure Scan where
  pos : Nat
  fbbuf : Buf
  vncbuf : Buf
  vb : varblock_t
  line_changed : Int
  lines_unchanged : Int
  changes_pending : Int
  rects : List Rect
  cmps : List Nat

/-- The body of the inner loop of `update_screen` at column `x`, row `y`. -/
def pixel_step (fb : Buf) (x y : Int) (s : Scan) : Scan :=
  let pixel := fb s.pos
  let s1 : Scan :=
    if pixel ≠ s.fbbuf s.pos then
      { s with
        fbbuf := s.fbbuf.store s.pos pixel
        line_changed := 1
        changes_pending := 1
        lines_unchanged := 0
        vncbuf := s.vncbuf.store s.pos
          (PIXEL_FB_TO_RFB pixel s.vb.r_offset s.vb.g_offset s.vb.b_offset)
        vb :=
          if x < s.vb.min_i then { s.vb with min_i := x }
          else
            let v1 : varblock_t := if x > s.vb.max_i then { s.vb with max_i := x } else s.vb
            if y > v1.max_j then { v1 with max_j := y }
            else if y < v1.min_j then { v1 with min_j := y }
            else v1 }
    else s
  { s1 with pos := s1.pos + 1, cmps := s.cmps ++ [s.pos] }

/-- The inner loop `for (x = 0; x < scrinfo.xres; x += 2)`: `n` is the number
of iterations still to run and `x` the current column. -/
def row_loop (fb : Buf) (y : Int) : Nat → Int → Scan → Scan
  | 0, _, s => s
  | n + 1, x, s => row_loop fb y n (x + 2) (pixel_step fb x y s)

/-- The statements of the outer loop body that follow the inner loop. -/
def row_end (s : Scan) : Scan :=
  let s1 : Scan :=
    if s.line_changed = 0 then { s with lines_unchanged := s.lines_unchanged + 1 } else s
  if s1.lines_unchanged > 5 ∧ s1.changes_pending ≠ 0 then
    { s1 with
      rects := s1.rects ++ [⟨s1.vb.min_i, s1.vb.min_j, s1.vb.max_i + 2, s1.vb.max_j + 1⟩]
      changes_pending := 0
      vb := { s1.vb with min_i := 9999, min_j := 9999, max_i := -1, max_j := -1 } }
  else s1

/-- The outer loop `for (y = 0; y < scrinfo.yres; y++)`: `n` is the number of
rows still to scan and `y` the current row.  The inner loop runs for
`x = 0, 2, 4, ... < xres`, that is `(xres + 1) / 2` times. -/
def screen_loop (fb : Buf) (xres : Nat) : Nat → Int → Scan → Scan
  | 0, _, s => s
  | n + 1, y, s => screen_loop fb xres n (y + 1) (row_end (row_loop fb y ((xres + 1) / 2) 0 s))

/-- The statements of `update_screen` after the scan: the final flush. -/
def final_flush (s : Scan) : Scan :=
  if s.vb.min_i < 9999 then
    let v1 : varblock_t := if s.vb.max_i < 0 then { s.vb with max_i := s.vb.min_i } else s.vb
    let v2 : varblock_t := if v1.max_j < 0 then { v1 with max_j := v1.min_j } else v1
    { s with vb := v2, rects := s.rects ++ [⟨v2.min_i, v2.min_j, v2.max_i + 2, v2.max_j + 1⟩] }
  else s

/-- What one call of `update_screen` leaves behind: the return value, the
`rfbMarkRectAsModified` calls in order, the word offsets compared in order,
the globals, and the last values of the locals `lines_unchanged` and
`changes_pending`. -/
structure Pass where
  ret : Int
  rects : List Rect
  cmps : List Nat
  st : State
  lines_unchanged : Int
  changes_pending : Int

/-- The state of the scan when `update_screen` enters its loops: the
bounding box is reset, the three pointers are at the buffer bases,
`line_changed` is 0 and the two locals without initialiser hold `lu0` and
`cp0`. -/
def scan_init (st : State) (lu0 cp0 : Int) : Scan :=
  { pos := 0, fbbuf := st.fbbuf, vncbuf := st.vncbuf,
    vb := { st.varblock with min_i := 9999, min_j := 9999, max_i := -1, max_j := -1 },
    line_changed := 0, lines_unchanged := lu0, changes_pending := cp0,
    rects := [], cmps := [] }

/-- The part of `update_screen` after the geometry check: both loops and the
final flush. -/
def diff_scan (st : State) (lu0 cp0 : Int) : Scan :=
  final_flush (screen_loop st.fbmmap st.scrinfo.xres st.scrinfo.yres 0 (scan_init st lu0 cp0))

/-- The function `update_screen`.  `io` is the result of the geometry ioctl
(see `readScreenInfo_m`).  The locals `lines_unchanged` and `changes_pending`
are declared without an initialiser and read before the first assignment, so
the values they start with are arguments (`lu0`, `cp0`); `line_changed` is set
to 0 once, before the loops.  The result is `none` when the process exits.
The call `rfbProcessEvents` after the final flush is not modelled. -/
def update_screen (io : Option fb_var_screeninfo) (lu0 cp0 : Int) (st : State) :
    Option Pass :=
  match readScreenInfo_m io st with
  | none => none
  | some (st1, changed) =>
    if changed ≠ 0 then
      some { ret := 3, rects := [], cmps := [], st := st1,
             lines_unchanged := lu0, changes_pending := cp0 }
    else
      let s := diff_scan st1 lu0 cp0
      some { ret := 0, rects := s.rects, cmps := s.cmps,
             st := { st1 with fbbuf := s.fbbuf, vncbuf := s.vncbuf, varblock := s.vb },
             lines_unchanged := s.lines_unchanged, changes_pending := s.changes_pending }

/-- The globals after a successful `changeResolution`: the geometry read anew
is in `scrinfo`, the capture mapping is the new one, and both `vncbuf` and
`fbbuf` are fresh `calloc` blocks.  `scrinfo_m` and `varblock` are not
touched. -/
def rebuilt (geom : fb_var_screeninfo) (newmap : Buf) (st : State) : State :=
  { st with scrinfo := geom, fbmmap := newmap, vncbuf := Buf.zero, fbbuf := Buf.zero }

/-- The function `changeResolution`.  `io` is the result of
`FBIOGET_VSCREENINFO` and `newmap` the result of `mmap`; when either fails the
process exits (`none`).  The new sink buffer is handed to the transport with
`rfbNewFramebuffer`; the function itself never calls
`rfbMarkRectAsModified`. -/
def changeResolution (io : Option fb_var_screeninfo) (newmap : Option Buf) (st : State) :
    Option State :=
  match io, newmap with
  | some geom, some fb => some (rebuilt geom fb st)
  | _, _ => none

/-! ## Key translation -/

/-- Key codes of `<linux/input.h>` (`input-event-codes.h`) that
`keysym2scancode` names: `KEY_ESC`. -/
def KEY_ESC : Int := 1
/-- Key code `KEY_1`; the digit keys `KEY_2` .. `KEY_9` are 3 .. 10. -/
def KEY_1 : Int := 2
/-- Key code `KEY_0`. -/
def KEY_0 : Int := 11
def KEY_BACKSPACE : Int := 14
def KEY_TAB : Int := 15
def KEY_Q : Int := 16
def KEY_W : Int := 17
def KEY_E : Int := 18
def KEY_R : Int := 19
def KEY_T : Int := 20
def KEY_Y : Int := 21
def KEY_U : Int := 22
def KEY_I : Int := 23
def KEY_O : Int := 24
def KEY_P : Int := 25
def KEY_ENTER : Int := 28
def KEY_LEFTCTRL : Int := 29
def KEY_A : Int := 30
def KEY_S : Int := 31
def KEY_D : Int := 32
def KEY_F : Int := 33
def KEY_G : Int := 34
def KEY_H : Int := 35
def KEY_J : Int := 36
def KEY_K : Int := 37
def KEY_L : Int := 38
def KEY_LEFTSHIFT : Int := 42
def KEY_Z : Int := 44
def KEY_X : Int := 45
def KEY_C : Int := 46
def KEY_V : Int := 47
def KEY_B : Int := 48
def KEY_N : Int := 49
def KEY_M : Int := 50
def KEY_LEFTALT : Int := 56
def KEY_F1 : Int := 59
def KEY_F2 : Int := 60
def KEY_F3 : Int := 61
def KEY_F4 : Int := 62
def KEY_F5 : Int := 63
def KEY_F6 : Int := 64
def KEY_F7 : Int := 65
def KEY_F8 : Int := 66
def KEY_F9 : Int := 67
def KEY_F10 : Int := 68
def KEY_F11 : Int := 87
def KEY_F12 : Int := 88
def KEY_RIGHTCTRL : Int := 97
def KEY_RIGHTALT : Int := 100
def KEY_HOME : Int := 102
def KEY_UP : Int := 103
def KEY_PAGEUP : Int := 104
def KEY_LEFT : Int := 105
def KEY_RIGHT : Int := 106
def KEY_END : Int := 107
def KEY_DOWN : Int := 108
def KEY_PAGEDOWN : Int := 109
def KEY_DELETE : Int := 111

/-- Event type `EV_SYN` of `<linux/input.h>`. -/
def EV_SYN : Nat := 0
/-- Event type `EV_KEY`. -/
def EV_KEY : Nat := 1

/-- The `map` of the branch `0xFF50 .. 0xFF58` of `keysym2scancode`. -/
def map_nav : List Int :=
  [KEY_HOME, KEY_LEFT, KEY_UP, KEY_RIGHT, KEY_DOWN, KEY_PAGEUP, KEY_PAGEDOWN, KEY_END, 0]

/-- The `map` of the branch `0xFFBE .. 0xFFC9`. -/
def map_fn : List Int :=
  [KEY_F1, KEY_F2, KEY_F3, KEY_F4, KEY_F5, KEY_F6, KEY_F7, KEY_F8, KEY_F9, KEY_F10, KEY_F11,
   KEY_F12]

/-- The `map` of the branch `0xFFE1 .. 0xFFEE`. -/
def map_mod : List Int :=
  [0, KEY_LEFTSHIFT, KEY_LEFTSHIFT, KEY_LEFTCTRL, KEY_RIGHTCTRL, KEY_LEFTSHIFT, KEY_LEFTSHIFT,
   0, 0, KEY_LEFTALT, KEY_RIGHTALT, 0, 0, 0, 0]

/-- The `map` of the letter branch. -/
def map_letter : List Int :=
  [KEY_A, KEY_B, KEY_C, KEY_D, KEY_E, KEY_F, KEY_G, KEY_H, KEY_I, KEY_J, KEY_K, KEY_L, KEY_M,
   KEY_N, KEY_O, KEY_P, KEY_Q, KEY_R, KEY_S, KEY_T, KEY_U, KEY_V, KEY_W, KEY_X, KEY_Y, KEY_Z]

/-- The console behind `kfd`, as `ioctl(kfd, KDGKBENT, &ke)` shows it: for
`kb_index` and `kb_table`, `none` when the ioctl fails and otherwise the
`kb_value` it stores. -/
abbrev Console := Nat → Nat → Option Nat

/-- The function `has_key`.  The fields `kb_index` and `kb_table` are
`unsigned char`. -/
def has_key (con : Console) (n t : Nat) : Bool :=
  (con (n % 256) (t % 256)).isSome

/-- The function `get_key_sym`: the `unsigned short` `kb_value`, or 0 when
the ioctl fails. -/
def get_key_sym (con : Console) (n t : Nat) : Nat :=
  match con (n % 256) (t % 256) with
  | some v => v % 65536
  | none => 0

/-- The function `find_nr_keys`: the value it stores in `nr_keys`. -/
def find_nr_keys (con : Console) : Int :=
  if has_key con 255 0 then 256 else if has_key con 127 0 then 128 else 112

/-- The loop `for (i=0;i<nr_keys;i++)` of `keysym2scancode`: `n` is the
number of indices still to try and `i` the current one.  The result is the
value of `scancode` after the loop, which is 0 when the loop runs out. -/
def hunt (con : Console) (code : Int) : Nat → Nat → Int
  | 0, _ => 0
  | n + 1, i =>
    if (get_key_sym con i 0 : Int) = code then (i : Int)
    else if (get_key_sym con i 1 : Int) = code then (i : Int)
    else hunt con code n (i + 1)

/-- The result of `keysym2scancode`: the returned scancode and whether
`rfbShutdownServer(cl->screen, TRUE)` was called. -/
structure KeyResult where
  scancode : Int
  shutdown : Bool
  deriving DecidableEq, Repr

/-- The conversion `(int)key` of an `rfbKeySym` (`uint32_t`). -/
def key_to_int (key : Nat) : Int :=
  if key % 2 ^ 32 < 2 ^ 31 then (key % 2 ^ 32 : Nat) else (key % 2 ^ 32 : Nat) - 2 ^ 32

/-- The function `keysym2scancode`.  `con` and `nr_keys` are the console and
the global set by `find_nr_keys`; `down` is not used by the code. -/
def keysym2scancode (con : Console) (nr_keys : Int) (_down : Int) (key : Nat) : KeyResult :=
  let code : Int := key_to_int key
  if 48 ≤ code ∧ code ≤ 57 then
    let s0 : Int := ((code.toNat &&& 0xF : Nat) : Int) - 1
    let s1 : Int := if s0 < 0 then s0 + 10 else s0
    ⟨s1 + KEY_1, false⟩
  else if 0xFF50 ≤ code ∧ code ≤ 0xFF58 then
    ⟨map_nav.getD (code.toNat &&& 0xF) 0, false⟩
  else if 0xFFBE ≤ code ∧ code ≤ 0xFFC9 then
    ⟨map_fn.getD (code - 0xFFBE).toNat 0, false⟩
  else if 0xFFE1 ≤ code ∧ code ≤ 0xFFEE then
    ⟨map_mod.getD (code.toNat &&& 0xF) 0, false⟩
  else if (65 ≤ code ∧ code ≤ 90) ∨ (97 ≤ code ∧ code ≤ 122) then
    ⟨map_letter.getD ((code.toNat &&& 0x5F) - 65) 0, false⟩
  else
    let sw : KeyResult :=
      if code = 0xFE03 then ⟨92, false⟩
      else if code = 0xFF08 then ⟨KEY_BACKSPACE, false⟩
      else if code = 0xFF1B then ⟨KEY_ESC, false⟩
      else if code = 0xFF09 then ⟨KEY_TAB, false⟩
      else if code = 0xFF0D then ⟨KEY_ENTER, false⟩
      else if code = 0xFFFF then ⟨KEY_DELETE, false⟩
      else if code = 0xFFC8 then ⟨0, true⟩
      else ⟨0, false⟩
    if sw.scancode = 0 then ⟨hunt con code nr_keys.toNat 0, sw.shutdown⟩ else sw

/-- A `struct input_event` handed to `write(2)`, without its time stamp. -/
structure input_event where
  type : Nat
  code : Nat
  value : Int
  deriving DecidableEq, Repr

/-- The function `injectKeyEvent(uint16_t code, uint16_t value)`: the events
written to `kbdfd`, in order.  The arguments are converted to `uint16_t` at
the call. -/
def injectKeyEvent (code value : Int) : List input_event :=
  [⟨EV_KEY, (code % 65536).toNat, value % 65536⟩, ⟨EV_SYN, 0, 0⟩]

/-- What a key callback does: the events written to the keyboard device and
whether the transport was asked to shut down. -/
structure KeyEffect where
  written : List input_event
  shutdown : Bool
  deriving DecidableEq, Repr

/-- The function `keyevent`. -/
def keyevent (con : Console) (nr_keys : Int) (down : Int) (key : Nat) : KeyEffect :=
  let r := keysym2scancode con nr_keys down key
  if r.scancode ≠ 0 then ⟨injectKeyEvent r.scancode down, r.shutdown⟩
  else ⟨[], r.shutdown⟩

/-! ## Pointer events -/

/-- Event type `EV_REL` of `<linux/input.h>`. -/
def EV_REL : Nat := 2
/-- Event type `EV_ABS`. -/
def EV_ABS : Nat := 3
/-- Axis code `ABS_X`. -/
def ABS_X : Nat := 0
/-- Axis code `ABS_Y`. -/
def ABS_Y : Nat := 1
/-- Axis code `REL_WHEEL`. -/
def REL_WHEEL : Nat := 8
/-- Button code `BTN_LEFT` (0x110). -/
def BTN_LEFT : Nat := 0x110
/-- Button code `BTN_RIGHT` (0x111). -/
def BTN_RIGHT : Nat := 0x111
/-- Button code `BTN_MIDDLE` (0x112). -/
def BTN_MIDDLE : Nat := 0x112
/-- Button code `BTN_FORWARD` (0x115). -/
def BTN_FORWARD : Nat := 0x115
/-- Button code `BTN_BACK` (0x116). -/
def BTN_BACK : Nat := 0x116

/-- The globals `xmin`, `xmax`, `ymin`, `ymax` that `init_touch` reads from the
touch device (`int` each). -/
structure AxisRange where
  xmin : Int
  xmax : Int
  ymin : Int
  ymax : Int
  deriving DecidableEq, Repr

/-- The globals `prev_x`, `prev_y`, `prev_buttonMask` of `ptrevent`. -/
structure PointerState where
  prev_x : Int
  prev_y : Int
  prev_buttonMask : Nat
  deriving DecidableEq, Repr

/-- The value of an integer stored in an `int`: two's complement, 32 bits. -/
def to_int32 (i : Int) : Int := (i + 2 ^ 31) % 2 ^ 32 - 2 ^ 31

/-- The value of an `int` converted to `unsigned int`. -/
def to_uint32 (i : Int) : Nat := (i % 2 ^ 32).toNat

/-- The expression `min + (v * (max - min)) / (res)` of `injectMoveEvent`, where
`min`, `max` and `v` are `int` and `res` is the `__u32` field `scrinfo.xres` or
`scrinfo.yres`: the difference and the product are `int` operations, the
division and the sum are done in `unsigned int` (the usual arithmetic
conversions), and the result is stored in an `int`.  `res` is non-zero in a
running session (`init_fb` and `changeResolution` exit when the mapping of an
empty surface fails); a division by zero is not modelled. -/
def rescale (min max : Int) (res : Nat) (v : Int) : Int :=
  to_int32 ((to_uint32 min + to_uint32 (to_int32 (v * to_int32 (max - min))) / res : Nat))

/-- The coordinate that `injectMoveEvent` writes for the column `x`. -/
def move_x (ax : AxisRange) (scrinfo : fb_var_screeninfo) (x : Int) : Int :=
  if ax.xmax ≠ 0 ∧ ax.ymax ≠ 0 then rescale ax.xmin ax.xmax scrinfo.xres x else x

/-- The coordinate that `injectMoveEvent` writes for the row `y`. -/
def move_y (ax : AxisRange) (scrinfo : fb_var_screeninfo) (y : Int) : Int :=
  if ax.xmax ≠ 0 ∧ ax.ymax ≠ 0 then rescale ax.ymin ax.ymax scrinfo.yres y else y

/-- The function `injectMoveEvent`: the events written to `touchfd`, in
order. -/
def injectMoveEvent (ax : AxisRange) (scrinfo : fb_var_screeninfo) (x y : Int) :
    List input_event :=
  [⟨EV_ABS, ABS_X, move_x ax scrinfo x⟩, ⟨EV_ABS, ABS_Y, move_y ax scrinfo y⟩, ⟨EV_SYN, 0, 0⟩]

/-- The function `injectWheelEvent`. -/
def injectWheelEvent (ax : AxisRange) (scrinfo : fb_var_screeninfo) (z x y : Int) :
    List input_event :=
  injectMoveEvent ax scrinfo x y ++ [⟨EV_REL, REL_WHEEL, z⟩, ⟨EV_SYN, 0, 0⟩]

/-- The `map` of `injectTouchEvent`. -/
def map_button : List Nat := [BTN_LEFT, BTN_MIDDLE, BTN_RIGHT, BTN_FORWARD, BTN_BACK]

/-- The function `injectTouchEvent`. -/
def injectTouchEvent (ax : AxisRange) (scrinfo : fb_var_screeninfo) (down : Int) (button : Nat)
    (x y : Int) : List input_event :=
  ⟨EV_KEY, map_button.getD button 0, down⟩ :: injectMoveEvent ax scrinfo x y

/-- The function `ptrevent`.  `mousemode`, the axis range and `scrinfo` are the
globals it reads; `buttonMask` is the mask that the transport passes (an
unsigned byte of the protocol).  The result is the new pointer state and the
events written to `touchfd`, in order. -/
def ptrevent (mousemode : Int) (ax : AxisRange) (scrinfo : fb_var_screeninfo)
    (buttonMask : Nat) (x y : Int) (st : PointerState) : PointerState × List input_event :=
  if buttonMask &&& 1 ≠ 0 ∧ st.prev_buttonMask &&& 1 = 0 then
    ({ st with prev_buttonMask := buttonMask }, injectTouchEvent ax scrinfo 1 0 x y)
  else if st.prev_buttonMask &&& 1 ≠ 0 ∧ buttonMask &&& 1 = 0 then
    ({ st with prev_buttonMask := buttonMask }, injectTouchEvent ax scrinfo 0 0 x y)
  else if buttonMask &&& 2 ≠ 0 ∧ st.prev_buttonMask &&& 2 = 0 then
    ({ st with prev_buttonMask := buttonMask }, injectTouchEvent ax scrinfo 1 1 x y)
  else if st.prev_buttonMask &&& 2 ≠ 0 ∧ buttonMask &&& 2 = 0 then
    ({ st with prev_buttonMask := buttonMask }, injectTouchEvent ax scrinfo 0 1 x y)
  else if buttonMask &&& 4 ≠ 0 ∧ st.prev_buttonMask &&& 4 = 0 then
    ({ st with prev_buttonMask := buttonMask }, injectTouchEvent ax scrinfo 1 2 x y)
  else if st.prev_buttonMask &&& 4 ≠ 0 ∧ buttonMask &&& 4 = 0 then
    ({ st with prev_buttonMask := buttonMask }, injectTouchEvent ax scrinfo 0 2 x y)
  else if buttonMask &&& 8 ≠ 0 ∧ st.prev_buttonMask &&& 8 = 0 then
    ({ st with prev_buttonMask := buttonMask }, injectWheelEvent ax scrinfo 1 x y)
  else if st.prev_buttonMask &&& 8 ≠ 0 ∧ buttonMask &&& 8 = 0 then
    ({ st with prev_buttonMask := buttonMask }, [])
  else if buttonMask &&& 16 ≠ 0 ∧ st.prev_buttonMask &&& 16 = 0 then
    ({ st with prev_buttonMask := buttonMask }, injectWheelEvent ax scrinfo (-1) x y)
  else if st.prev_buttonMask &&& 16 ≠ 0 ∧ buttonMask &&& 16 = 0 then
    ({ st with prev_buttonMask := buttonMask }, [])
  else if mousemode ≠ 0 then
    if x ≠ st.prev_x ∨ y ≠ st.prev_y then
      ({ st with prev_x := x, prev_y := y }, injectMoveEvent ax scrinfo x y)
    else (st, [])
  else (st, [])

/-- The pointer state at program start (`static int ... = 0`). -/
def ptr_init : PointerState := ⟨0, 0, 0⟩

/-- A pointer callback as the transport delivers it: mask, x, y. -/
structure PtrCall where
  buttonMask : Nat
  x : Int
  y : Int
  deriving DecidableEq, Repr

/-- A sequence of pointer callbacks, the oldest first: the pointer state after
the last one and the events written by each callback, in order. -/
def ptr_run (mousemode : Int) (ax : AxisRange) (scrinfo : fb_var_screeninfo) :
    List PtrCall → PointerState → PointerState × List (List input_event)
  | [], st => (st, [])
  | c :: cs, st =>
    let r := ptrevent mousemode ax scrinfo c.buttonMask c.x c.y st
    let rs := ptr_run mousemode ax scrinfo cs r.1
    (rs.1, r.2 :: rs.2)

/-! ## Keyboard start-up -/

/-- The outcome of one `open(2)`: a descriptor, a failure with `errno` equal to
`EACCES`, or a failure with another `errno`. -/
inductive OpenResult
  | fd (n : Nat)
  | eacces
  | error
  deriving DecidableEq, Repr

/-- The system as `init_kbd` meets it: the outcome of opening `KBD_DEVICE`, the
outcomes of opening `/dev/tty0` with `O_RDWR`, `O_WRONLY` and `O_RDONLY`, the
result of `ioctl(fd, KDGKBTYPE, &arg)` on the opened terminal (`none` when it
fails, else `arg`), and the key table that `KDGKBENT` shows on a console
descriptor. -/
structure KbdEnv where
  kbd_open : OpenResult
  tty_rdwr : OpenResult
  tty_wronly : OpenResult
  tty_rdonly : OpenResult
  kbtype : Option Nat
  keymap : Console

/-- Keyboard type `KB_84` of `<linux/kd.h>`. -/
def KB_84 : Nat := 1
/-- Keyboard type `KB_101`. -/
def KB_101 : Nat := 2

/-- The function `is_a_console` on the descriptor just opened. -/
def is_a_console (env : KbdEnv) : Bool :=
  match env.kbtype with
  | some arg => arg = KB_101 || arg = KB_84
  | none => false

/-- The function `open_a_console`: the descriptor, or -1. -/
def open_a_console (env : KbdEnv) : Int :=
  let r1 := env.tty_rdwr
  let r2 := if r1 = OpenResult.eacces then env.tty_wronly else r1
  let r3 := if r2 = OpenResult.eacces then env.tty_rdonly else r2
  match r3 with
  | OpenResult.fd n => if is_a_console env then (n : Int) else -1
  | _ => -1

/-- The key table as `ioctl(kfd, KDGKBENT, ...)` shows it: every query fails
on the descriptor -1. -/
def console_via (kfd : Int) (keymap : Console) : Console :=
  if kfd < 0 then fun _ _ => none else keymap

/-- The globals that `init_kbd` sets. -/
structure KbdState where
  kbdfd : Int
  kfd : Int
  nr_keys : Int
  deriving DecidableEq, Repr

/-- The function `init_kbd`.  The result is `none` when the process exits
(`exit(EXIT_FAILURE)` after the keyboard device could not be opened). -/
def init_kbd (env : KbdEnv) : Option KbdState :=
  match env.kbd_open with
  | OpenResult.fd n =>
    let kfd := open_a_console env
    some { kbdfd := n, kfd := kfd, nr_keys := find_nr_keys (console_via kfd env.keymap) }
  | _ => none

/-! ## Session control

The event loop of `main` and the handler `sig_handler`, as a transition system
with three kinds of atomic action: `main` performs its next action (a loop
test, the start of a call, the return of a call); the transport, while a call
of `main` into it is in progress, changes the list of clients; a signal is
delivered and `sig_handler` runs.  A signal can so arrive at any point of the
loop, also in the middle of `rfbProcessEvents`, and the handler sees the list
as it is at that instant.  libvncserver runs only inside the calls that `main`
makes (there is no `rfbRunEventLoop`). -/

/-- Signal number `SIGINT`. -/
def SIGINT : Nat := 2
/-- Signal number `SIGTERM`. -/
def SIGTERM : Nat := 15

/-- Where `main` stands: at the test of `while (!shutdown_set)`; at the test of
the inner `while (vncscr->clientHead == NULL)`; inside the `rfbProcessEvents`
of the inner loop; inside the `rfbProcessEvents` that follows the inner loop;
inside the statement `if (update_screen() == 3) changeResolution();`; in the
teardown after the loop (`rfbShutdownServer` and the `cleanup_` calls); or
ended by an `exit` (in `sig_handler`, `readScreenInfo_m` or
`changeResolution`). -/
inductive Loc
  | loop_test
  | wait_test
  | wait_call
  | service_call
  | update_call
  | teardown
  | exited
  deriving DecidableEq, Repr

/-- The session: the place of `main`, the flag `shutdown_set`, and the number
of clients in the list of `vncscr` (`clientHead == NULL` means 0). -/
structure Session where
  loc : Loc
  shutdown_set : Int
  clients : Nat
  deriving DecidableEq, Repr

/-- The function `sig_handler`, run when a signal is delivered to the live
process. -/
def sig_handler (signo : Nat) (s : Session) : Session :=
  if s.loc = Loc.exited then s
  else if signo = SIGINT ∨ signo = SIGTERM then
    if s.clients = 0 then { s with shutdown_set := 1, loc := Loc.exited }
    else { s with shutdown_set := 1 }
  else s

/-- The next action of `main` in its event loop.  `ok` matters only inside
the statement `if (update_screen() == 3) changeResolution();`: it is `false`
when that statement ends the process (`exit(EXIT_FAILURE)` after a failed
ioctl in `readScreenInfo_m` or `changeResolution`, or after a failed `mmap`),
and `true` when it returns. -/
def main_step (ok : Bool) (s : Session) : Session :=
  match s.loc with
  | Loc.loop_test =>
    if s.shutdown_set = 0 then { s with loc := Loc.wait_test } else { s with loc := Loc.teardown }
  | Loc.wait_test =>
    if s.clients = 0 then { s with loc := Loc.wait_call } else { s with loc := Loc.service_call }
  | Loc.wait_call => { s with loc := Loc.wait_test }
  | Loc.service_call => { s with loc := Loc.update_call }
  | Loc.update_call => if ok then { s with loc := Loc.loop_test } else { s with loc := Loc.exited }
  | Loc.teardown => s
  | Loc.exited => s

/-- A call of `main` into the transport is in progress (`update_screen` calls
`rfbMarkRectAsModified` and `rfbProcessEvents`, `changeResolution` calls
`rfbNewFramebuffer`). -/
def in_transport (l : Loc) : Bool :=
  match l with
  | Loc.wait_call => true
  | Loc.service_call => true
  | Loc.update_call => true
  | _ => false

/-- The transport, inside a call of `main`, accepts or drops connections: the
list then holds `c` clients. -/
def transport (c : Nat) (s : Session) : Session :=
  if in_transport s.loc then { s with clients := c } else s

/-- What happens to the session: a signal is delivered, the transport changes
the list of clients, or `main` performs its next action. -/
inductive Event
  | signal (signo : Nat)
  | net (clients : Nat)
  | step (ok : Bool)
  deriving DecidableEq, Repr

/-- One event. -/
def session_event (e : Event) (s : Session) : Session :=
  match e with
  | Event.signal signo => sig_handler signo s
  | Event.net c => transport c s
  | Event.step ok => main_step ok s

/-- A sequence of events, the oldest first. -/
def session_run : List Event → Session → Session
  | [], s => s
  | e :: es, s => session_run es (session_event e s)

/-- The session when `main` enters its event loop: the flag is 0 and no
client is connected. -/
def session_start : Session := ⟨Loc.loop_test, 0, 0⟩

/-! ## The frame buffer driver `src/vircon.c`

The mode check `vircon_check_var` with `get_line_length`, and the pan request
`vircon_pan_display`.  Fields of type `__u32` are `Nat` below 2^32 and their
sums are taken modulo 2^32.  The type `u_long` has `lw` bits: 64 on a 64-bit
kernel, 32 on a 32-bit one.  A function that writes through `var` or
`info->var` returns the written structure next to its return value. -/

/-- The `struct fb_bitfield` of `<linux/fb.h>`. -/
structure fb_bitfield where
  offset : Nat
  length : Nat
  msb_right : Nat
  deriving DecidableEq, Repr

/-- The fields of `struct fb_var_screeninfo` that `vircon_check_var` and
`vircon_pan_display` read or write (`__u32` each, and four bit fields). -/
structure fb_var where
  xres : Nat
  yres : Nat
  xres_virtual : Nat
  yres_virtual : Nat
  xoffset : Nat
  yoffset : Nat
  bits_per_pixel : Nat
  red : fb_bitfield
  green : fb_bitfield
  blue : fb_bitfield
  transp : fb_bitfield
  vmode : Nat
  deriving DecidableEq, Repr

/-- The flag `FB_VMODE_YWRAP` of `<linux/fb.h>`. -/
def FB_VMODE_YWRAP : Nat := 256
/-- The flag `FB_VMODE_CONUPDATE` of `<linux/fb.h>`. -/
def FB_VMODE_CONUPDATE : Nat := 512
/-- The error number `EINVAL`. -/
def EINVAL : Int := 22
/-- The error number `ENOMEM`. -/
def ENOMEM : Int := 12

/-- The default of the module parameter `videomemorysize`:
`#define VIDEOMEMSIZE (4*1024*1024)`. -/
def VIDEOMEMSIZE : Nat := 4 * 1024 * 1024

/-- The fields above of the static `vircon_default`
(`FB_VMODE_NONINTERLACED` is 0). -/
def vircon_default : fb_var :=
  { xres := 640, yres := 480, xres_virtual := 640, yres_virtual := 480, xoffset := 0,
    yoffset := 0, bits_per_pixel := 8, red := ⟨0, 8, 0⟩, green := ⟨0, 8, 0⟩,
    blue := ⟨0, 8, 0⟩, transp := ⟨0, 0, 0⟩, vmode := 0 }

/-- The value of an integer converted to `u_long`. -/
def to_ulong (lw : Nat) (i : Int) : Nat := (i % 2 ^ lw).toNat

/-- The function `get_line_length(int xres_virtual, int bpp)`: the product is
an `int` product (two's complement, 32 bits) that is converted to `u_long`;
`length + 31` is a `u_long` sum; `~31` is the `int` -32, which as `u_long` is
`2^lw - 32`. -/
def get_line_length (lw : Nat) (xres_virtual bpp : Int) : Nat :=
  let length0 : Nat := to_ulong lw (to_int32 (xres_virtual * bpp))
  let length1 : Nat := ((length0 + 31) % 2 ^ lw) &&& (2 ^ lw - 32)
  length1 >>> 3

/-- The statement `if (bits_per_pixel <= 1) ... else if (<= 8) ...` of
`vircon_check_var` for a depth of at most 32: the depth it stores. -/
def round_depth (bpp : Nat) : Nat :=
  if bpp ≤ 1 then 1 else if bpp ≤ 8 then 8 else if bpp ≤ 16 then 16
  else if bpp ≤ 24 then 24 else 32

/-- The `switch (var->bits_per_pixel)` of `vircon_check_var` and the four
assignments `msb_right = 0` after it. -/
def set_bitfields (v : fb_var) : fb_var :=
  let v1 : fb_var :=
    if v.bits_per_pixel = 1 ∨ v.bits_per_pixel = 8 then
      { v with red := ⟨0, 8, v.red.msb_right⟩, green := ⟨0, 8, v.green.msb_right⟩,
               blue := ⟨0, 8, v.blue.msb_right⟩, transp := ⟨0, 0, v.transp.msb_right⟩ }
    else if v.bits_per_pixel = 16 then
      if v.transp.length ≠ 0 then
        { v with red := ⟨0, 5, v.red.msb_right⟩, green := ⟨5, 5, v.green.msb_right⟩,
                 blue := ⟨10, 5, v.blue.msb_right⟩, transp := ⟨15, 1, v.transp.msb_right⟩ }
      else
        { v with red := ⟨0, 5, v.red.msb_right⟩, green := ⟨5, 6, v.green.msb_right⟩,
                 blue := ⟨11, 5, v.blue.msb_right⟩, transp := ⟨0, 0, v.transp.msb_right⟩ }
    else if v.bits_per_pixel = 24 then
      { v with red := ⟨0, 8, v.red.msb_right⟩, green := ⟨8, 8, v.green.msb_right⟩,
               blue := ⟨16, 8, v.blue.msb_right⟩, transp := ⟨0, 0, v.transp.msb_right⟩ }
    else if v.bits_per_pixel = 32 then
      { v with red := ⟨0, 8, v.red.msb_right⟩, green := ⟨8, 8, v.green.msb_right⟩,
               blue := ⟨16, 8, v.blue.msb_right⟩, transp := ⟨24, 8, v.transp.msb_right⟩ }
    else v
  { v1 with red := { v1.red with msb_right := 0 }, green := { v1.green with msb_right := 0 },
            blue := { v1.blue with msb_right := 0 },
            transp := { v1.transp with msb_right := 0 } }

/-- The statements of `vircon_check_var` before the depth is looked at: the
offsets of a console update, and the "very basic checks" on the visible and
the virtual size. -/
def check_basic (info_var var : fb_var) : fb_var :=
  let v1 : fb_var :=
    if var.vmode &&& FB_VMODE_CONUPDATE ≠ 0 then
      { var with vmode := var.vmode ||| FB_VMODE_YWRAP, xoffset := info_var.xoffset,
                 yoffset := info_var.yoffset }
    else var
  let v2 : fb_var := if v1.xres = 0 then { v1 with xres := 1 } else v1
  let v3 : fb_var := if v2.yres = 0 then { v2 with yres := 1 } else v2
  let v4 : fb_var := if v3.xres > v3.xres_virtual then { v3 with xres_virtual := v3.xres } else v3
  if v4.yres > v4.yres_virtual then { v4 with yres_virtual := v4.yres } else v4

/-- The statements of `vircon_check_var` between the depth check and the
memory limit, for a depth of at most 32: the depth is rounded up and the
virtual size is raised to `xoffset + xres` and `yoffset + yres`, which are
sums of `__u32`. -/
def check_virtual (v5 : fb_var) : fb_var :=
  let v6 : fb_var := { v5 with bits_per_pixel := round_depth v5.bits_per_pixel }
  let v7 : fb_var :=
    if v6.xres_virtual < (v6.xoffset + v6.xres) % 2 ^ 32 then
      { v6 with xres_virtual := (v6.xoffset + v6.xres) % 2 ^ 32 }
    else v6
  if v7.yres_virtual < (v7.yoffset + v7.yres) % 2 ^ 32 then
    { v7 with yres_virtual := (v7.yoffset + v7.yres) % 2 ^ 32 }
  else v7

/-- The function `vircon_check_var(var, info)`.  `lw` is the width of
`u_long`, `videomemorysize` the module parameter, `info_var` is `info->var`.
The arguments of `get_line_length` are `__u32` values converted to `int`, and
`line_length * var->yres_virtual` is a `u_long` product.  The result is the
return value and `*var` as the function leaves it. -/
def vircon_check_var (lw videomemorysize : Nat) (info_var var : fb_var) : Int × fb_var :=
  let v5 : fb_var := check_basic info_var var
  if v5.bits_per_pixel > 32 then (-EINVAL, v5)
  else
    let v8 : fb_var := check_virtual v5
    let line_length : Nat :=
      get_line_length lw (to_int32 v8.xres_virtual) (to_int32 v8.bits_per_pixel)
    if line_length * v8.yres_virtual % 2 ^ lw > videomemorysize then (-ENOMEM, v8)
    else (0, set_bitfields v8)

/-- The statements of `vircon_pan_display` after the checks: `info->var` with
the offsets stored and `FB_VMODE_YWRAP` set or cleared (`~FB_VMODE_YWRAP` as
`__u32` is `2^32 - 257`). -/
def pan_store (var info_var : fb_var) : fb_var :=
  let i1 : fb_var := { info_var with xoffset := var.xoffset, yoffset := var.yoffset }
  if var.vmode &&& FB_VMODE_YWRAP ≠ 0 then { i1 with vmode := i1.vmode ||| FB_VMODE_YWRAP }
  else { i1 with vmode := i1.vmode &&& (2 ^ 32 - 1 - FB_VMODE_YWRAP) }

/-- The function `vircon_pan_display(var, info)`: the return value and
`info->var` as the function leaves it. -/
def vircon_pan_display (var info_var : fb_var) : Int × fb_var :=
  if var.vmode &&& FB_VMODE_YWRAP ≠ 0 then
    if var.yoffset ≥ info_var.yres_virtual ∨ var.xoffset ≠ 0 then (-EINVAL, info_var)
    else (0, pan_store var info_var)
  else
    if (var.xoffset + info_var.xres) % 2 ^ 32 > info_var.xres_virtual ∨
        (var.yoffset + info_var.yres) % 2 ^ 32 > info_var.yres_virtual then (-EINVAL, info_var)
    else (0, pan_store var info_var)

/-! ## The static key tables with checked indexing -/

/-- The element `map[i]` of a static table for an `int` index `i`: `none`
when the index is outside the table. -/
def table_at (map : List Int) (i : Int) : Option Int :=
  if 0 ≤ i then map[i.toNat]? else none

/-- The function `keysym2scancode` with every access to a static `map`
checked: `none` when an index is outside its table.  The branches for the
digits and for the symbols outside the four table ranges read no table; their
result is that of `keysym2scancode`.  In the table ranges `code` is positive,
so `code & 0xF` and `code & 0x5F` are the bit operations on its value. -/
def keysym2scancode_checked (con : Console) (nr_keys : Int) (down : Int) (key : Nat) :
    Option KeyResult :=
  let code : Int := key_to_int key
  if 48 ≤ code ∧ code ≤ 57 then
    some (keysym2scancode con nr_keys down key)
  else if 0xFF50 ≤ code ∧ code ≤ 0xFF58 then
    (table_at map_nav ((code.toNat &&& 0xF : Nat) : Int)).map fun s => ⟨s, false⟩
  else if 0xFFBE ≤ code ∧ code ≤ 0xFFC9 then
    (table_at map_fn (code - 0xFFBE)).map fun s => ⟨s, false⟩
  else if 0xFFE1 ≤ code ∧ code ≤ 0xFFEE then
    (table_at map_mod ((code.toNat &&& 0xF : Nat) : Int)).map fun s => ⟨s, false⟩
  else if (65 ≤ code ∧ code ≤ 90) ∨ (97 ≤ code ∧ code ≤ 122) then
    (table_at map_letter (((code.toNat &&& 0x5F : Nat) : Int) - 65)).map fun s => ⟨s, false⟩
  else
    some (keysym2scancode con nr_keys down key)

/-! ## Predicates and sample inputs for the key translation -/

/-- The symbol lies in one of the five contiguous ranges that
`keysym2scancode` maps through a static table or by arithmetic. -/
def in_static_range (code : Int) : Prop :=
  (48 ≤ code ∧ code ≤ 57) ∨ (0xFF50 ≤ code ∧ code ≤ 0xFF58) ∨ (0xFFBE ≤ code ∧ code ≤ 0xFFC9) ∨
    (0xFFE1 ≤ code ∧ code ≤ 0xFFEE) ∨ (65 ≤ code ∧ code ≤ 90) ∨ (97 ≤ code ∧ code ≤ 122)

/-- The symbol is one of the control symbols that the `switch` of
`keysym2scancode` maps to a fixed scancode. -/
def is_fixed_control (code : Int) : Prop :=
  code = 0xFE03 ∨ code = 0xFF08 ∨ code = 0xFF1B ∨ code = 0xFF09 ∨ code = 0xFF0D ∨ code = 0xFFFF

instance (code : Int) : Decidable (in_static_range code) := by
  unfold in_static_range; infer_instance

instance (code : Int) : Decidable (is_fixed_control code) := by
  unfold is_fixed_control; infer_instance

/-- A console whose only key is entry 37, which produces `0xE4` in the plain
state. -/
def console37 : Console := fun n t => if n = 37 ∧ t = 0 then some 0xE4 else none

/-- The key code that `<linux/input-event-codes.h>` gives to the key of the
Latin letter with the upper-case character code `c`, written out in numbers:
A 30, B 48, C 46, D 32, E 18, F 33, G 34, H 35, I 23, J 36, K 37, L 38, M 50,
N 49, O 24, P 25, Q 16, R 19, S 31, T 20, U 22, V 47, W 17, X 45, Y 21, Z 44;
and 0 for every other `c`. -/
def letter_key_code (c : Nat) : Int :=
  match c with
  | 65 => 30
  | 66 => 48
  | 67 => 46
  | 68 => 32
  | 69 => 18
  | 70 => 33
  | 71 => 34
  | 72 => 35
  | 73 => 23
  | 74 => 36
  | 75 => 37
  | 76 => 38
  | 77 => 50
  | 78 => 49
  | 79 => 24
  | 80 => 25
  | 81 => 16
  | 82 => 19
  | 83 => 31
  | 84 => 20
  | 85 => 22
  | 86 => 47
  | 87 => 17
  | 88 => 45
  | 89 => 21
  | 90 => 44
  | _ => 0

/-! ## Predicates and sample inputs for the diff pass -/

/-- The state of the scan while every word compared so far in this pass
differed, from the third word on: the box starts at column 0 and row 0,
reaches row `j` and column `a`, the flags say "changed" and nothing was
flushed. -/
def Steady (j a : Int) (s : Scan) : Prop :=
  s.vb.min_i = 0 ∧ s.vb.min_j = 0 ∧ s.vb.max_j = j ∧ s.vb.max_i = a ∧ s.line_changed = 1 ∧
    s.changes_pending = 1 ∧ s.lines_unchanged = 0 ∧ s.rects = []

/-- The bounding box is in the state that `update_screen` sets at its start and
after every flush. -/
def Reset (vb : varblock_t) : Prop :=
  vb.min_i = 9999 ∧ vb.min_j = 9999 ∧ vb.max_i = -1 ∧ vb.max_j = -1

/-- The rectangle that a flush of the reset bounding box marks:
(min_i, min_j, max_i + 2, max_j + 1) = (9999, 9999, 1, 0). -/
def stale_rect : Rect := ⟨9999, 9999, 1, 0⟩

/-- The low 16-bit pixel of a word. -/
def lo16 (w : Nat) : Nat := w &&& 0xffff

/-- The high 16-bit pixel of a 32-bit word. -/
def hi16 (w : Nat) : Nat := (w >>> 16) &&& 0xffff

/-- A 5-bit channel of a pixel, read at bit offset `shift` with mask `0x1f`,
the way a pixel format with maximum 31 declares it. -/
def chan (px shift : Nat) : Nat := (px >>> shift) &&& 0x1f

/-- A state for geometry `g` with capture `cap`, snapshot `snap`, a zeroed sink
and the channel offsets of an RGB565 source as `init_fb_server` computes them
(11, 6, 0). -/
def sample_state (g : fb_var_screeninfo) (cap snap : Buf) : State :=
  { scrinfo := g, scrinfo_m := g, fbmmap := cap, fbbuf := snap, vncbuf := Buf.zero,
    varblock := ⟨0, 0, 0, 0, 11, 6, 0, g.yres, (g.xres : Int) - 1⟩ }

/-- A capture buffer whose only non-zero word is word `k`, which holds 1 (its
low pixel is 1). -/
def cap_word (k : Nat) : Buf := fun i => if i = k then 1 else 0

/-- A capture buffer with every pixel `0xffff`. -/
def cap_white : Buf := fun _ => 0xffffffff

/-- The pass that `update_screen` returns, or a pass with return value -1 when
the process exits. -/
def pass_of (io : Option fb_var_screeninfo) (lu0 cp0 : Int) (st : State) : Pass :=
  (update_screen io lu0 cp0 st).getD
    { ret := -1, rects := [], cmps := [], st := st, lines_unchanged := lu0,
      changes_pending := cp0 }

/-! ## Predicates and sample inputs for the pointer events -/

/-- The button bits 0 to 4 of two masks agree. -/
def SameButtons (p m : Nat) : Prop :=
  p &&& 1 = m &&& 1 ∧ p &&& 2 = m &&& 2 ∧ p &&& 4 = m &&& 4 ∧ p &&& 8 = m &&& 8 ∧
    p &&& 16 = m &&& 16

/-- The axis range that the vircon mouse declares (`input_set_abs_params` in
`vircon.c`): 0 to 32767 on both axes. -/
def vircon_mouse : AxisRange := ⟨0, 32767, 0, 32767⟩

/-- The three events of a plain motion to the rescaled coordinate. -/
def motion (ax : AxisRange) (scrinfo : fb_var_screeninfo) (x y : Int) : List input_event :=
  [⟨EV_ABS, ABS_X, move_x ax scrinfo x⟩, ⟨EV_ABS, ABS_Y, move_y ax scrinfo y⟩, ⟨EV_SYN, 0, 0⟩]

/-- The four bounds of the axis range are values of an `int`. -/
def AxisRange.is_int (ax : AxisRange) : Prop :=
  (-2 ^ 31 ≤ ax.xmin ∧ ax.xmin < 2 ^ 31) ∧ (-2 ^ 31 ≤ ax.xmax ∧ ax.xmax < 2 ^ 31) ∧
    (-2 ^ 31 ≤ ax.ymin ∧ ax.ymin < 2 ^ 31) ∧ (-2 ^ 31 ≤ ax.ymax ∧ ax.ymax < 2 ^ 31)

instance (ax : AxisRange) : Decidable ax.is_int := by
  unfold AxisRange.is_int; infer_instance

/-! ## Predicates for the session control -/

/-- A start-up in which the keyboard device opens as descriptor 3 and
`/dev/tty0` cannot be opened at all. -/
def env_no_console : KbdEnv :=
  { kbd_open := OpenResult.fd 3, tty_rdwr := OpenResult.error, tty_wronly := OpenResult.error,
    tty_rdonly := OpenResult.error, kbtype := none, keymap := fun _ _ => none }

/-- A start-up in which `/dev/tty0` opens as a console but every key-entry
query `KDGKBENT` fails. -/
def env_no_keymap : KbdEnv :=
  { kbd_open := OpenResult.fd 3, tty_rdwr := OpenResult.fd 4, tty_wronly := OpenResult.error,
    tty_rdonly := OpenResult.error, kbtype := some KB_101, keymap := fun _ _ => none }

/-! ## Predicates and sample inputs for the run-length flush -/

/-- A capture buffer for rows of `W` words: every word of a row listed in
`rows` holds 1, every other word 0. -/
def cap_rows (W : Nat) (rows : List Nat) : Buf := fun i => if i / W ∈ rows then 1 else 0

/-- The scan has met no changed word in this pass: `line_changed` is still 0
and the bounding box is reset.  With `clean` (nothing pending at the start)
no rectangle was marked; otherwise the only rectangle that can have been
marked is the flush of the reset box, after which nothing is pending. -/
def BeforeChange (clean : Prop) (s : Scan) : Prop :=
  s.line_changed = 0 ∧ Reset s.vb ∧
    ((s.rects = [] ∧ (clean → s.changes_pending = 0)) ∨
      (¬ clean ∧ s.rects = [stale_rect] ∧ s.changes_pending = 0))

/-- The scan has met a changed word in this pass: `line_changed` is 1 and the
count of unchanged rows is 0. -/
def AfterChange (clean : Prop) (s : Scan) : Prop :=
  s.line_changed = 1 ∧ s.lines_unchanged = 0 ∧
    (s.rects = [] ∨ (¬ clean ∧ s.rects = [stale_rect]))

/-! ## Buffer sizes and predicates for the bounds of the scan -/

/-- Two states of the scan that agree in everything but the contents of
snapshot and sink at word offsets from `N` on. -/
def ScanAgree (N : Nat) (s t : Scan) : Prop :=
  s.pos = t.pos ∧ (∀ k, k < N → s.fbbuf k = t.fbbuf k) ∧
    (∀ k, k < N → s.vncbuf k = t.vncbuf k) ∧ s.vb = t.vb ∧
    s.line_changed = t.line_changed ∧ s.lines_unchanged = t.lines_unchanged ∧
    s.changes_pending = t.changes_pending ∧ s.rects = t.rects ∧ s.cmps = t.cmps

/-- The value of `pixels` in `init_fb` and `changeResolution`, and the first
argument of the two `calloc` calls: `scrinfo.xres * scrinfo.yres`, a product of
two `__u32`. -/
def pixels (g : fb_var_screeninfo) : Nat := g.xres * g.yres % 2 ^ 32

/-- The value of `bytespp`, and the second argument of the two `calloc`
calls: `scrinfo.bits_per_pixel / 8`. -/
def bytespp (g : fb_var_screeninfo) : Nat := g.bits_per_pixel / 8

/-- The size in bytes of the capture mapping (`fbmmap_size = pixels * bytespp`)
and of the blocks that `calloc(scrinfo.xres * scrinfo.yres,
scrinfo.bits_per_pixel / 8)` returns for snapshot and sink.  The product is
that of a 64-bit `size_t`; with a 32-bit `size_t` the mapping has this size
modulo 2^32, which is the same below 2^32. -/
def buffer_bytes (g : fb_var_screeninfo) : Nat := pixels g * bytespp g

/-- The 32-bit word at word offset `k` lies inside a buffer of
`buffer_bytes g` bytes. -/
def word_inside (g : fb_var_screeninfo) (k : Nat) : Prop := 4 * k + 4 ≤ buffer_bytes g

instance (g : fb_var_screeninfo) (k : Nat) : Decidable (word_inside g k) := by
  unfold word_inside; infer_instance

/-- Two states with the same geometry and `varblock` whose capture, snapshot
and sink hold the same words below word offset `N`. -/
def SameBelow (N : Nat) (st st' : State) : Prop :=
  st'.scrinfo = st.scrinfo ∧ st'.varblock = st.varblock ∧
    ∀ k, k < N → st'.fbmmap k = st.fbmmap k ∧ st'.fbbuf k = st.fbbuf k ∧
      st'.vncbuf k = st.vncbuf k

/-- A 65536 x 65538 surface of 16 bits per pixel: its pixel count is
2^32 + 2^17. -/
def wide_geom : fb_var_screeninfo := ⟨65536, 65538, 16⟩

/-! ## Well-formed dirty rectangles -/

/-- The rectangle `(x1, y1, x2, y2)` is non-empty and lies inside the surface
of geometry `g`: `0 <= x1 < x2 <= xres` and `0 <= y1 < y2 <= yres`. -/
def well_formed (g : fb_var_screeninfo) (q : Rect) : Prop :=
  0 ≤ q.x1 ∧ q.x1 < q.x2 ∧ q.x2 ≤ g.xres ∧ 0 ≤ q.y1 ∧ q.y1 < q.y2 ∧ q.y2 ≤ g.yres

instance (g : fb_var_screeninfo) (q : Rect) : Decidable (well_formed g q) := by
  unfold well_formed; infer_instance

/-! ## Sizes and sample requests for the driver -/

/-- The byte size of a mode in exact integers:
`ceil(xres_virtual * bits_per_pixel / 32) * 4 * yres_virtual`. -/
def mode_bytes (v : fb_var) : Nat :=
  (v.xres_virtual * v.bits_per_pixel + 31) / 32 * 4 * v.yres_virtual

/-- The request for the default mode (640x480, 8 bits per pixel) with a
virtual width of 2^32 - 1. -/
def var_wide : fb_var := { vircon_default with xres_virtual := 4294967295 }

/-- The request for the default mode at 32 bits per pixel with a virtual
width of 2^30. -/
def var_wide32 : fb_var :=
  { vircon_default with xres_virtual := 1073741824, bits_per_pixel := 32 }

/-- The request for a 1024x768 mode of 16 bits per pixel. -/
def var_xga : fb_var :=
  { vircon_default with xres := 1024, yres := 768, xres_virtual := 1024, yres_virtual := 768,
                        bits_per_pixel := 16 }

/-- A pan request to column 2^32 - 640 of the default mode. -/
def var_pan : fb_var := { vircon_default with xoffset := 4294966656 }

/-! # Theorems -/

/-! ## The diff pass: how one step treats a word -/

theorem pixel_step_same (fb : Buf) (x y : Int) (s : Scan) (h : fb s.pos = s.fbbuf s.pos) :
    pixel_step fb x y s = { s with pos := s.pos + 1, cmps := s.cmps ++ [s.pos] } := by
  simp [pixel_step, h]

theorem pixel_step_pos (fb : Buf) (x y : Int) (s : Scan) :
    (pixel_step fb x y s).pos = s.pos + 1 := by
  unfold pixel_step
  dsimp only
  split <;> rfl

theorem pixel_step_fbbuf (fb : Buf) (x y : Int) (s : Scan) (i : Nat) :
    (pixel_step fb x y s).fbbuf i = if i = s.pos then fb i else s.fbbuf i := by
  unfold pixel_step
  dsimp only
  by_cases h : fb s.pos = s.fbbuf s.pos
  · rw [if_neg (not_not.mpr h)]
    split
    · next e => rw [e, h]
    · rfl
  · rw [if_pos h]
    dsimp only [Buf.store]
    split
    · next e => rw [e]
    · rfl

theorem row_loop_pos (fb : Buf) (y : Int) :
    ∀ (n : Nat) (x : Int) (s : Scan), (row_loop fb y n x s).pos = s.pos + n := by
  intro n
  induction n with
  | zero => intro x s; rfl
  | succ n ih =>
    intro x s
    simp only [row_loop]
    rw [ih, pixel_step_pos]
    omega

theorem row_loop_fbbuf (fb : Buf) (y : Int) :
    ∀ (n : Nat) (x : Int) (s : Scan) (i : Nat),
      (row_loop fb y n x s).fbbuf i = if s.pos ≤ i ∧ i < s.pos + n then fb i else s.fbbuf i := by
  intro n
  induction n with
  | zero => intro x s i; rw [if_neg (by omega)]; rfl
  | succ n ih =>
    intro x s i
    simp only [row_loop]
    rw [ih, pixel_step_pos, pixel_step_fbbuf]
    by_cases h1 : s.pos + 1 ≤ i ∧ i < s.pos + 1 + n
    · rw [if_pos h1, if_pos (by omega)]
    · rw [if_neg h1]
      by_cases h2 : i = s.pos
      · rw [if_pos h2, if_pos (by omega)]
      · rw [if_neg h2, if_neg (by omega)]

theorem row_end_pos (s : Scan) : (row_end s).pos = s.pos := by
  unfold row_end
  dsimp only
  split_ifs <;> rfl

theorem row_end_fbbuf (s : Scan) : (row_end s).fbbuf = s.fbbuf := by
  unfold row_end
  dsimp only
  split_ifs <;> rfl

theorem row_end_vncbuf (s : Scan) : (row_end s).vncbuf = s.vncbuf := by
  unfold row_end
  dsimp only
  split_ifs <;> rfl

theorem screen_loop_pos (fb : Buf) (xres : Nat) :
    ∀ (n : Nat) (y : Int) (s : Scan),
      (screen_loop fb xres n y s).pos = s.pos + n * ((xres + 1) / 2) := by
  intro n
  induction n with
  | zero => intro y s; simp [screen_loop]
  | succ n ih =>
    intro y s
    simp only [screen_loop]
    rw [ih, row_end_pos, row_loop_pos, Nat.succ_mul]
    omega

theorem screen_loop_fbbuf (fb : Buf) (xres : Nat) :
    ∀ (n : Nat) (y : Int) (s : Scan) (i : Nat),
      (screen_loop fb xres n y s).fbbuf i =
        if s.pos ≤ i ∧ i < s.pos + n * ((xres + 1) / 2) then fb i else s.fbbuf i := by
  intro n
  induction n with
  | zero => intro y s i; rw [if_neg (by omega)]; rfl
  | succ n ih =>
    intro y s i
    simp only [screen_loop]
    rw [ih, row_end_pos, row_end_fbbuf, row_loop_pos, row_loop_fbbuf, Nat.succ_mul]
    by_cases h1 : s.pos + (xres + 1) / 2 ≤ i ∧ i < s.pos + (xres + 1) / 2 + n * ((xres + 1) / 2)
    · rw [if_pos h1, if_pos (by omega)]
    · rw [if_neg h1]
      by_cases h2 : s.pos ≤ i ∧ i < s.pos + (xres + 1) / 2
      · rw [if_pos h2, if_pos (by omega)]
      · rw [if_neg h2, if_neg (by omega)]

theorem final_flush_fbbuf (s : Scan) : (final_flush s).fbbuf = s.fbbuf := by
  unfold final_flush
  split <;> rfl

theorem final_flush_vncbuf (s : Scan) : (final_flush s).vncbuf = s.vncbuf := by
  unfold final_flush
  split <;> rfl

theorem row_loop_same (fb : Buf) (y : Int) :
    ∀ (n : Nat) (x : Int) (s : Scan),
      (∀ k, k < n → fb (s.pos + k) = s.fbbuf (s.pos + k)) →
      row_loop fb y n x s =
        { s with pos := s.pos + n, cmps := s.cmps ++ List.range' s.pos n } := by
  intro n
  induction n with
  | zero => intro x s _; simp [row_loop]
  | succ n ih =>
    intro x s h
    have h0 := h 0 (by omega)
    simp only [Nat.add_zero] at h0
    simp only [row_loop]
    rw [pixel_step_same fb x y s h0, ih]
    · simp [List.range'_succ, Nat.add_assoc, Nat.add_comm 1 n]
    · intro k hk
      have := h (k + 1) (by omega)
      simpa [Nat.add_assoc, Nat.add_comm 1 k] using this

/-- One row end in the quiet regime (no word changed yet in this pass, box
reset): the row counter goes up by one, and a flush of the reset box happens
exactly when the counter exceeds 5 while `changes_pending` is set. -/
theorem row_end_quiet (s : Scan) (hl : s.line_changed = 0) (hv : Reset s.vb) :
    row_end s =
      { s with
        lines_unchanged := s.lines_unchanged + 1
        changes_pending := if s.lines_unchanged + 1 > 5 ∧ s.changes_pending ≠ 0 then 0
          else s.changes_pending
        rects := s.rects ++
          (if s.lines_unchanged + 1 > 5 ∧ s.changes_pending ≠ 0 then [stale_rect] else []) } := by
  obtain ⟨h1, h2, h3, h4⟩ := hv
  unfold row_end
  simp only [hl, if_true]
  by_cases hc : s.lines_unchanged + 1 > 5 ∧ s.changes_pending ≠ 0
  · rw [if_pos hc, if_pos hc, if_pos hc]
    simp only [Scan.mk.injEq, true_and, and_true, stale_rect, h1, h2, h3, h4]
    refine ⟨?_, by norm_num⟩
    cases hvb : s.vb
    simp only [hvb] at h1 h2 h3 h4
    simp [h1, h2, h3, h4]
  · rw [if_neg hc, if_neg hc, if_neg hc]
    simp

theorem screen_loop_quiet (fb : Buf) (xres : Nat) :
    ∀ (n : Nat) (y : Int) (s : Scan), s.line_changed = 0 → Reset s.vb →
      (∀ k, k < n * ((xres + 1) / 2) → fb (s.pos + k) = s.fbbuf (s.pos + k)) →
      screen_loop fb xres n y s =
        { s with
          pos := s.pos + n * ((xres + 1) / 2)
          cmps := s.cmps ++ List.range' s.pos (n * ((xres + 1) / 2))
          lines_unchanged := s.lines_unchanged + n
          changes_pending :=
            if s.lines_unchanged + n > 5 ∧ s.changes_pending ≠ 0 ∧ 0 < n then 0
            else s.changes_pending
          rects := s.rects ++
            (if s.lines_unchanged + n > 5 ∧ s.changes_pending ≠ 0 ∧ 0 < n then [stale_rect]
             else []) } := by
  intro n
  induction n with
  | zero => intro y s _ _ _; simp [screen_loop]
  | succ n ih =>
    intro y s hl hv h
    have hrow : ∀ k, k < (xres + 1) / 2 → fb (s.pos + k) = s.fbbuf (s.pos + k) := by
      intro k hk
      apply h
      rw [Nat.succ_mul]
      omega
    simp only [screen_loop]
    rw [row_loop_same fb y _ 0 s hrow, row_end_quiet, ih]
    · simp only [Nat.succ_mul, Scan.mk.injEq, true_and, and_true]
      refine ⟨by omega, by push_cast; omega, ?_, ?_, ?_⟩
      · by_cases hc : s.lines_unchanged + 1 > 5 ∧ s.changes_pending ≠ 0
        · simp only [if_pos hc]
          rw [if_neg (by simp), if_pos (by push_cast; omega)]
        · simp only [if_neg hc]
          by_cases hn : n = 0
          · subst hn
            rw [if_neg (by simp), if_neg (by push_cast; simp; omega)]
          · have e : (s.lines_unchanged + 1 + (n : Int) > 5 ∧ s.changes_pending ≠ 0 ∧ 0 < n) ↔
                (s.lines_unchanged + ((n + 1 : Nat) : Int) > 5 ∧ s.changes_pending ≠ 0 ∧
                  0 < n + 1) := by
              push_cast; constructor <;> intro ⟨a, b, _⟩ <;> exact ⟨by omega, b, by omega⟩
            simp only [e]
      · by_cases hc : s.lines_unchanged + 1 > 5 ∧ s.changes_pending ≠ 0
        · simp only [if_pos hc]
          rw [if_neg (by simp), if_pos (by push_cast; omega)]
          simp
        · simp only [if_neg hc]
          by_cases hn : n = 0
          · subst hn
            rw [if_neg (by simp), if_neg (by push_cast; simp; omega)]
            simp
          · have e : (s.lines_unchanged + 1 + (n : Int) > 5 ∧ s.changes_pending ≠ 0 ∧ 0 < n) ↔
                (s.lines_unchanged + ((n + 1 : Nat) : Int) > 5 ∧ s.changes_pending ≠ 0 ∧
                  0 < n + 1) := by
              push_cast; constructor <;> intro ⟨a, b, _⟩ <;> exact ⟨by omega, b, by omega⟩
            simp only [e, List.append_nil]
      · rw [List.append_assoc, List.range'_append_1, Nat.add_comm]
    · exact hl
    · exact hv
    · intro k hk
      have := h ((xres + 1) / 2 + k) (by rw [Nat.succ_mul]; omega)
      simpa [Nat.add_assoc] using this
    · exact hl
    · exact hv

theorem readScreenInfo_m_cmp_self (g : fb_var_screeninfo) : readScreenInfo_m_cmp g g = 0 := by
  simp [readScreenInfo_m_cmp]

/-- With an unchanged geometry `update_screen` runs the scan and returns 0. -/
theorem update_screen_same_geometry (st : State) (lu cp : Int) :
    update_screen (some st.scrinfo) lu cp st =
      some { ret := 0,
             rects := (diff_scan { st with scrinfo_m := st.scrinfo } lu cp).rects,
             cmps := (diff_scan { st with scrinfo_m := st.scrinfo } lu cp).cmps,
             st := { st with
               scrinfo_m := st.scrinfo
               fbbuf := (diff_scan { st with scrinfo_m := st.scrinfo } lu cp).fbbuf
               vncbuf := (diff_scan { st with scrinfo_m := st.scrinfo } lu cp).vncbuf
               varblock := (diff_scan { st with scrinfo_m := st.scrinfo } lu cp).vb },
             lines_unchanged := (diff_scan { st with scrinfo_m := st.scrinfo } lu cp).lines_unchanged,
             changes_pending :=
               (diff_scan { st with scrinfo_m := st.scrinfo } lu cp).changes_pending } := by
  simp [update_screen, readScreenInfo_m, readScreenInfo_m_cmp_self]

/-- After the scan the snapshot holds the capture on every compared word. -/
theorem diff_scan_fbbuf (st : State) (lu cp : Int) (i : Nat)
    (hi : i < st.scrinfo.yres * ((st.scrinfo.xres + 1) / 2)) :
    (diff_scan st lu cp).fbbuf i = st.fbmmap i := by
  unfold diff_scan
  rw [final_flush_fbbuf, screen_loop_fbbuf]
  simp [scan_init, hi]

/-- A pass over a snapshot equal to the capture on every compared word writes
neither snapshot nor sink, and it marks the reset box once exactly when
`changes_pending` starts non-zero and `lines_unchanged` exceeds 5 within the
pass. -/
theorem diff_scan_quiet (st : State) (lu cp : Int)
    (h : ∀ i, i < st.scrinfo.yres * ((st.scrinfo.xres + 1) / 2) → st.fbmmap i = st.fbbuf i) :
    (diff_scan st lu cp).rects =
        (if lu + st.scrinfo.yres > 5 ∧ cp ≠ 0 ∧ 0 < st.scrinfo.yres then [stale_rect] else []) ∧
      (diff_scan st lu cp).fbbuf = st.fbbuf ∧ (diff_scan st lu cp).vncbuf = st.vncbuf := by
  unfold diff_scan
  rw [screen_loop_quiet]
  · simp [final_flush, scan_init]
  · rfl
  · exact ⟨rfl, rfl, rfl, rfl⟩
  · intro k hk
    simpa [scan_init] using h k hk

/-- The diff pass run twice: after a pass that returned 0, a second pass over
the same capture and geometry returns 0 and leaves snapshot and sink
unchanged; it marks nothing when its local `changes_pending` starts at 0, and
it marks the reset box (9999, 9999, 1, 0) when that local starts non-zero and
its local `lines_unchanged` exceeds 5 within the pass. -/
theorem second_pass_quiet (st : State) (lu cp lu2 cp2 : Int) (r1 : Pass)
    (h1 : update_screen (some st.scrinfo) lu cp st = some r1) :
    ∃ r2, update_screen (some st.scrinfo) lu2 cp2 r1.st = some r2 ∧ r2.ret = 0 ∧
      r2.rects =
        (if lu2 + st.scrinfo.yres > 5 ∧ cp2 ≠ 0 ∧ 0 < st.scrinfo.yres then [stale_rect] else []) ∧
      r2.st.fbbuf = r1.st.fbbuf ∧ r2.st.vncbuf = r1.st.vncbuf := by
  rw [update_screen_same_geometry] at h1
  have e := Option.some.inj h1
  subst e
  have hs := update_screen_same_geometry
    { st with
      scrinfo_m := st.scrinfo
      fbbuf := (diff_scan { st with scrinfo_m := st.scrinfo } lu cp).fbbuf
      vncbuf := (diff_scan { st with scrinfo_m := st.scrinfo } lu cp).vncbuf
      varblock := (diff_scan { st with scrinfo_m := st.scrinfo } lu cp).vb } lu2 cp2
  dsimp only at hs ⊢
  refine ⟨_, hs, rfl, ?_⟩
  dsimp only
  apply diff_scan_quiet
  intro i hi
  exact (diff_scan_fbbuf { st with scrinfo_m := st.scrinfo } lu cp i hi).symm

theorem pixel_step_steady (fb : Buf) (x y : Int) (s : Scan) (j a : Int)
    (h : fb s.pos ≠ s.fbbuf s.pos) (hs : Steady j a s) (hj0 : 0 ≤ j) (hjy : j ≤ y) (hx : 0 ≤ x) :
    Steady y (max a x) (pixel_step fb x y s) := by
  obtain ⟨h1, h2, h3, h4, h5, h6, h7, h8⟩ := hs
  unfold Steady pixel_step
  dsimp only
  rw [if_pos h]
  dsimp only
  rw [if_neg (by omega)]
  refine ⟨?_, ?_, ?_, ?_, rfl, rfl, rfl, h8⟩
  all_goals
    split_ifs <;> simp_all <;> omega

theorem row_loop_steady (fb : Buf) (y : Int) :
    ∀ (n : Nat) (x : Int) (s : Scan) (j a : Int), Steady j a s → 0 ≤ j → j ≤ y → 0 ≤ x →
      (∀ k, k < n → fb (s.pos + k) ≠ s.fbbuf (s.pos + k)) →
      Steady (if n = 0 then j else y) (if n = 0 then a else max a (x + 2 * ((n : Int) - 1)))
        (row_loop fb y n x s) := by
  intro n
  induction n with
  | zero => intro x s j a hs _ _ _ _; simpa [row_loop] using hs
  | succ n ih =>
    intro x s j a hs hj0 hjy hx h
    have h0 := h 0 (by omega)
    simp only [Nat.add_zero] at h0
    have hs1 := pixel_step_steady fb x y s j a h0 hs hj0 hjy hx
    have := ih (x + 2) (pixel_step fb x y s) y (max a x) hs1 (by omega) (le_refl y) (by omega)
      (by
        intro k hk
        rw [pixel_step_pos, pixel_step_fbbuf, if_neg (by omega)]
        have := h (k + 1) (by omega)
        rwa [show s.pos + 1 + k = s.pos + (k + 1) by omega])
    simp only [row_loop]
    have e : (if n = 0 then max a x else max (max a x) (x + 2 + 2 * ((n : Int) - 1))) =
        max a (x + 2 * (((n + 1 : Nat) : Int) - 1)) := by
      split
      · next hn => subst hn; simp
      · push_cast; omega
    rw [e] at this
    simpa using this

theorem row_end_steady (s : Scan) (j a : Int) (hs : Steady j a s) :
    row_end s = s := by
  obtain ⟨h1, h2, h3, h4, h5, h6, h7, h8⟩ := hs
  unfold row_end
  simp [h5, h7]

theorem screen_loop_steady (fb : Buf) (xres : Nat) (hw : 1 ≤ (xres + 1) / 2) :
    ∀ (n : Nat) (y : Int) (s : Scan), 1 ≤ y →
      Steady (y - 1) (2 * (((xres + 1) / 2 : Nat) : Int) - 2) s →
      (∀ k, k < n * ((xres + 1) / 2) → fb (s.pos + k) ≠ s.fbbuf (s.pos + k)) →
      Steady (y - 1 + n) (2 * (((xres + 1) / 2 : Nat) : Int) - 2) (screen_loop fb xres n y s) := by
  intro n
  induction n with
  | zero => intro y s _ hs _; simpa [screen_loop] using hs
  | succ n ih =>
    intro y s hy hs h
    have hrow := row_loop_steady fb y ((xres + 1) / 2) 0 s (y - 1) _ hs (by omega) (by omega)
      (le_refl 0) (fun k hk => h k (by rw [Nat.succ_mul]; omega))
    rw [if_neg (by omega), if_neg (by omega)] at hrow
    have e : max (2 * (((xres + 1) / 2 : Nat) : Int) - 2) (0 + 2 * ((((xres + 1) / 2 : Nat) : Int) - 1))
        = 2 * (((xres + 1) / 2 : Nat) : Int) - 2 := by omega
    rw [e] at hrow
    simp only [screen_loop]
    rw [row_end_steady _ _ _ hrow]
    have := ih (y + 1) _ (by omega) (by simpa using hrow) (by
      intro k hk
      rw [row_loop_pos, row_loop_fbbuf, if_neg (by omega)]
      have := h ((xres + 1) / 2 + k) (by rw [Nat.succ_mul]; omega)
      rwa [show s.pos + (xres + 1) / 2 + k = s.pos + ((xres + 1) / 2 + k) by omega])
    have e2 : y + 1 - 1 + (n : Int) = y - 1 + ((n + 1 : Nat) : Int) := by push_cast; omega
    rw [e2] at this
    exact this

/-- The first three words of a pass, all different from the snapshot, bring
the scan into the steady state with the box reaching column 4 of row 0. -/
theorem first_words_steady (fb : Buf) (st : State) (lu cp : Int)
    (h0 : fb 0 ≠ st.fbbuf 0) (h1 : fb 1 ≠ st.fbbuf 1) (h2 : fb 2 ≠ st.fbbuf 2) :
    Steady 0 4 (row_loop fb 0 3 0 (scan_init st lu cp)) := by
  simp [row_loop, pixel_step, scan_init, Steady, Buf.store, h0, h1, h2]

theorem row_loop_add (fb : Buf) (y : Int) :
    ∀ (a b : Nat) (x : Int) (s : Scan),
      row_loop fb y (a + b) x s = row_loop fb y b (x + 2 * a) (row_loop fb y a x s) := by
  intro a
  induction a with
  | zero => intro b x s; simp [row_loop]
  | succ a ih =>
    intro b x s
    rw [show a + 1 + b = (a + b) + 1 by omega]
    simp only [row_loop]
    rw [ih]
    congr 1
    push_cast
    omega

theorem final_flush_steady (s : Scan) (j a : Int) (hs : Steady j a s) (hj : 0 ≤ j) (ha : 0 ≤ a) :
    (final_flush s).rects = [⟨0, 0, a + 2, j + 1⟩] := by
  obtain ⟨h1, h2, h3, h4, h5, h6, h7, h8⟩ := hs
  have a1 : ¬ s.vb.max_i < 0 := by omega
  have a2 : ¬ s.vb.max_j < 0 := by omega
  have a3 : s.vb.min_i < 9999 := by omega
  unfold final_flush
  rw [if_pos a3]
  dsimp only
  rw [if_neg a1]
  rw [if_neg a2, h8, h1, h2, h3, h4]
  rfl

/-- A pass over a surface of even width at least 6 on which every word of the
capture differs from the snapshot marks exactly the whole surface. -/
theorem diff_scan_all_changed (st : State) (lu cp : Int)
    (hx : 6 ≤ st.scrinfo.xres) (heven : st.scrinfo.xres % 2 = 0) (hy : 1 ≤ st.scrinfo.yres)
    (h : ∀ i, i < st.scrinfo.yres * (st.scrinfo.xres / 2) → st.fbmmap i ≠ st.fbbuf i) :
    (diff_scan st lu cp).rects = [⟨0, 0, st.scrinfo.xres, st.scrinfo.yres⟩] := by
  obtain ⟨m, hm⟩ : ∃ m, st.scrinfo.yres = m + 1 := ⟨st.scrinfo.yres - 1, by omega⟩
  obtain ⟨k, hk⟩ : ∃ k, (st.scrinfo.xres + 1) / 2 = 3 + k :=
    ⟨(st.scrinfo.xres + 1) / 2 - 3, by omega⟩
  have hW : (st.scrinfo.xres + 1) / 2 = st.scrinfo.xres / 2 := by omega
  have hpos : 1 ≤ st.scrinfo.yres * (st.scrinfo.xres / 2) := by
    rw [hm, Nat.succ_mul]; omega
  have hle : 3 + k ≤ st.scrinfo.yres * (st.scrinfo.xres / 2) := by
    rw [hm, Nat.succ_mul]; omega
  -- the first row
  have s3 := first_words_steady st.fbmmap st lu cp (h 0 (by omega)) (h 1 (by omega))
    (h 2 (by omega))
  have hrow := row_loop_steady st.fbmmap 0 k 6 _ 0 4 s3 (le_refl 0) (le_refl 0) (by norm_num)
    (by
      intro i hi
      rw [row_loop_pos, row_loop_fbbuf, if_neg (by simp [scan_init])]
      simp only [scan_init, Nat.zero_add]
      exact h (3 + i) (by omega))
  have e1 : (if k = 0 then (0 : Int) else 0) = 1 - 1 := by split <;> rfl
  have e2 : (if k = 0 then (4 : Int) else max 4 (6 + 2 * ((k : Int) - 1))) =
      2 * (((st.scrinfo.xres + 1) / 2 : Nat) : Int) - 2 := by
    rw [hk]; split
    · next h0 => subst h0; rfl
    · push_cast; omega
  have ea : row_loop st.fbmmap 0 (3 + k) 0 (scan_init st lu cp) =
      row_loop st.fbmmap 0 k 6 (row_loop st.fbmmap 0 3 0 (scan_init st lu cp)) := by
    rw [row_loop_add]; norm_num
  rw [e1, e2, ← ea, ← hk] at hrow
  -- the other rows
  have hall := screen_loop_steady st.fbmmap st.scrinfo.xres (by omega) m 1
    (row_end (row_loop st.fbmmap 0 ((st.scrinfo.xres + 1) / 2) 0 (scan_init st lu cp)))
    (le_refl 1) (by rw [row_end_steady _ _ _ hrow]; exact hrow)
    (by
      intro i hi
      rw [row_end_pos, row_end_fbbuf, row_loop_pos, row_loop_fbbuf, if_neg (by simp [scan_init])]
      simp only [scan_init, Nat.zero_add]
      exact h ((st.scrinfo.xres + 1) / 2 + i) (by rw [hm, Nat.succ_mul, ← hW]; omega))
  unfold diff_scan
  rw [hm]
  simp only [screen_loop, Int.zero_add]
  rw [final_flush_steady _ _ _ hall (by omega) (by omega)]
  simp only [List.cons.injEq, Rect.mk.injEq, true_and, and_true]
  constructor
  · omega
  · push_cast; omega

theorem screen_loop_add (fb : Buf) (xres : Nat) :
    ∀ (a b : Nat) (y : Int) (s : Scan),
      screen_loop fb xres (a + b) y s = screen_loop fb xres b (y + a) (screen_loop fb xres a y s) := by
  intro a
  induction a with
  | zero => intro b y s; simp [screen_loop]
  | succ a ih =>
    intro b y s
    rw [show a + 1 + b = (a + b) + 1 by omega]
    simp only [screen_loop]
    rw [ih]
    congr 1
    push_cast
    omega

/-- A row end after a change in this pass does nothing: `line_changed` is
never cleared, so `lines_unchanged` stays 0. -/
theorem row_end_idle (s : Scan) (hl : s.line_changed = 1) (hu : s.lines_unchanged = 0) :
    row_end s = s := by
  unfold row_end
  simp [hl, hu]

theorem screen_loop_idle (fb : Buf) (xres : Nat) :
    ∀ (n : Nat) (y : Int) (s : Scan), s.line_changed = 1 → s.lines_unchanged = 0 →
      (∀ k, k < n * ((xres + 1) / 2) → fb (s.pos + k) = s.fbbuf (s.pos + k)) →
      screen_loop fb xres n y s =
        { s with
          pos := s.pos + n * ((xres + 1) / 2)
          cmps := s.cmps ++ List.range' s.pos (n * ((xres + 1) / 2)) } := by
  intro n
  induction n with
  | zero => intro y s _ _ _; simp [screen_loop]
  | succ n ih =>
    intro y s hl hu h
    have hrow : ∀ k, k < (xres + 1) / 2 → fb (s.pos + k) = s.fbbuf (s.pos + k) := by
      intro k hk
      apply h
      rw [Nat.succ_mul]
      omega
    simp only [screen_loop]
    rw [row_loop_same fb y _ 0 s hrow, row_end_idle, ih]
    · simp only [Nat.succ_mul, Scan.mk.injEq, true_and, and_true]
      refine ⟨by omega, ?_⟩
      rw [List.append_assoc, List.range'_append_1, Nat.add_comm]
    · exact hl
    · exact hu
    · intro k hk
      have := h ((xres + 1) / 2 + k) (by rw [Nat.succ_mul]; omega)
      simpa [Nat.add_assoc] using this
    · exact hl
    · exact hu

/-- The first changed word of a region, at column `x` below 9999: only `min_i`
of the box is set; the row bounds and `max_i` keep their reset values. -/
theorem pixel_step_first (fb : Buf) (x y : Int) (s : Scan)
    (h : fb s.pos ≠ s.fbbuf s.pos) (hv : Reset s.vb) (hx : x < 9999) :
    (pixel_step fb x y s).vb.min_i = x ∧ (pixel_step fb x y s).vb.min_j = 9999 ∧
      (pixel_step fb x y s).vb.max_i = -1 ∧ (pixel_step fb x y s).vb.max_j = -1 ∧
      (pixel_step fb x y s).line_changed = 1 ∧ (pixel_step fb x y s).lines_unchanged = 0 ∧
      (pixel_step fb x y s).rects = s.rects := by
  obtain ⟨h1, h2, h3, h4⟩ := hv
  unfold pixel_step
  dsimp only
  rw [if_pos h]
  dsimp only
  rw [if_pos (by omega)]
  exact ⟨rfl, h2, h3, h4, rfl, rfl, rfl⟩

/-- The final flush of a box of which only `min_i` was set marks the columns
of that word and the rows 9999 to 10000. -/
theorem final_flush_first (s : Scan) (x : Int) (h1 : s.vb.min_i = x) (h2 : s.vb.min_j = 9999)
    (h3 : s.vb.max_i = -1) (h4 : s.vb.max_j = -1) (hx : x < 9999) :
    (final_flush s).rects = s.rects ++ [⟨x, 9999, x + 2, 10000⟩] := by
  have a1 : s.vb.max_i < 0 := by omega
  have a2 : s.vb.max_j < 0 := by omega
  have a3 : s.vb.min_i < 9999 := by omega
  unfold final_flush
  rw [if_pos a3]
  dsimp only
  rw [if_pos a1]
  dsimp only
  rw [if_pos a2, h1, h2]
  rfl

theorem update_screen_changed (st : State) (m : fb_var_screeninfo) (lu cp : Int)
    (hd : st.scrinfo.xres ≠ m.xres ∨ st.scrinfo.yres ≠ m.yres ∨
      st.scrinfo.bits_per_pixel ≠ m.bits_per_pixel) :
    update_screen (some m) lu cp st =
      some { ret := 3, rects := [], cmps := [], st := { st with scrinfo_m := m },
             lines_unchanged := lu, changes_pending := cp } := by
  simp only [update_screen, readScreenInfo_m, readScreenInfo_m_cmp, if_pos hd]
  rfl

theorem update_screen_unchanged (st : State) (m : fb_var_screeninfo) (lu cp : Int)
    (hd : ¬ (st.scrinfo.xres ≠ m.xres ∨ st.scrinfo.yres ≠ m.yres ∨
      st.scrinfo.bits_per_pixel ≠ m.bits_per_pixel)) :
    update_screen (some m) lu cp st =
      some { ret := 0,
             rects := (diff_scan { st with scrinfo_m := m } lu cp).rects,
             cmps := (diff_scan { st with scrinfo_m := m } lu cp).cmps,
             st := { st with
               scrinfo_m := m
               fbbuf := (diff_scan { st with scrinfo_m := m } lu cp).fbbuf
               vncbuf := (diff_scan { st with scrinfo_m := m } lu cp).vncbuf
               varblock := (diff_scan { st with scrinfo_m := m } lu cp).vb },
             lines_unchanged := (diff_scan { st with scrinfo_m := m } lu cp).lines_unchanged,
             changes_pending := (diff_scan { st with scrinfo_m := m } lu cp).changes_pending } := by
  simp only [update_screen, readScreenInfo_m, readScreenInfo_m_cmp, if_neg hd]
  rfl

/-- A pass over a capture that differs from the snapshot in exactly one
compared word, word `w0`, which lies in row `w0 / W` at column
`2 * (w0 % W)` for `W = (xres + 1) / 2` words per row: the last rectangle
marked has the columns of that word and the rows 9999 to 10000; before it the
reset box is marked once if the locals start so that the row counter exceeds 5
with `changes_pending` set before the changed row. -/
theorem diff_scan_single_word (st : State) (lu cp : Int) (w0 : Nat)
    (hw : w0 < st.scrinfo.yres * ((st.scrinfo.xres + 1) / 2))
    (hx : 2 * (w0 % ((st.scrinfo.xres + 1) / 2)) < 9999)
    (hne : st.fbmmap w0 ≠ st.fbbuf w0)
    (hsame : ∀ i, i < st.scrinfo.yres * ((st.scrinfo.xres + 1) / 2) → i ≠ w0 →
      st.fbmmap i = st.fbbuf i) :
    (diff_scan st lu cp).rects =
      (if lu + ((w0 / ((st.scrinfo.xres + 1) / 2) : Nat) : Int) > 5 ∧ cp ≠ 0 ∧
          0 < w0 / ((st.scrinfo.xres + 1) / 2) then [stale_rect] else []) ++
        [⟨((2 * (w0 % ((st.scrinfo.xres + 1) / 2)) : Nat) : Int), 9999,
          ((2 * (w0 % ((st.scrinfo.xres + 1) / 2)) : Nat) : Int) + 2, 10000⟩] := by
  generalize hW : (st.scrinfo.xres + 1) / 2 = W at *
  generalize hN : st.scrinfo.yres = N at *
  have hWpos : 0 < W := by
    rcases Nat.eq_zero_or_pos W with h | h
    · subst h; simp at hw
    · exact h
  have hc0 : w0 % W < W := Nat.mod_lt _ hWpos
  have hy0 : w0 / W < N := (Nat.div_lt_iff_lt_mul hWpos).mpr hw
  have hdiv : w0 / W * W + w0 % W = w0 := by
    rw [Nat.mul_comm]; exact Nat.div_add_mod w0 W
  obtain ⟨rest, hrest⟩ : ∃ rest, N = w0 / W + (rest + 1) := ⟨N - w0 / W - 1, by omega⟩
  obtain ⟨r2, hr2⟩ : ∃ r2, W = w0 % W + (r2 + 1) := ⟨W - w0 % W - 1, by omega⟩
  have hT : N * W = w0 / W * W + W + rest * W := by
    rw [hrest]; ring
  generalize hy : w0 / W = y0 at *
  generalize hc : w0 % W = c0 at *
  generalize hA : y0 * W = A at *
  -- the rows above the changed word
  have eA := screen_loop_quiet st.fbmmap st.scrinfo.xres y0 0 (scan_init st lu cp) rfl
    ⟨rfl, rfl, rfl, rfl⟩ (by
      intro k hk
      rw [hW, hA] at hk
      simp only [scan_init, Nat.zero_add]
      exact hsame k (by omega) (by omega))
  rw [hW, hA] at eA
  -- the words of the row before the changed word
  have eB := row_loop_same st.fbmmap (0 + (y0 : Int)) c0 0
    (screen_loop st.fbmmap st.scrinfo.xres y0 0 (scan_init st lu cp)) (by
      intro k hk
      rw [eA]
      simp only [scan_init, Nat.zero_add]
      exact hsame (A + k) (by omega) (by omega))
  -- the changed word
  have hposB : (row_loop st.fbmmap (0 + (y0 : Int)) c0 0
      (screen_loop st.fbmmap st.scrinfo.xres y0 0 (scan_init st lu cp))).pos = w0 := by
    rw [eB, eA]; simp only [scan_init, Nat.zero_add]; omega
  have hC := pixel_step_first st.fbmmap (0 + 2 * (c0 : Int)) (0 + (y0 : Int))
    (row_loop st.fbmmap (0 + (y0 : Int)) c0 0
      (screen_loop st.fbmmap st.scrinfo.xres y0 0 (scan_init st lu cp)))
    (by rw [hposB, eB, eA]; exact hne)
    (by rw [eB, eA]; exact ⟨rfl, rfl, rfl, rfl⟩)
    (by omega)
  -- the words of the row after the changed word
  have eD := row_loop_same st.fbmmap (0 + (y0 : Int)) r2 (0 + 2 * (c0 : Int) + 2)
    (pixel_step st.fbmmap (0 + 2 * (c0 : Int)) (0 + (y0 : Int))
      (row_loop st.fbmmap (0 + (y0 : Int)) c0 0
        (screen_loop st.fbmmap st.scrinfo.xres y0 0 (scan_init st lu cp)))) (by
      intro k hk
      rw [pixel_step_pos, pixel_step_fbbuf, hposB, if_neg (by omega), eB, eA]
      exact hsame (w0 + 1 + k) (by omega) (by omega))
  have erow : row_loop st.fbmmap (0 + (y0 : Int)) W 0
      (screen_loop st.fbmmap st.scrinfo.xres y0 0 (scan_init st lu cp)) =
      row_loop st.fbmmap (0 + (y0 : Int)) r2 (0 + 2 * (c0 : Int) + 2)
        (pixel_step st.fbmmap (0 + 2 * (c0 : Int)) (0 + (y0 : Int))
          (row_loop st.fbmmap (0 + (y0 : Int)) c0 0
            (screen_loop st.fbmmap st.scrinfo.xres y0 0 (scan_init st lu cp)))) := by
    rw [hr2, row_loop_add]
    rfl
  -- the rows below
  have eE := screen_loop_idle st.fbmmap st.scrinfo.xres rest (0 + (y0 : Int) + 1)
    (row_loop st.fbmmap (0 + (y0 : Int)) W 0
      (screen_loop st.fbmmap st.scrinfo.xres y0 0 (scan_init st lu cp)))
    (by rw [erow, eD]; exact hC.2.2.2.2.1)
    (by rw [erow, eD]; exact hC.2.2.2.2.2.1)
    (by
      intro k hk
      rw [hW] at hk
      rw [erow, eD]
      dsimp only
      rw [pixel_step_pos, pixel_step_fbbuf, hposB, if_neg (by omega), eB, eA]
      exact hsame (w0 + 1 + r2 + k) (by omega) (by omega))
  unfold diff_scan
  rw [hN, hrest, screen_loop_add]
  simp only [screen_loop]
  rw [hW, row_end_idle _ (by rw [erow, eD]; exact hC.2.2.2.2.1)
    (by rw [erow, eD]; exact hC.2.2.2.2.2.1), eE]
  rw [final_flush_first _ (0 + 2 * (c0 : Int))
    (by rw [erow, eD]; exact hC.1) (by rw [erow, eD]; exact hC.2.1)
    (by rw [erow, eD]; exact hC.2.2.1) (by rw [erow, eD]; exact hC.2.2.2.1) (by omega)]
  dsimp only
  rw [erow, eD]
  dsimp only
  rw [hC.2.2.2.2.2.2, eB, eA]
  simp [scan_init]


/-- A pass that returns 0 over a capture that differs from the snapshot in
exactly one compared word marks only rectangles whose first row is 9999, and
the last of them has the columns of the changed word. -/
theorem single_word_marks_row_9999 (st : State) (lu cp : Int) (w0 : Nat) (r : Pass)
    (hw : w0 < st.scrinfo.yres * ((st.scrinfo.xres + 1) / 2))
    (hx : 2 * (w0 % ((st.scrinfo.xres + 1) / 2)) < 9999)
    (hne : st.fbmmap w0 ≠ st.fbbuf w0)
    (hsame : ∀ i, i < st.scrinfo.yres * ((st.scrinfo.xres + 1) / 2) → i ≠ w0 →
      st.fbmmap i = st.fbbuf i)
    (hr : update_screen (some st.scrinfo) lu cp st = some r) :
    r.ret = 0 ∧ (∀ q ∈ r.rects, q.y1 = 9999 ∧ q.y2 ≤ 10000) ∧
      r.rects.getLast? = some ⟨((2 * (w0 % ((st.scrinfo.xres + 1) / 2)) : Nat) : Int), 9999,
          ((2 * (w0 % ((st.scrinfo.xres + 1) / 2)) : Nat) : Int) + 2, 10000⟩ := by
  rw [update_screen_same_geometry] at hr
  have e := Option.some.inj hr
  subst e
  dsimp only
  have h := diff_scan_single_word { st with scrinfo_m := st.scrinfo } lu cp w0 hw hx hne hsame
  dsimp only at h
  rw [h]
  refine ⟨rfl, ?_, by simp⟩
  intro q hq
  rw [List.mem_append] at hq
  rcases hq with hq | hq
  · split at hq
    · rw [List.mem_singleton] at hq
      subst hq
      exact ⟨rfl, by decide⟩
    · simp at hq
  · rw [List.mem_singleton] at hq
    subst hq
    exact ⟨rfl, le_refl _⟩

/-- C4. Geometry-change abort: when the ioctl delivers the geometry `m`,
`readScreenInfo_m` returns 1 exactly when `m` differs from the cached geometry
in `xres`, `yres` or `bits_per_pixel`, and `update_screen` returns 3 exactly
then; when it returns 3 no word was compared, no rectangle was marked, and
snapshot, sink and `varblock` are as before. -/
theorem update_screen_geometry_abort (st : State) (m : fb_var_screeninfo) (lu cp : Int) :
    ∃ st1 c r, readScreenInfo_m (some m) st = some (st1, c) ∧
      (c = 1 ↔ (st.scrinfo.xres ≠ m.xres ∨ st.scrinfo.yres ≠ m.yres ∨
        st.scrinfo.bits_per_pixel ≠ m.bits_per_pixel)) ∧
      update_screen (some m) lu cp st = some r ∧
      (r.ret = 3 ↔ (st.scrinfo.xres ≠ m.xres ∨ st.scrinfo.yres ≠ m.yres ∨
        st.scrinfo.bits_per_pixel ≠ m.bits_per_pixel)) ∧
      (r.ret = 3 → r.cmps = [] ∧ r.rects = [] ∧ r.st.fbbuf = st.fbbuf ∧
        r.st.vncbuf = st.vncbuf ∧ r.st.varblock = st.varblock) := by
  by_cases hd : st.scrinfo.xres ≠ m.xres ∨ st.scrinfo.yres ≠ m.yres ∨
      st.scrinfo.bits_per_pixel ≠ m.bits_per_pixel
  · refine ⟨_, _, _, rfl, ?_, update_screen_changed st m lu cp hd, ?_, ?_⟩
    · simp only [readScreenInfo_m_cmp, if_pos hd]
      exact ⟨fun _ => hd, fun _ => trivial⟩
    · exact ⟨fun _ => hd, fun _ => rfl⟩
    · intro _
      exact ⟨rfl, rfl, rfl, rfl, rfl⟩
  · refine ⟨_, _, _, rfl, ?_, update_screen_unchanged st m lu cp hd, ?_, ?_⟩
    · simp only [readScreenInfo_m_cmp, if_neg hd]
      exact ⟨fun h => absurd h (by norm_num), fun h => absurd h hd⟩
    · exact ⟨fun h => absurd h (by norm_num), fun h => absurd h hd⟩
    · intro h
      exact absurd h (by norm_num)

/-- C1, on the code: on a 2x6 surface whose capture differs from the snapshot
in word 0, the first pass returns 0 and leaves its locals `lines_unchanged` = 0
and `changes_pending` = 1; a second pass over the unchanged capture that finds
those values in its two locals without initialiser returns 0 and calls
`rfbMarkRectAsModified(9999, 9999, 1, 0)` after six unchanged rows. -/
theorem update_screen_second_pass_marks :
    (update_screen (some ⟨2, 6, 16⟩) 0 0 (sample_state ⟨2, 6, 16⟩ (cap_word 0) Buf.zero)).map
        (fun r => (r.ret, r.rects, r.lines_unchanged, r.changes_pending))
      = some (0, [⟨0, 9999, 2, 10000⟩], 0, 1) ∧
    ((update_screen (some ⟨2, 6, 16⟩) 0 0 (sample_state ⟨2, 6, 16⟩ (cap_word 0) Buf.zero)).bind
        (fun r1 => update_screen (some ⟨2, 6, 16⟩) r1.lines_unchanged r1.changes_pending r1.st)).map
        (fun r => (r.ret, r.rects))
      = some (0, [⟨9999, 9999, 1, 0⟩]) := by
  constructor <;> decide

/-- C2, on the code: on a 4x3 surface whose capture differs from the snapshot
only in the pixel at column 2, row 1 (the low half of word 3), the pass marks
the single rectangle (2, 9999, 4, 10000); no marked rectangle contains
column 2 and row 1. -/
theorem update_screen_single_pixel_rows :
    (update_screen (some ⟨4, 3, 16⟩) 0 0 (sample_state ⟨4, 3, 16⟩ (cap_word 3) Buf.zero)).map
        (fun r => (r.ret, r.rects))
      = some (0, [⟨2, 9999, 4, 10000⟩]) ∧
    ¬ ∃ q ∈ [(⟨2, 9999, 4, 10000⟩ : Rect)], q.x1 ≤ 2 ∧ 2 < q.x2 ∧ q.y1 ≤ 1 ∧ 1 < q.y2 := by
  constructor <;> decide

/-- C5 fails as stated: after `changeResolution` to a 6x2 surface whose capture
is all zero, the first pass returns 0 and marks no rectangle at all. -/
theorem rebuild_zero_capture_marks_nothing :
    (update_screen (some ⟨6, 2, 16⟩) 0 0
        (rebuilt ⟨6, 2, 16⟩ Buf.zero (sample_state ⟨4, 2, 16⟩ cap_white cap_white))).map
        (fun r => (r.ret, r.rects))
      = some (0, []) ∧
    changeResolution (some ⟨6, 2, 16⟩) (some Buf.zero)
        (sample_state ⟨4, 2, 16⟩ cap_white cap_white)
      = some (rebuilt ⟨6, 2, 16⟩ Buf.zero (sample_state ⟨4, 2, 16⟩ cap_white cap_white)) ∧
    ([] : List Rect) ≠ [⟨0, 0, 6, 2⟩] := by
  refine ⟨by decide, rfl, by decide⟩

/-- C5, amended. After `changeResolution` has rebuilt the buffers for a
geometry of even width at least 6 and height at least 1, with a capture buffer
whose every word is non-zero, the first `update_screen` pass that returns 0
marks exactly one rectangle, (0, 0, xres, yres); and the pass on the unchanged
geometry does return 0. -/
theorem update_screen_after_rebuild (geom : fb_var_screeninfo) (cap : Buf) (st S : State)
    (lu cp : Int) (hS : changeResolution (some geom) (some cap) st = some S)
    (hx : 6 ≤ geom.xres) (heven : geom.xres % 2 = 0) (hy : 1 ≤ geom.yres)
    (hcap : ∀ i, i < geom.yres * (geom.xres / 2) → cap i ≠ 0) :
    (∃ r, update_screen (some geom) lu cp S = some r ∧ r.ret = 0) ∧
    (∀ m r, update_screen (some m) lu cp S = some r → r.ret = 0 →
      r.rects = [⟨0, 0, geom.xres, geom.yres⟩]) := by
  have e : S = rebuilt geom cap st := (Option.some.inj hS).symm
  subst e
  constructor
  · exact ⟨_, update_screen_same_geometry (rebuilt geom cap st) lu cp, rfl⟩
  · intro m r hr h0
    by_cases hd : (rebuilt geom cap st).scrinfo.xres ≠ m.xres ∨
        (rebuilt geom cap st).scrinfo.yres ≠ m.yres ∨
        (rebuilt geom cap st).scrinfo.bits_per_pixel ≠ m.bits_per_pixel
    · rw [update_screen_changed _ m lu cp hd] at hr
      have e := Option.some.inj hr
      subst e
      exact absurd h0 (by norm_num)
    · rw [update_screen_unchanged _ m lu cp hd] at hr
      have e := Option.some.inj hr
      subst e
      exact diff_scan_all_changed _ lu cp hx heven hy hcap

/-- C5 amended, at a 6x2 surface whose capture is all white. -/
theorem update_screen_after_rebuild_witness :
    (update_screen (some ⟨6, 2, 16⟩) 0 0
        (rebuilt ⟨6, 2, 16⟩ cap_white (sample_state ⟨4, 2, 16⟩ cap_white cap_white))).map
        (fun r => r.rects)
      = some [⟨0, 0, 6, 2⟩] :=
  have h := update_screen_after_rebuild ⟨6, 2, 16⟩ cap_white
    (sample_state ⟨4, 2, 16⟩ cap_white cap_white) _ 0 0 rfl (by norm_num) (by norm_num)
    (by norm_num) (fun _ _ => by simp [cap_white])
  match h.1 with
  | ⟨r, hr, h0⟩ => by rw [hr, Option.map_some', h.2 _ r hr h0]; rfl

/-! ## Pixel conversion: theorems -/

theorem testBit_31 (i : Nat) : Nat.testBit 31 i = decide (i < 5) := by
  have : (31 : Nat) = 2 ^ 5 - 1 := by norm_num
  rw [this, Nat.testBit_two_pow_sub_one]

theorem testBit_ffff (i : Nat) : Nat.testBit 0xffff i = decide (i < 16) := by
  have : (0xffff : Nat) = 2 ^ 16 - 1 := by norm_num
  rw [this, Nat.testBit_two_pow_sub_one]

theorem testBit_1f001f (i : Nat) :
    Nat.testBit 0x1f001f i = (decide (i < 5) || (decide (16 ≤ i) && decide (i < 21))) := by
  have : (0x1f001f : Nat) = (2 ^ 5 - 1) ||| ((2 ^ 5 - 1) <<< 16) := by decide
  rw [this, Nat.testBit_or, Nat.testBit_shiftLeft, Nat.testBit_two_pow_sub_one,
    Nat.testBit_two_pow_sub_one]
  by_cases h : 16 ≤ i <;> simp [h]
  by_cases h2 : i < 21 <;> simp [h2] <;> omega

/-- The converted word fits an `unsigned int`, so storing it loses nothing. -/
theorem PIXEL_FB_TO_RFB_lt (p r g b : Nat) : PIXEL_FB_TO_RFB p r g b < 2 ^ 32 := by
  apply Nat.lt_pow_two_of_testBit
  intro i hi
  simp only [PIXEL_FB_TO_RFB, Nat.testBit_and, Nat.testBit_or, Nat.testBit_shiftRight,
    Nat.testBit_shiftLeft, testBit_1f001f]
  simp (disch := omega) only [decide_eq_true, decide_eq_false, Bool.and_true, Bool.and_false,
    Bool.or_false, Bool.false_or, Bool.true_and, Bool.false_and, Bool.or_true, Bool.true_or]

/-- C3. Pixel format round trip: for every word `p` holding two 16-bit pixels
and all source channel offsets `r`, `g`, `b` at most 11, each 16-bit half of
`PIXEL_FB_TO_RFB(p, r, g, b)` decodes at the shifts 0, 5, 10 with mask `0x1f`
to the 5-bit values at bits [r,r+5), [g,g+5), [b,b+5) of the same half of
`p`. -/
theorem PIXEL_FB_TO_RFB_round_trip (p r g b : Nat)
    (hr : r ≤ 11) (hg : g ≤ 11) (hb : b ≤ 11) :
    chan (lo16 (PIXEL_FB_TO_RFB p r g b)) 0 = chan (lo16 p) r ∧
    chan (lo16 (PIXEL_FB_TO_RFB p r g b)) 5 = chan (lo16 p) g ∧
    chan (lo16 (PIXEL_FB_TO_RFB p r g b)) 10 = chan (lo16 p) b ∧
    chan (hi16 (PIXEL_FB_TO_RFB p r g b)) 0 = chan (hi16 p) r ∧
    chan (hi16 (PIXEL_FB_TO_RFB p r g b)) 5 = chan (hi16 p) g ∧
    chan (hi16 (PIXEL_FB_TO_RFB p r g b)) 10 = chan (hi16 p) b := by
  refine ⟨?_, ?_, ?_, ?_, ?_, ?_⟩ <;>
  · apply Nat.eq_of_testBit_eq
    intro i
    simp only [chan, lo16, hi16, PIXEL_FB_TO_RFB, Nat.testBit_and, Nat.testBit_or,
      Nat.testBit_shiftRight, Nat.testBit_shiftLeft, testBit_31, testBit_ffff, testBit_1f001f]
    by_cases h : i < 5
    · simp (disch := omega) only [decide_eq_true, decide_eq_false, Bool.and_true,
        Bool.and_false, Bool.or_false, Bool.false_or, Bool.true_and, Bool.false_and,
        Bool.or_true, Bool.true_or]
      try (congr 1; omega)
    · simp (disch := omega) only [decide_eq_true, decide_eq_false, Bool.and_true,
        Bool.and_false, Bool.or_false, Bool.false_or, Bool.true_and, Bool.false_and,
        Bool.or_true, Bool.true_or]

/-- C3, at the word `0x12345678` with the offsets 11, 6, 0 of an RGB565
source. -/
theorem PIXEL_FB_TO_RFB_round_trip_witness :
    chan (lo16 (PIXEL_FB_TO_RFB 0x12345678 11 6 0)) 0 = chan (lo16 0x12345678) 11 ∧
    chan (lo16 (PIXEL_FB_TO_RFB 0x12345678 11 6 0)) 5 = chan (lo16 0x12345678) 6 ∧
    chan (lo16 (PIXEL_FB_TO_RFB 0x12345678 11 6 0)) 10 = chan (lo16 0x12345678) 0 ∧
    chan (hi16 (PIXEL_FB_TO_RFB 0x12345678 11 6 0)) 0 = chan (hi16 0x12345678) 11 ∧
    chan (hi16 (PIXEL_FB_TO_RFB 0x12345678 11 6 0)) 5 = chan (hi16 0x12345678) 6 ∧
    chan (hi16 (PIXEL_FB_TO_RFB 0x12345678 11 6 0)) 10 = chan (hi16 0x12345678) 0 :=
  PIXEL_FB_TO_RFB_round_trip 0x12345678 11 6 0 (by norm_num) (by norm_num) (by norm_num)

/-! ## Key translation: theorems -/

theorem key_to_int_of_lt (key : Nat) (h : key < 65536) : key_to_int key = (key : Int) := by
  unfold key_to_int
  have h1 : key % 2 ^ 32 = key := Nat.mod_eq_of_lt (by omega)
  rw [h1, if_pos (by omega)]

theorem key_to_int_eq_iff (key g : Nat) (hk : key < 2 ^ 32) (hg : g < 65536) :
    (g : Int) = key_to_int key ↔ g = key := by
  unfold key_to_int
  have h1 : key % 2 ^ 32 = key := Nat.mod_eq_of_lt hk
  rw [h1]
  split <;> omega

theorem get_key_sym_lt (con : Console) (n t : Nat) : get_key_sym con n t < 65536 := by
  unfold get_key_sym
  split
  · exact Nat.mod_lt _ (by norm_num)
  · norm_num

/-- On a symbol outside the static ranges and the fixed control symbols the
result of `keysym2scancode` is the result of the table scan. -/
theorem keysym2scancode_fallback (con : Console) (nr_keys down : Int) (key : Nat)
    (hs : ¬ in_static_range (key_to_int key)) (hf : ¬ is_fixed_control (key_to_int key)) :
    (keysym2scancode con nr_keys down key).scancode = hunt con (key_to_int key) nr_keys.toNat 0 := by
  unfold in_static_range at hs
  unfold is_fixed_control at hf
  push_neg at hs hf
  obtain ⟨h1, h2, h3, h4, h5, h6⟩ := hs
  obtain ⟨f1, f2, f3, f4, f5, f6⟩ := hf
  unfold keysym2scancode
  simp only []
  rw [if_neg (by omega), if_neg (by omega), if_neg (by omega), if_neg (by omega), if_neg (by omega)]
  rw [if_neg f1, if_neg f2, if_neg f3, if_neg f4, if_neg f5, if_neg f6]
  split <;> simp

theorem hunt_first (con : Console) (code : Int) (k : Nat) :
    ∀ (n i0 : Nat), k < n →
      ((get_key_sym con (i0 + k) 0 : Int) = code ∨ (get_key_sym con (i0 + k) 1 : Int) = code) →
      (∀ j, j < k → (get_key_sym con (i0 + j) 0 : Int) ≠ code ∧
        (get_key_sym con (i0 + j) 1 : Int) ≠ code) →
      hunt con code n i0 = ((i0 + k : Nat) : Int) := by
  induction k with
  | zero =>
    intro n i0 hn hm _
    obtain ⟨m, rfl⟩ : ∃ m, n = m + 1 := ⟨n - 1, by omega⟩
    simp only [hunt, Nat.add_zero] at hm ⊢
    rcases hm with hm | hm
    · rw [if_pos hm]
    · simp [hm]
  | succ k ih =>
    intro n i0 hn hm hmin
    obtain ⟨m, rfl⟩ : ∃ m, n = m + 1 := ⟨n - 1, by omega⟩
    have h0 := hmin 0 (by omega)
    simp only [Nat.add_zero] at h0
    simp only [hunt]
    rw [if_neg h0.1, if_neg h0.2]
    have := ih m (i0 + 1) (by omega) (by rw [show i0 + 1 + k = i0 + (k + 1) by omega]; exact hm)
      (fun j hj => by rw [show i0 + 1 + j = i0 + (j + 1) by omega]; exact hmin (j + 1) (by omega))
    rw [this]
    congr 1
    omega

theorem hunt_none (con : Console) (code : Int) :
    ∀ (n i0 : Nat),
      (∀ j, j < n → (get_key_sym con (i0 + j) 0 : Int) ≠ code ∧
        (get_key_sym con (i0 + j) 1 : Int) ≠ code) →
      hunt con code n i0 = 0 := by
  intro n
  induction n with
  | zero => intro i0 _; rfl
  | succ m ih =>
    intro i0 h
    have h0 := h 0 (by omega)
    simp only [Nat.add_zero] at h0
    simp only [hunt]
    rw [if_neg h0.1, if_neg h0.2]
    exact ih (i0 + 1) (fun j hj => by
      rw [show i0 + 1 + j = i0 + (j + 1) by omega]; exact h (j + 1) (by omega))

theorem hunt_bound (con : Console) (code : Int) :
    ∀ (n i0 : Nat), 0 ≤ hunt con code n i0 ∧ hunt con code n i0 < ((i0 + n : Nat) : Int) ∨
      hunt con code n i0 = 0 := by
  intro n
  induction n with
  | zero => intro i0; right; rfl
  | succ m ih =>
    intro i0
    simp only [hunt]
    split
    · left; omega
    · split
      · left; omega
      · rcases ih (i0 + 1) with h | h
        · left; omega
        · right; exact h

/-- C6. Key fallback returns the first match: for a key symbol outside every
static range and different from every fixed control symbol, and for every
console key table, `keysym2scancode` returns the lowest index `i` below
`nr_keys` whose plain-state or shifted-state symbol equals the requested
symbol. -/
theorem keysym2scancode_first_match (con : Console) (nr_keys down : Int) (key i : Nat)
    (hk : key < 2 ^ 32)
    (hs : ¬ in_static_range (key_to_int key)) (hf : ¬ is_fixed_control (key_to_int key))
    (hi : (i : Int) < nr_keys)
    (hm : get_key_sym con i 0 = key ∨ get_key_sym con i 1 = key)
    (hmin : ∀ j, j < i → get_key_sym con j 0 ≠ key ∧ get_key_sym con j 1 ≠ key) :
    (keysym2scancode con nr_keys down key).scancode = (i : Int) := by
  rw [keysym2scancode_fallback con nr_keys down key hs hf]
  have e := fun n t => key_to_int_eq_iff key (get_key_sym con n t) hk (get_key_sym_lt con n t)
  have := hunt_first con (key_to_int key) i nr_keys.toNat 0 (by omega)
    (by simpa [e] using hm)
    (fun j hj => by simpa [e] using hmin j hj)
  simpa using this

/-- C6, at the synthetic key table whose entry 37 produces the symbol in the
plain state: the symbol resolves to scancode 37. -/
theorem keysym2scancode_first_match_witness :
    (keysym2scancode console37 112 1 0xE4).scancode = 37 :=
  keysym2scancode_first_match console37 112 1 0xE4 37 (by norm_num) (by decide) (by decide)
    (by norm_num) (by decide) (by decide)

/-- C7. Unmapped keys are dropped: a key symbol outside every static range,
different from every fixed control symbol and equal to neither the plain nor
the shifted symbol of any key-table index below `nr_keys` makes
`keysym2scancode` return 0 and `keyevent` write nothing, whatever the
press/release flag. -/
theorem keyevent_unmapped_dropped (con : Console) (nr_keys down : Int) (key : Nat)
    (hk : key < 2 ^ 32)
    (hs : ¬ in_static_range (key_to_int key)) (hf : ¬ is_fixed_control (key_to_int key))
    (hno : ∀ i : Nat, (i : Int) < nr_keys →
      get_key_sym con i 0 ≠ key ∧ get_key_sym con i 1 ≠ key) :
    (keysym2scancode con nr_keys down key).scancode = 0 ∧
      (keyevent con nr_keys down key).written = [] := by
  have e := fun n t => key_to_int_eq_iff key (get_key_sym con n t) hk (get_key_sym_lt con n t)
  have h0 : (keysym2scancode con nr_keys down key).scancode = 0 := by
    rw [keysym2scancode_fallback con nr_keys down key hs hf]
    apply hunt_none
    intro j hj
    have := hno j (by omega)
    simpa [e] using this
  refine ⟨h0, ?_⟩
  unfold keyevent
  simp [h0]

theorem console37_sym (i t : Nat) :
    get_key_sym console37 i t = 0xE4 ∨ get_key_sym console37 i t = 0 := by
  unfold get_key_sym console37
  split_ifs <;> simp

/-- C7, at a console whose table does not produce the symbol `0x1234`: a
press and a release are both dropped. -/
theorem keyevent_unmapped_dropped_witness :
    ((keysym2scancode console37 112 1 0x1234).scancode = 0 ∧
      (keyevent console37 112 1 0x1234).written = []) ∧
    ((keysym2scancode console37 112 0 0x1234).scancode = 0 ∧
      (keyevent console37 112 0 0x1234).written = []) :=
  ⟨keyevent_unmapped_dropped console37 112 1 0x1234 (by norm_num) (by decide) (by decide)
      (fun i _ => by rcases console37_sym i 0 with h | h <;>
        rcases console37_sym i 1 with h1 | h1 <;> simp [h, h1]),
   keyevent_unmapped_dropped console37 112 0 0x1234 (by norm_num) (by decide) (by decide)
      (fun i _ => by rcases console37_sym i 0 with h | h <;>
        rcases console37_sym i 1 with h1 | h1 <;> simp [h, h1])⟩

theorem getD_bound (l : List Int) (h : ∀ x ∈ l, 0 ≤ x ∧ x < 256) :
    ∀ k : Nat, 0 ≤ l.getD k 0 ∧ l.getD k 0 < 256 := by
  induction l with
  | nil => intro k; simp
  | cons a t ih =>
    intro k
    cases k with
    | zero => simpa using h a (List.mem_cons_self a t)
    | succ k =>
      simpa using ih (fun x hx => h x (List.mem_cons_of_mem a hx)) k

/-- The scancode that `keysym2scancode` returns fits the `uint16_t` parameter
of `injectKeyEvent` when `nr_keys` is at most 65536 (`find_nr_keys` stores
112, 128 or 256). -/
theorem keysym2scancode_bound (con : Console) (nr_keys down : Int) (key : Nat)
    (hn : nr_keys ≤ 65536) :
    0 ≤ (keysym2scancode con nr_keys down key).scancode ∧
      (keysym2scancode con nr_keys down key).scancode < 65536 := by
  have hnav := getD_bound map_nav (by decide)
  have hfn := getD_bound map_fn (by decide)
  have hmod := getD_bound map_mod (by decide)
  have hlet := getD_bound map_letter (by decide)
  have hh := hunt_bound con (key_to_int key) nr_keys.toNat 0
  unfold keysym2scancode
  simp only []
  generalize key_to_int key = code at *
  by_cases c1 : 48 ≤ code ∧ code ≤ 57
  · rw [if_pos c1]
    have : code.toNat &&& 0xF < 2 ^ 4 := Nat.and_lt_two_pow _ (by norm_num)
    simp only [KEY_1]
    split <;> omega
  rw [if_neg c1]
  by_cases c2 : 0xFF50 ≤ code ∧ code ≤ 0xFF58
  · rw [if_pos c2]
    have := hnav (code.toNat &&& 0xF)
    dsimp only
    omega
  rw [if_neg c2]
  by_cases c3 : 0xFFBE ≤ code ∧ code ≤ 0xFFC9
  · rw [if_pos c3]
    have := hfn (code - 0xFFBE).toNat
    dsimp only
    omega
  rw [if_neg c3]
  by_cases c4 : 0xFFE1 ≤ code ∧ code ≤ 0xFFEE
  · rw [if_pos c4]
    have := hmod (code.toNat &&& 0xF)
    dsimp only
    omega
  rw [if_neg c4]
  by_cases c5 : (65 ≤ code ∧ code ≤ 90) ∨ (97 ≤ code ∧ code ≤ 122)
  · rw [if_pos c5]
    have := hlet ((code.toNat &&& 0x5F) - 65)
    dsimp only
    omega
  rw [if_neg c5]
  by_cases f1 : code = 0xFE03
  · subst f1; norm_num
  by_cases f2 : code = 0xFF08
  · subst f2; norm_num [KEY_BACKSPACE]
  by_cases f3 : code = 0xFF1B
  · subst f3; norm_num [KEY_ESC]
  by_cases f4 : code = 0xFF09
  · subst f4; norm_num [KEY_TAB]
  by_cases f5 : code = 0xFF0D
  · subst f5; norm_num [KEY_ENTER]
  by_cases f6 : code = 0xFFFF
  · subst f6; norm_num [KEY_DELETE]
  rw [if_neg f1, if_neg f2, if_neg f3, if_neg f4, if_neg f5, if_neg f6]
  have hz : (if code = 0xFFC8 then (⟨0, true⟩ : KeyResult) else ⟨0, false⟩).scancode = 0 := by
    split <;> rfl
  rw [if_pos hz]
  dsimp only
  omega

/-- The key count that `find_nr_keys` stores is 112, 128 or 256. -/
theorem find_nr_keys_le (con : Console) : 0 ≤ find_nr_keys con ∧ find_nr_keys con ≤ 256 := by
  unfold find_nr_keys
  split_ifs <;> norm_num

/-- C8. Key event synthesis: when `keysym2scancode` resolves the symbol to a
scancode `s`, `keyevent` writes to the keyboard device exactly one `EV_KEY`
event with code `s` and the press/release value, then exactly one `EV_SYN`
marker, and nothing else.  The press/release value is 0 or 1, and `nr_keys`
is 0 or what `find_nr_keys` stored, so both fit the `uint16_t` parameters of
`injectKeyEvent`. -/
theorem keyevent_synthesis (con : Console) (nr_keys down : Int) (key : Nat) (s : Int)
    (hn : nr_keys ≤ 65536) (hd0 : 0 ≤ down) (hd1 : down < 65536)
    (hs : (keysym2scancode con nr_keys down key).scancode = s) (hne : s ≠ 0) :
    (keyevent con nr_keys down key).written =
      [⟨EV_KEY, s.toNat, down⟩, ⟨EV_SYN, 0, 0⟩] := by
  have hb := keysym2scancode_bound con nr_keys down key hn
  rw [hs] at hb
  unfold keyevent
  simp only [hs, ne_eq, hne, not_false_eq_true, if_true, injectKeyEvent]
  rw [Int.emod_eq_of_lt hb.1 hb.2, Int.emod_eq_of_lt hd0 hd1]

/-- C8, at the console whose entry 37 produces `0xE4`: a press of `0xE4` writes
the key event with code 37 and value 1, then the marker. -/
theorem keyevent_synthesis_witness :
    (keyevent console37 112 1 0xE4).written = [⟨EV_KEY, 37, 1⟩, ⟨EV_SYN, 0, 0⟩] :=
  keyevent_synthesis console37 112 1 0xE4 37 (by norm_num) (by norm_num) (by norm_num)
    (by decide) (by norm_num)

/-- C9. Static digit and letter mapping: whatever the console key table, the
key count and the press flag, a digit symbol `c` gives
`KEY_1 + ((c - '1') mod 10)`, so that '1'..'9' give 2..10 and '0' gives
`KEY_0` = 11; a letter gives the entry of the `KEY_A` .. `KEY_Z` table at its
position in the alphabet, the same non-zero scancode for the upper-case and the
lower-case symbol, and that scancode is the Linux input key code of the
letter's own key (`letter_key_code`: A 30, B 48, ..., Z 44); the 26 codes are
pairwise different, and they are the values of `KEY_A` .. `KEY_Z`. -/
theorem keysym2scancode_digit_letter (con : Console) (nr_keys down : Int) (c : Nat) :
    (48 ≤ c → c ≤ 57 →
      keysym2scancode con nr_keys down c = ⟨KEY_1 + ((c : Int) - 49) % 10, false⟩ ∧
      (49 ≤ c → (keysym2scancode con nr_keys down c).scancode = (c : Int) - 47) ∧
      (c = 48 → (keysym2scancode con nr_keys down c).scancode = KEY_0 ∧
        (keysym2scancode con nr_keys down c).scancode = 11)) ∧
    (65 ≤ c → c ≤ 90 →
      keysym2scancode con nr_keys down c = ⟨map_letter.getD (c - 65) 0, false⟩ ∧
      keysym2scancode con nr_keys down (c + 32) = ⟨map_letter.getD (c - 65) 0, false⟩ ∧
      map_letter.getD (c - 65) 0 ≠ 0 ∧
      keysym2scancode con nr_keys down c = ⟨letter_key_code c, false⟩ ∧
      keysym2scancode con nr_keys down (c + 32) = ⟨letter_key_code c, false⟩ ∧
      letter_key_code c ≠ 0) ∧
    ((List.range' 65 26).map letter_key_code).Nodup ∧
    [KEY_A, KEY_B, KEY_C, KEY_D, KEY_E, KEY_F, KEY_G, KEY_H, KEY_I, KEY_J, KEY_K, KEY_L, KEY_M,
      KEY_N, KEY_O, KEY_P, KEY_Q, KEY_R, KEY_S, KEY_T, KEY_U, KEY_V, KEY_W, KEY_X, KEY_Y, KEY_Z]
      = (List.range' 65 26).map letter_key_code := by
  refine ⟨?_, ?_, by decide, by decide⟩
  · intro h1 h2
    interval_cases c <;> refine ⟨by rfl, fun h => ?_, fun h => ?_⟩ <;>
      first | rfl | exact ⟨rfl, rfl⟩ | (exact absurd h (by norm_num))
  · intro h1 h2
    interval_cases c <;> refine ⟨by rfl, by rfl, by decide, by rfl, by rfl, by decide⟩

/-- C9, at the symbols '7', 'K', 'k', 'A' and 'b'. -/
theorem keysym2scancode_digit_letter_witness :
    (keysym2scancode console37 112 1 55).scancode = 8 ∧
    (keysym2scancode console37 112 0 75).scancode = KEY_K ∧
    (keysym2scancode console37 112 0 107).scancode = KEY_K ∧
    keysym2scancode console37 112 0 75 = ⟨37, false⟩ ∧
    keysym2scancode console37 112 1 65 = ⟨30, false⟩ ∧
    keysym2scancode console37 112 1 98 = ⟨48, false⟩ :=
  have h := keysym2scancode_digit_letter console37 112 1 55
  have g := keysym2scancode_digit_letter console37 112 0 75
  have a := keysym2scancode_digit_letter console37 112 1 65
  have b := keysym2scancode_digit_letter console37 112 1 66
  ⟨(h.1 (by norm_num) (by norm_num)).2.1 (by norm_num),
   by rw [(g.2.1 (by norm_num) (by norm_num)).1]; rfl,
   by rw [(g.2.1 (by norm_num) (by norm_num)).2.1]; rfl,
   (g.2.1 (by norm_num) (by norm_num)).2.2.2.1,
   (a.2.1 (by norm_num) (by norm_num)).2.2.2.1,
   (b.2.1 (by norm_num) (by norm_num)).2.2.2.2.1⟩

/-- The call `rfbShutdownServer` in the `switch` of `keysym2scancode` is never
reached: its label `0xFFC8` lies inside the range `0xFFBE .. 0xFFC9` that an
earlier branch takes. -/
theorem keysym2scancode_never_shutdown (con : Console) (nr_keys down : Int) (key : Nat) :
    (keysym2scancode con nr_keys down key).shutdown = false := by
  unfold keysym2scancode
  simp only []
  generalize key_to_int key = code
  by_cases c1 : 48 ≤ code ∧ code ≤ 57
  · rw [if_pos c1]
  rw [if_neg c1]
  by_cases c2 : 0xFF50 ≤ code ∧ code ≤ 0xFF58
  · rw [if_pos c2]
  rw [if_neg c2]
  by_cases c3 : 0xFFBE ≤ code ∧ code ≤ 0xFFC9
  · rw [if_pos c3]
  rw [if_neg c3]
  by_cases c4 : 0xFFE1 ≤ code ∧ code ≤ 0xFFEE
  · rw [if_pos c4]
  rw [if_neg c4]
  by_cases c5 : (65 ≤ code ∧ code ≤ 90) ∨ (97 ≤ code ∧ code ≤ 122)
  · rw [if_pos c5]
  rw [if_neg c5]
  have c6 : ¬ code = 0xFFC8 := by omega
  rw [if_neg c6]
  split_ifs <;> rfl

/-- C10, on the code: the symbol `0xFFC8` is taken by the function-key range,
so `keysym2scancode` returns `KEY_F11` without asking the transport to shut
down, and a key callback with that symbol writes a key event for every
console, key count and press flag. -/
theorem keysym2scancode_FFC8_is_F11 (con : Console) (nr_keys : Int) :
    keysym2scancode con nr_keys 1 0xFFC8 = ⟨KEY_F11, false⟩ ∧
    keyevent con nr_keys 1 0xFFC8 = ⟨[⟨EV_KEY, 87, 1⟩, ⟨EV_SYN, 0, 0⟩], false⟩ ∧
    keyevent con nr_keys 0 0xFFC8 = ⟨[⟨EV_KEY, 87, 0⟩, ⟨EV_SYN, 0, 0⟩], false⟩ := by
  refine ⟨by rfl, by rfl, by rfl⟩

/-! ## Pointer events: theorems -/

theorem and_two_pow_cases (m k : Nat) : m &&& 2 ^ k = 0 ∨ m &&& 2 ^ k = 2 ^ k := by
  by_cases h : m.testBit k = true
  · right
    apply Nat.eq_of_testBit_eq
    intro i
    rw [Nat.testBit_and, Nat.testBit_two_pow]
    by_cases e : k = i
    · subst e; simp [h]
    · simp [e]
  · left
    apply Nat.eq_of_testBit_eq
    intro i
    rw [Nat.testBit_and, Nat.testBit_two_pow, Nat.zero_testBit]
    by_cases e : k = i
    · subst e; simp [h]
    · simp [e]

theorem and_bit_cases (m : Nat) :
    (m &&& 1 = 0 ∨ m &&& 1 = 1) ∧ (m &&& 2 = 0 ∨ m &&& 2 = 2) ∧ (m &&& 4 = 0 ∨ m &&& 4 = 4) ∧
      (m &&& 8 = 0 ∨ m &&& 8 = 8) ∧ (m &&& 16 = 0 ∨ m &&& 16 = 16) :=
  ⟨and_two_pow_cases m 0, and_two_pow_cases m 1, and_two_pow_cases m 2, and_two_pow_cases m 3,
    and_two_pow_cases m 4⟩

theorem sameButtons_of_and_31 (p m : Nat) (h : p &&& 31 = m &&& 31) : SameButtons p m := by
  have key : ∀ c, 31 &&& c = c → p &&& c = m &&& c := by
    intro c hc
    rw [← hc, ← Nat.and_assoc, ← Nat.and_assoc, h]
  exact ⟨key 1 (by decide), key 2 (by decide), key 4 (by decide), key 8 (by decide),
    key 16 (by decide)⟩

/-- Without a transition in the bits 0 to 4, `ptrevent` reaches its last
statement: a plain motion in mouse mode when the coordinate differs from
(`prev_x`, `prev_y`), nothing otherwise. -/
theorem ptrevent_no_transition (mousemode : Int) (ax : AxisRange) (scrinfo : fb_var_screeninfo)
    (m : Nat) (x y : Int) (st : PointerState) (h : SameButtons st.prev_buttonMask m) :
    ptrevent mousemode ax scrinfo m x y st =
      if mousemode ≠ 0 then
        if x ≠ st.prev_x ∨ y ≠ st.prev_y then
          ({ st with prev_x := x, prev_y := y }, injectMoveEvent ax scrinfo x y)
        else (st, [])
      else (st, []) := by
  obtain ⟨h1, h2, h4, h8, h16⟩ := h
  unfold ptrevent
  repeat rw [if_neg (by omega)]

/-- After every callback the bits 0 to 4 of `prev_buttonMask` are those of the
callback's mask. -/
theorem ptrevent_prev_mask (mousemode : Int) (ax : AxisRange) (scrinfo : fb_var_screeninfo)
    (m : Nat) (x y : Int) (st : PointerState) :
    SameButtons (ptrevent mousemode ax scrinfo m x y st).1.prev_buttonMask m := by
  have hm := and_bit_cases m
  have hp := and_bit_cases st.prev_buttonMask
  unfold ptrevent
  by_cases c0 : m &&& 1 ≠ 0 ∧ st.prev_buttonMask &&& 1 = 0
  · rw [if_pos c0]
    exact ⟨rfl, rfl, rfl, rfl, rfl⟩
  rw [if_neg c0]
  by_cases c1 : st.prev_buttonMask &&& 1 ≠ 0 ∧ m &&& 1 = 0
  · rw [if_pos c1]
    exact ⟨rfl, rfl, rfl, rfl, rfl⟩
  rw [if_neg c1]
  by_cases c2 : m &&& 2 ≠ 0 ∧ st.prev_buttonMask &&& 2 = 0
  · rw [if_pos c2]
    exact ⟨rfl, rfl, rfl, rfl, rfl⟩
  rw [if_neg c2]
  by_cases c3 : st.prev_buttonMask &&& 2 ≠ 0 ∧ m &&& 2 = 0
  · rw [if_pos c3]
    exact ⟨rfl, rfl, rfl, rfl, rfl⟩
  rw [if_neg c3]
  by_cases c4 : m &&& 4 ≠ 0 ∧ st.prev_buttonMask &&& 4 = 0
  · rw [if_pos c4]
    exact ⟨rfl, rfl, rfl, rfl, rfl⟩
  rw [if_neg c4]
  by_cases c5 : st.prev_buttonMask &&& 4 ≠ 0 ∧ m &&& 4 = 0
  · rw [if_pos c5]
    exact ⟨rfl, rfl, rfl, rfl, rfl⟩
  rw [if_neg c5]
  by_cases c6 : m &&& 8 ≠ 0 ∧ st.prev_buttonMask &&& 8 = 0
  · rw [if_pos c6]
    exact ⟨rfl, rfl, rfl, rfl, rfl⟩
  rw [if_neg c6]
  by_cases c7 : st.prev_buttonMask &&& 8 ≠ 0 ∧ m &&& 8 = 0
  · rw [if_pos c7]
    exact ⟨rfl, rfl, rfl, rfl, rfl⟩
  rw [if_neg c7]
  by_cases c8 : m &&& 16 ≠ 0 ∧ st.prev_buttonMask &&& 16 = 0
  · rw [if_pos c8]
    exact ⟨rfl, rfl, rfl, rfl, rfl⟩
  rw [if_neg c8]
  by_cases c9 : st.prev_buttonMask &&& 16 ≠ 0 ∧ m &&& 16 = 0
  · rw [if_pos c9]
    exact ⟨rfl, rfl, rfl, rfl, rfl⟩
  rw [if_neg c9]
  have hs : SameButtons st.prev_buttonMask m := by
    unfold SameButtons
    omega
  split_ifs <;> exact hs

/-- A callback without a transition in the bits 0 to 4 writes no key event and
no wheel event. -/
theorem ptrevent_same_no_key (mousemode : Int) (ax : AxisRange) (scrinfo : fb_var_screeninfo)
    (m : Nat) (x y : Int) (st : PointerState) (h : SameButtons st.prev_buttonMask m) :
    ∀ e ∈ (ptrevent mousemode ax scrinfo m x y st).2, e.type ≠ EV_KEY ∧ e.type ≠ EV_REL := by
  rw [ptrevent_no_transition mousemode ax scrinfo m x y st h]
  intro e he
  split_ifs at he
  · simp only [injectMoveEvent, List.mem_cons, List.mem_singleton, List.not_mem_nil,
      or_false] at he
    rcases he with rfl | rfl | rfl <;> simp [EV_ABS, EV_KEY, EV_REL, EV_SYN]
  · simp at he
  · simp at he

theorem ptr_run_append (mousemode : Int) (ax : AxisRange) (scrinfo : fb_var_screeninfo)
    (c : PtrCall) :
    ∀ (pre : List PtrCall) (st : PointerState),
      (ptr_run mousemode ax scrinfo (pre ++ [c]) st).1 =
        (ptrevent mousemode ax scrinfo c.buttonMask c.x c.y
          (ptr_run mousemode ax scrinfo pre st).1).1 := by
  intro pre
  induction pre with
  | nil => intro st; rfl
  | cons d ds ih =>
    intro st
    simp only [List.cons_append, ptr_run]
    exact ih _

/-- C11. Button edges: for each of the bits 0, 1, 2 of the button mask, when
that bit changes between `prev_buttonMask` and the callback's mask and no bit
of higher priority changes, `ptrevent` at (x, y) writes one `EV_KEY` event
with code `BTN_LEFT`, `BTN_MIDDLE` or `BTN_RIGHT` and value 1 on a 0->1
transition or 0 on a 1->0 transition, then `ABS_X` and `ABS_Y` with the
rescaled coordinate and one `EV_SYN` marker; the callback's mask becomes the
previous mask. -/
theorem ptrevent_button_edges (mousemode : Int) (ax : AxisRange) (scrinfo : fb_var_screeninfo)
    (m : Nat) (x y : Int) (st : PointerState) :
    ((m &&& 1 ≠ 0 ∧ st.prev_buttonMask &&& 1 = 0) →
      ptrevent mousemode ax scrinfo m x y st =
        ({ st with prev_buttonMask := m }, ⟨EV_KEY, BTN_LEFT, 1⟩ :: motion ax scrinfo x y)) ∧
    ((st.prev_buttonMask &&& 1 ≠ 0 ∧ m &&& 1 = 0) →
      ptrevent mousemode ax scrinfo m x y st =
        ({ st with prev_buttonMask := m }, ⟨EV_KEY, BTN_LEFT, 0⟩ :: motion ax scrinfo x y)) ∧
    (st.prev_buttonMask &&& 1 = m &&& 1 → (m &&& 2 ≠ 0 ∧ st.prev_buttonMask &&& 2 = 0) →
      ptrevent mousemode ax scrinfo m x y st =
        ({ st with prev_buttonMask := m }, ⟨EV_KEY, BTN_MIDDLE, 1⟩ :: motion ax scrinfo x y)) ∧
    (st.prev_buttonMask &&& 1 = m &&& 1 → (st.prev_buttonMask &&& 2 ≠ 0 ∧ m &&& 2 = 0) →
      ptrevent mousemode ax scrinfo m x y st =
        ({ st with prev_buttonMask := m }, ⟨EV_KEY, BTN_MIDDLE, 0⟩ :: motion ax scrinfo x y)) ∧
    (st.prev_buttonMask &&& 1 = m &&& 1 → st.prev_buttonMask &&& 2 = m &&& 2 →
      (m &&& 4 ≠ 0 ∧ st.prev_buttonMask &&& 4 = 0) →
      ptrevent mousemode ax scrinfo m x y st =
        ({ st with prev_buttonMask := m }, ⟨EV_KEY, BTN_RIGHT, 1⟩ :: motion ax scrinfo x y)) ∧
    (st.prev_buttonMask &&& 1 = m &&& 1 → st.prev_buttonMask &&& 2 = m &&& 2 →
      (st.prev_buttonMask &&& 4 ≠ 0 ∧ m &&& 4 = 0) →
      ptrevent mousemode ax scrinfo m x y st =
        ({ st with prev_buttonMask := m }, ⟨EV_KEY, BTN_RIGHT, 0⟩ :: motion ax scrinfo x y)) := by
  refine ⟨?_, ?_, ?_, ?_, ?_, ?_⟩
  · intro h
    unfold ptrevent
    rw [if_pos h]
    rfl
  · intro h
    unfold ptrevent
    repeat rw [if_neg (by omega)]
    rw [if_pos h]
    rfl
  · intro h1 h
    unfold ptrevent
    repeat rw [if_neg (by omega)]
    rw [if_pos h]
    rfl
  · intro h1 h
    unfold ptrevent
    repeat rw [if_neg (by omega)]
    rw [if_pos h]
    rfl
  · intro h1 h2 h
    unfold ptrevent
    repeat rw [if_neg (by omega)]
    rw [if_pos h]
    rfl
  · intro h1 h2 h
    unfold ptrevent
    repeat rw [if_neg (by omega)]
    rw [if_pos h]
    rfl

/-- C11, the scenario of the specification: with the vircon mouse on a 1024x768
surface, from mask 0 a callback with mask 1 at (100, 50) writes contact-down
and the motion to (3199, 2133); the following callback with mask 0 writes
contact-up. -/
theorem ptrevent_button_edges_witness :
    (ptrevent 0 vircon_mouse ⟨1024, 768, 16⟩ 1 100 50 ptr_init).2 =
      [⟨EV_KEY, BTN_LEFT, 1⟩, ⟨EV_ABS, ABS_X, 3199⟩, ⟨EV_ABS, ABS_Y, 2133⟩, ⟨EV_SYN, 0, 0⟩] ∧
    (ptrevent 0 vircon_mouse ⟨1024, 768, 16⟩ 0 100 50
        (ptrevent 0 vircon_mouse ⟨1024, 768, 16⟩ 1 100 50 ptr_init).1).2 =
      [⟨EV_KEY, BTN_LEFT, 0⟩, ⟨EV_ABS, ABS_X, 3199⟩, ⟨EV_ABS, ABS_Y, 2133⟩, ⟨EV_SYN, 0, 0⟩] :=
  have h1 := (ptrevent_button_edges 0 vircon_mouse ⟨1024, 768, 16⟩ 1 100 50 ptr_init).1
    (by decide)
  have h2 := (ptrevent_button_edges 0 vircon_mouse ⟨1024, 768, 16⟩ 0 100 50
    { ptr_init with prev_buttonMask := 1 }).2.1 (by decide)
  ⟨by rw [h1]; decide, by rw [h1, h2]; decide⟩

/-- C12. No duplicate contact-down: in every sequence of pointer callbacks
that starts from the initial pointer state, a callback whose button bits 0 to
4 equal those of the mask of the callback just before it writes no `EV_KEY`
event and no `EV_REL` event. -/
theorem ptrevent_no_duplicate_contact (mousemode : Int) (ax : AxisRange)
    (scrinfo : fb_var_screeninfo) (pre : List PtrCall) (c1 c2 : PtrCall)
    (h : c2.buttonMask &&& 31 = c1.buttonMask &&& 31) :
    ∀ e ∈ (ptrevent mousemode ax scrinfo c2.buttonMask c2.x c2.y
        (ptr_run mousemode ax scrinfo (pre ++ [c1]) ptr_init).1).2,
      e.type ≠ EV_KEY ∧ e.type ≠ EV_REL := by
  apply ptrevent_same_no_key
  rw [ptr_run_append]
  obtain ⟨a1, a2, a4, a8, a16⟩ := ptrevent_prev_mask mousemode ax scrinfo c1.buttonMask c1.x c1.y
    (ptr_run mousemode ax scrinfo pre ptr_init).1
  obtain ⟨b1, b2, b4, b8, b16⟩ := sameButtons_of_and_31 _ _ h
  exact ⟨a1.trans b1.symm, a2.trans b2.symm, a4.trans b4.symm, a8.trans b8.symm,
    a16.trans b16.symm⟩

/-- C12, the scenario of the specification: a repeated callback with mask 1 at
the unchanged coordinate (100, 50), before any release, writes no second
contact-down (in touch mode it writes nothing at all). -/
theorem ptrevent_no_duplicate_contact_witness :
    (∀ e ∈ (ptrevent 0 vircon_mouse ⟨1024, 768, 16⟩ 1 100 50
        (ptr_run 0 vircon_mouse ⟨1024, 768, 16⟩ ([] ++ [⟨1, 100, 50⟩]) ptr_init).1).2,
      e.type ≠ EV_KEY ∧ e.type ≠ EV_REL) ∧
    (ptrevent 0 vircon_mouse ⟨1024, 768, 16⟩ 1 100 50
        (ptr_run 0 vircon_mouse ⟨1024, 768, 16⟩ ([] ++ [⟨1, 100, 50⟩]) ptr_init).1).2 = [] :=
  ⟨ptrevent_no_duplicate_contact 0 vircon_mouse ⟨1024, 768, 16⟩ [] ⟨1, 100, 50⟩ ⟨1, 100, 50⟩
    (by decide), by decide⟩

/-- C14. Wheel events: when the bits 0 to 2 do not change, a 0->1 transition of
bit 3 writes the motion to the rescaled coordinate, then exactly one
`EV_REL`/`REL_WHEEL` event with value 1 and a marker, and no `EV_KEY` event;
with bit 3 unchanged too, a 0->1 transition of bit 4 does the same with value
-1; the 1->0 transition of bit 3 or of bit 4 writes no event at all. -/
theorem ptrevent_wheel (mousemode : Int) (ax : AxisRange) (scrinfo : fb_var_screeninfo)
    (m : Nat) (x y : Int) (st : PointerState)
    (h1 : st.prev_buttonMask &&& 1 = m &&& 1) (h2 : st.prev_buttonMask &&& 2 = m &&& 2)
    (h4 : st.prev_buttonMask &&& 4 = m &&& 4) :
    ((m &&& 8 ≠ 0 ∧ st.prev_buttonMask &&& 8 = 0) →
      ptrevent mousemode ax scrinfo m x y st =
        ({ st with prev_buttonMask := m },
          motion ax scrinfo x y ++ [⟨EV_REL, REL_WHEEL, 1⟩, ⟨EV_SYN, 0, 0⟩])) ∧
    ((st.prev_buttonMask &&& 8 ≠ 0 ∧ m &&& 8 = 0) →
      ptrevent mousemode ax scrinfo m x y st = ({ st with prev_buttonMask := m }, [])) ∧
    (st.prev_buttonMask &&& 8 = m &&& 8 → (m &&& 16 ≠ 0 ∧ st.prev_buttonMask &&& 16 = 0) →
      ptrevent mousemode ax scrinfo m x y st =
        ({ st with prev_buttonMask := m },
          motion ax scrinfo x y ++ [⟨EV_REL, REL_WHEEL, -1⟩, ⟨EV_SYN, 0, 0⟩])) ∧
    (st.prev_buttonMask &&& 8 = m &&& 8 → (st.prev_buttonMask &&& 16 ≠ 0 ∧ m &&& 16 = 0) →
      ptrevent mousemode ax scrinfo m x y st = ({ st with prev_buttonMask := m }, [])) := by
  refine ⟨?_, ?_, ?_, ?_⟩
  · intro h
    unfold ptrevent
    repeat rw [if_neg (by omega)]
    rw [if_pos h]
    rfl
  · intro h
    unfold ptrevent
    repeat rw [if_neg (by omega)]
    rw [if_pos h]
  · intro h8 h
    unfold ptrevent
    repeat rw [if_neg (by omega)]
    rw [if_pos h]
    rfl
  · intro h8 h
    unfold ptrevent
    repeat rw [if_neg (by omega)]
    rw [if_pos h]

/-- C14, the scenario of the specification: from mask 0 a callback with mask 8
at (100, 50) writes the motion and one wheel event with value 1; the following
callback with mask 0 writes nothing. -/
theorem ptrevent_wheel_witness :
    (ptrevent 0 vircon_mouse ⟨1024, 768, 16⟩ 8 100 50 ptr_init).2 =
      [⟨EV_ABS, ABS_X, 3199⟩, ⟨EV_ABS, ABS_Y, 2133⟩, ⟨EV_SYN, 0, 0⟩,
        ⟨EV_REL, REL_WHEEL, 1⟩, ⟨EV_SYN, 0, 0⟩] ∧
    (ptrevent 0 vircon_mouse ⟨1024, 768, 16⟩ 0 100 50 { ptr_init with prev_buttonMask := 8 }).2
      = [] :=
  have h1 := (ptrevent_wheel 0 vircon_mouse ⟨1024, 768, 16⟩ 8 100 50 ptr_init
    (by decide) (by decide) (by decide)).1 (by decide)
  have h2 := (ptrevent_wheel 0 vircon_mouse ⟨1024, 768, 16⟩ 0 100 50
    { ptr_init with prev_buttonMask := 8 } (by decide) (by decide) (by decide)).2.1 (by decide)
  ⟨by rw [h1]; decide, by rw [h2]⟩

/-- C13, on the code: from mask 0, a callback with mask 3 (left and middle
pressed together) writes the left contact-down and stores the whole mask 3 as
previous mask; the second callback with mask 3 then finds no transition and
writes nothing, so no event with code `BTN_MIDDLE` is written at all. -/
theorem ptrevent_simultaneous_press_lost :
    ptr_run 0 vircon_mouse ⟨1024, 768, 16⟩ [⟨3, 100, 50⟩, ⟨3, 100, 50⟩] ptr_init =
      (⟨0, 0, 3⟩,
        [[⟨EV_KEY, BTN_LEFT, 1⟩, ⟨EV_ABS, ABS_X, 3199⟩, ⟨EV_ABS, ABS_Y, 2133⟩, ⟨EV_SYN, 0, 0⟩],
         []]) ∧
    ∀ es ∈ (ptr_run 0 vircon_mouse ⟨1024, 768, 16⟩ [⟨3, 100, 50⟩, ⟨3, 100, 50⟩] ptr_init).2,
      ∀ e ∈ es, e.code ≠ BTN_MIDDLE := by
  constructor <;> decide

/-- C15, on the code, in mouse mode: (1) after a contact-down at (100, 50) a
callback without transition at the same coordinate (100, 50) writes a motion,
because `prev_x` and `prev_y` are still 0; (2) after a motion to (5, 5) and a
contact-down at (9, 9), a callback without transition at (5, 5), which differs
from the coordinate (9, 9) of the callback before it, writes nothing. -/
theorem ptrevent_motion_compares_last_motion :
    (ptr_run 1 vircon_mouse ⟨1024, 768, 16⟩ [⟨1, 100, 50⟩, ⟨1, 100, 50⟩] ptr_init).2 =
      [[⟨EV_KEY, BTN_LEFT, 1⟩, ⟨EV_ABS, ABS_X, 3199⟩, ⟨EV_ABS, ABS_Y, 2133⟩, ⟨EV_SYN, 0, 0⟩],
       [⟨EV_ABS, ABS_X, 3199⟩, ⟨EV_ABS, ABS_Y, 2133⟩, ⟨EV_SYN, 0, 0⟩]] ∧
    (ptr_run 1 vircon_mouse ⟨1024, 768, 16⟩ [⟨0, 5, 5⟩, ⟨1, 9, 9⟩, ⟨1, 5, 5⟩] ptr_init).2 =
      [[⟨EV_ABS, ABS_X, 159⟩, ⟨EV_ABS, ABS_Y, 213⟩, ⟨EV_SYN, 0, 0⟩],
       [⟨EV_KEY, BTN_LEFT, 1⟩, ⟨EV_ABS, ABS_X, 287⟩, ⟨EV_ABS, ABS_Y, 383⟩, ⟨EV_SYN, 0, 0⟩],
       []] := by
  constructor <;> decide

/-- What the last statement of `ptrevent` compares: without a transition, in
mouse mode, a motion is written exactly when the coordinate differs from
(`prev_x`, `prev_y`), and these two are written only there, so they hold the
coordinate of the last plain motion; outside mouse mode nothing is written. -/
theorem ptrevent_plain_motion (mousemode : Int) (ax : AxisRange) (scrinfo : fb_var_screeninfo)
    (m : Nat) (x y : Int) (st : PointerState) (h : SameButtons st.prev_buttonMask m) :
    (mousemode = 0 → ptrevent mousemode ax scrinfo m x y st = (st, [])) ∧
    (mousemode ≠ 0 → (x ≠ st.prev_x ∨ y ≠ st.prev_y) →
      ptrevent mousemode ax scrinfo m x y st =
        ({ st with prev_x := x, prev_y := y }, motion ax scrinfo x y)) ∧
    (mousemode ≠ 0 → x = st.prev_x → y = st.prev_y →
      ptrevent mousemode ax scrinfo m x y st = (st, [])) := by
  rw [ptrevent_no_transition mousemode ax scrinfo m x y st h]
  refine ⟨?_, ?_, ?_⟩
  · intro h0
    rw [if_neg (by simp [h0])]
  · intro h0 hx
    rw [if_pos h0, if_pos hx]
    rfl
  · intro h0 hx hy
    rw [if_pos h0, if_neg (by simp [hx, hy])]

/-- A transition never writes `prev_x` or `prev_y`. -/
theorem ptrevent_transition_keeps_prev_xy (mousemode : Int) (ax : AxisRange)
    (scrinfo : fb_var_screeninfo) (m : Nat) (x y : Int) (st : PointerState)
    (h : ¬ SameButtons st.prev_buttonMask m) :
    (ptrevent mousemode ax scrinfo m x y st).1.prev_x = st.prev_x ∧
      (ptrevent mousemode ax scrinfo m x y st).1.prev_y = st.prev_y := by
  have hm := and_bit_cases m
  have hp := and_bit_cases st.prev_buttonMask
  unfold ptrevent
  by_cases c0 : m &&& 1 ≠ 0 ∧ st.prev_buttonMask &&& 1 = 0
  · rw [if_pos c0]; exact ⟨rfl, rfl⟩
  rw [if_neg c0]
  by_cases c1 : st.prev_buttonMask &&& 1 ≠ 0 ∧ m &&& 1 = 0
  · rw [if_pos c1]; exact ⟨rfl, rfl⟩
  rw [if_neg c1]
  by_cases c2 : m &&& 2 ≠ 0 ∧ st.prev_buttonMask &&& 2 = 0
  · rw [if_pos c2]; exact ⟨rfl, rfl⟩
  rw [if_neg c2]
  by_cases c3 : st.prev_buttonMask &&& 2 ≠ 0 ∧ m &&& 2 = 0
  · rw [if_pos c3]; exact ⟨rfl, rfl⟩
  rw [if_neg c3]
  by_cases c4 : m &&& 4 ≠ 0 ∧ st.prev_buttonMask &&& 4 = 0
  · rw [if_pos c4]; exact ⟨rfl, rfl⟩
  rw [if_neg c4]
  by_cases c5 : st.prev_buttonMask &&& 4 ≠ 0 ∧ m &&& 4 = 0
  · rw [if_pos c5]; exact ⟨rfl, rfl⟩
  rw [if_neg c5]
  by_cases c6 : m &&& 8 ≠ 0 ∧ st.prev_buttonMask &&& 8 = 0
  · rw [if_pos c6]; exact ⟨rfl, rfl⟩
  rw [if_neg c6]
  by_cases c7 : st.prev_buttonMask &&& 8 ≠ 0 ∧ m &&& 8 = 0
  · rw [if_pos c7]; exact ⟨rfl, rfl⟩
  rw [if_neg c7]
  by_cases c8 : m &&& 16 ≠ 0 ∧ st.prev_buttonMask &&& 16 = 0
  · rw [if_pos c8]; exact ⟨rfl, rfl⟩
  rw [if_neg c8]
  by_cases c9 : st.prev_buttonMask &&& 16 ≠ 0 ∧ m &&& 16 = 0
  · rw [if_pos c9]; exact ⟨rfl, rfl⟩
  rw [if_neg c9]
  exact absurd (by unfold SameButtons; omega) h

/-! ## Coordinate rescaling: theorems -/

theorem to_int32_of_range (i : Int) (h0 : -2 ^ 31 ≤ i) (h1 : i < 2 ^ 31) : to_int32 i = i := by
  unfold to_int32
  omega

/-- Without overflow the machine expression of `rescale` is
`min + floor(v * (max - min) / res)`. -/
theorem rescale_eq (min max : Int) (res : Nat) (v : Int)
    (hmin : -2 ^ 31 ≤ min ∧ min < 2 ^ 31) (hmax : -2 ^ 31 ≤ max ∧ max < 2 ^ 31)
    (hr : min ≤ max) (hres : 0 < res) (hv0 : 0 ≤ v) (hv : v < res)
    (hp : v * (max - min) < 2 ^ 31) :
    rescale min max res v = min + (v * (max - min)) / (res : Int) ∧
      0 ≤ (v * (max - min)) / (res : Int) ∧ (v * (max - min)) / (res : Int) ≤ max - min := by
  have hR : 0 ≤ max - min := by omega
  have hp0 : 0 ≤ v * (max - min) := Int.mul_nonneg hv0 hR
  have hresI : (0 : Int) < (res : Int) := by exact_mod_cast hres
  have hq0 : 0 ≤ (v * (max - min)) / (res : Int) := Int.ediv_nonneg hp0 (le_of_lt hresI)
  have hq1 : (v * (max - min)) / (res : Int) ≤ max - min := by
    apply Int.ediv_le_of_le_mul hresI
    rw [Int.mul_comm]
    exact Int.mul_le_mul_of_nonneg_left (le_of_lt hv) hR
  refine ⟨?_, hq0, hq1⟩
  have e1 : to_int32 (v * to_int32 (max - min)) = v * (max - min) := by
    rcases eq_or_lt_of_le hv0 with h | h
    · rw [← h]; simp [to_int32]
    · have hRle : max - min ≤ v * (max - min) := by
        have := Int.mul_le_mul_of_nonneg_right (show (1 : Int) ≤ v by omega) hR
        simpa using this
      rw [to_int32_of_range (max - min) (by omega) (by omega),
        to_int32_of_range _ (by omega) (by omega)]
  unfold rescale
  rw [e1]
  have e2 : ((to_uint32 (v * (max - min)) / res : Nat) : Int) = (v * (max - min)) / (res : Int) := by
    unfold to_uint32
    rw [Int.emod_eq_of_lt hp0 (by omega)]
    rw [Int.natCast_div, Int.toNat_of_nonneg hp0]
  have e3 : ((to_uint32 min : Nat) : Int) = min % 2 ^ 32 := by
    unfold to_uint32
    exact Int.toNat_of_nonneg (Int.emod_nonneg _ (by norm_num))
  rw [Nat.cast_add, e2, e3]
  generalize (v * (max - min)) / (res : Int) = q at *
  unfold to_int32
  omega

theorem move_x_eq (ax : AxisRange) (scrinfo : fb_var_screeninfo) (x : Int) (hi : ax.is_int)
    (hx0 : ax.xmax ≠ 0) (hy0 : ax.ymax ≠ 0) (hxr : ax.xmin ≤ ax.xmax)
    (hx : 0 ≤ x ∧ x < scrinfo.xres) (hp : x * (ax.xmax - ax.xmin) < 2 ^ 31) :
    move_x ax scrinfo x = ax.xmin + (x * (ax.xmax - ax.xmin)) / (scrinfo.xres : Int) ∧
      0 ≤ (x * (ax.xmax - ax.xmin)) / (scrinfo.xres : Int) ∧
      (x * (ax.xmax - ax.xmin)) / (scrinfo.xres : Int) ≤ ax.xmax - ax.xmin := by
  obtain ⟨h1, h2, _, _⟩ := hi
  unfold move_x
  rw [if_pos ⟨hx0, hy0⟩]
  exact rescale_eq ax.xmin ax.xmax scrinfo.xres x h1 h2 hxr (by omega) hx.1 hx.2 hp

theorem move_y_eq (ax : AxisRange) (scrinfo : fb_var_screeninfo) (y : Int) (hi : ax.is_int)
    (hx0 : ax.xmax ≠ 0) (hy0 : ax.ymax ≠ 0) (hyr : ax.ymin ≤ ax.ymax)
    (hy : 0 ≤ y ∧ y < scrinfo.yres) (hp : y * (ax.ymax - ax.ymin) < 2 ^ 31) :
    move_y ax scrinfo y = ax.ymin + (y * (ax.ymax - ax.ymin)) / (scrinfo.yres : Int) ∧
      0 ≤ (y * (ax.ymax - ax.ymin)) / (scrinfo.yres : Int) ∧
      (y * (ax.ymax - ax.ymin)) / (scrinfo.yres : Int) ≤ ax.ymax - ax.ymin := by
  obtain ⟨_, _, h1, h2⟩ := hi
  unfold move_y
  rw [if_pos ⟨hx0, hy0⟩]
  exact rescale_eq ax.ymin ax.ymax scrinfo.yres y h1 h2 hyr (by omega) hy.1 hy.2 hp

/-- The quotient `floor(v * r / w)` does not decrease with `v`. -/
theorem scaled_mono (r w v v' : Int) (hr : 0 ≤ r) (hw : 0 < w) (h : v' ≤ v) :
    (v' * r) / w ≤ (v * r) / w :=
  Int.ediv_le_ediv hw (Int.mul_le_mul_of_nonneg_right h hr)

/-- The quotient at the last coordinate: `floor((w - 1) * r / w)` is at least
`r - ceil(r / w)`. -/
theorem scaled_last (r w : Int) (hw : 0 < w) :
    r - (r + w - 1) / w ≤ ((w - 1) * r) / w := by
  apply Int.le_ediv_of_mul_le hw
  have h : r + w - 1 < w * ((r + w - 1) / w) + w := Int.lt_mul_ediv_self_add hw
  nlinarith [h]

/-- C17. Rescale stays in range: for a declared axis range (`xmax` and `ymax`
non-zero, the four bounds being values of an `int`) with `xmin <= xmax` and
`ymin <= ymax`, and a source coordinate with
`0 <= x < xres` and `0 <= y < yres` whose products `x * (xmax - xmin)` and
`y * (ymax - ymin)` are below 2^31, the events that `injectMoveEvent` writes
carry `xmin + floor(x * (xmax - xmin) / xres)` and the like for y; these
values lie in [xmin, xmax] and [ymin, ymax], and they do not decrease when the
source coordinate grows. -/
theorem injectMoveEvent_in_range (ax : AxisRange) (scrinfo : fb_var_screeninfo) (x y : Int)
    (hi : ax.is_int) (hx0 : ax.xmax ≠ 0) (hy0 : ax.ymax ≠ 0)
    (hxr : ax.xmin ≤ ax.xmax) (hyr : ax.ymin ≤ ax.ymax)
    (hx : 0 ≤ x ∧ x < scrinfo.xres) (hy : 0 ≤ y ∧ y < scrinfo.yres)
    (hpx : x * (ax.xmax - ax.xmin) < 2 ^ 31) (hpy : y * (ax.ymax - ax.ymin) < 2 ^ 31) :
    injectMoveEvent ax scrinfo x y =
        [⟨EV_ABS, ABS_X, ax.xmin + (x * (ax.xmax - ax.xmin)) / (scrinfo.xres : Int)⟩,
         ⟨EV_ABS, ABS_Y, ax.ymin + (y * (ax.ymax - ax.ymin)) / (scrinfo.yres : Int)⟩,
         ⟨EV_SYN, 0, 0⟩] ∧
      (ax.xmin ≤ move_x ax scrinfo x ∧ move_x ax scrinfo x ≤ ax.xmax) ∧
      (ax.ymin ≤ move_y ax scrinfo y ∧ move_y ax scrinfo y ≤ ax.ymax) ∧
      (∀ x', 0 ≤ x' → x' ≤ x → move_x ax scrinfo x' ≤ move_x ax scrinfo x) ∧
      (∀ y', 0 ≤ y' → y' ≤ y → move_y ax scrinfo y' ≤ move_y ax scrinfo y) := by
  have hRx : 0 ≤ ax.xmax - ax.xmin := by omega
  have hRy : 0 ≤ ax.ymax - ax.ymin := by omega
  have hw : (0 : Int) < scrinfo.xres := by omega
  have hh : (0 : Int) < scrinfo.yres := by omega
  obtain ⟨ex, ex0, ex1⟩ := move_x_eq ax scrinfo x hi hx0 hy0 hxr hx hpx
  obtain ⟨ey, ey0, ey1⟩ := move_y_eq ax scrinfo y hi hx0 hy0 hyr hy hpy
  refine ⟨?_, ⟨by omega, by omega⟩, ⟨by omega, by omega⟩, ?_, ?_⟩
  · unfold injectMoveEvent
    rw [ex, ey]
  · intro x' h0 hle
    have hp' : x' * (ax.xmax - ax.xmin) < 2 ^ 31 :=
      lt_of_le_of_lt (Int.mul_le_mul_of_nonneg_right hle hRx) hpx
    obtain ⟨ex', _, _⟩ := move_x_eq ax scrinfo x' hi hx0 hy0 hxr ⟨h0, by omega⟩ hp'
    rw [ex, ex']
    have := scaled_mono (ax.xmax - ax.xmin) scrinfo.xres x x' hRx hw hle
    omega
  · intro y' h0 hle
    have hp' : y' * (ax.ymax - ax.ymin) < 2 ^ 31 :=
      lt_of_le_of_lt (Int.mul_le_mul_of_nonneg_right hle hRy) hpy
    obtain ⟨ey', _, _⟩ := move_y_eq ax scrinfo y' hi hx0 hy0 hyr ⟨h0, by omega⟩ hp'
    rw [ey, ey']
    have := scaled_mono (ax.ymax - ax.ymin) scrinfo.yres y y' hRy hh hle
    omega

/-- C17, at the vircon mouse on a 1024x768 surface and the source coordinate
(100, 50). -/
theorem injectMoveEvent_in_range_witness :
    injectMoveEvent vircon_mouse ⟨1024, 768, 16⟩ 100 50 =
        [⟨EV_ABS, ABS_X, 0 + (100 * (32767 - 0)) / ((1024 : Nat) : Int)⟩,
         ⟨EV_ABS, ABS_Y, 0 + (50 * (32767 - 0)) / ((768 : Nat) : Int)⟩,
         ⟨EV_SYN, 0, 0⟩] ∧
      (0 ≤ move_x vircon_mouse ⟨1024, 768, 16⟩ 100 ∧
        move_x vircon_mouse ⟨1024, 768, 16⟩ 100 ≤ 32767) ∧
      (0 ≤ move_y vircon_mouse ⟨1024, 768, 16⟩ 50 ∧
        move_y vircon_mouse ⟨1024, 768, 16⟩ 50 ≤ 32767) ∧
      (∀ x', 0 ≤ x' → x' ≤ 100 →
        move_x vircon_mouse ⟨1024, 768, 16⟩ x' ≤ move_x vircon_mouse ⟨1024, 768, 16⟩ 100) ∧
      (∀ y', 0 ≤ y' → y' ≤ 50 →
        move_y vircon_mouse ⟨1024, 768, 16⟩ y' ≤ move_y vircon_mouse ⟨1024, 768, 16⟩ 50) :=
  injectMoveEvent_in_range vircon_mouse ⟨1024, 768, 16⟩ 100 50 (by decide) (by decide)
    (by decide) (by decide) (by decide) (by decide) (by decide) (by decide) (by decide)

/-- C16 fails as stated: with the vircon mouse (axis range 0 to 32767) on a
surface 140000 pixels wide, the product 139999 * 32767 does not fit an `int`,
and `injectMoveEvent` maps the last column 139999 to 2088, far below
`xmax - ceil((xmax - xmin) / w)` = 32766. -/
theorem injectMoveEvent_last_column_overflow :
    injectMoveEvent vircon_mouse ⟨140000, 1, 16⟩ 139999 0 =
        [⟨EV_ABS, ABS_X, 2088⟩, ⟨EV_ABS, ABS_Y, 0⟩, ⟨EV_SYN, 0, 0⟩] ∧
      ¬ ((32767 : Int) - (32767 - 0 + 140000 - 1) / 140000 ≤ 2088) := by
  constructor <;> decide

/-- C16, amended. With a declared axis range (`xmax` and `ymax` non-zero,
`xmin <= xmax`, `ymin <= ymax`, the four bounds being values of an `int`), a
surface of width and height above 0, and
products `(xres - 1) * (xmax - xmin)` and `(yres - 1) * (ymax - ymin)` below
2^31, `injectMoveEvent` maps the source coordinate 0 to the axis minimum and
the source coordinate `xres - 1` (`yres - 1`) to a value between
`xmax - ceil((xmax - xmin) / xres)` and `xmax` (the like for y); with an unset
axis range (all four bounds 0) it writes the source x and y unchanged. -/
theorem injectMoveEvent_boundaries (ax : AxisRange) (scrinfo : fb_var_screeninfo)
    (hi : ax.is_int) (hx0 : ax.xmax ≠ 0) (hy0 : ax.ymax ≠ 0)
    (hxr : ax.xmin ≤ ax.xmax) (hyr : ax.ymin ≤ ax.ymax)
    (hw : 0 < scrinfo.xres) (hh : 0 < scrinfo.yres)
    (hpx : ((scrinfo.xres : Int) - 1) * (ax.xmax - ax.xmin) < 2 ^ 31)
    (hpy : ((scrinfo.yres : Int) - 1) * (ax.ymax - ax.ymin) < 2 ^ 31) :
    (∀ x y, injectMoveEvent ax scrinfo x y =
        [⟨EV_ABS, ABS_X, move_x ax scrinfo x⟩, ⟨EV_ABS, ABS_Y, move_y ax scrinfo y⟩,
         ⟨EV_SYN, 0, 0⟩]) ∧
      move_x ax scrinfo 0 = ax.xmin ∧ move_y ax scrinfo 0 = ax.ymin ∧
      (ax.xmax - (ax.xmax - ax.xmin + scrinfo.xres - 1) / scrinfo.xres
          ≤ move_x ax scrinfo ((scrinfo.xres : Int) - 1) ∧
        move_x ax scrinfo ((scrinfo.xres : Int) - 1) ≤ ax.xmax) ∧
      (ax.ymax - (ax.ymax - ax.ymin + scrinfo.yres - 1) / scrinfo.yres
          ≤ move_y ax scrinfo ((scrinfo.yres : Int) - 1) ∧
        move_y ax scrinfo ((scrinfo.yres : Int) - 1) ≤ ax.ymax) ∧
      (∀ x y, injectMoveEvent ⟨0, 0, 0, 0⟩ scrinfo x y =
        [⟨EV_ABS, ABS_X, x⟩, ⟨EV_ABS, ABS_Y, y⟩, ⟨EV_SYN, 0, 0⟩]) := by
  have hwI : (0 : Int) < scrinfo.xres := by exact_mod_cast hw
  have hhI : (0 : Int) < scrinfo.yres := by exact_mod_cast hh
  obtain ⟨ax0, _, _⟩ := move_x_eq ax scrinfo 0 hi hx0 hy0 hxr ⟨le_refl 0, hwI⟩ (by norm_num)
  obtain ⟨ay0, _, _⟩ := move_y_eq ax scrinfo 0 hi hx0 hy0 hyr ⟨le_refl 0, hhI⟩ (by norm_num)
  obtain ⟨ax1, _, bx1⟩ := move_x_eq ax scrinfo ((scrinfo.xres : Int) - 1) hi hx0 hy0 hxr
    ⟨by omega, by omega⟩ hpx
  obtain ⟨ay1, _, by1⟩ := move_y_eq ax scrinfo ((scrinfo.yres : Int) - 1) hi hx0 hy0 hyr
    ⟨by omega, by omega⟩ hpy
  have lx := scaled_last (ax.xmax - ax.xmin) scrinfo.xres hwI
  have ly := scaled_last (ax.ymax - ax.ymin) scrinfo.yres hhI
  refine ⟨fun _ _ => rfl, ?_, ?_, ⟨?_, ?_⟩, ⟨?_, ?_⟩, fun _ _ => ?_⟩
  · rw [ax0]; simp
  · rw [ay0]; simp
  · rw [ax1]; omega
  · rw [ax1]; omega
  · rw [ay1]; omega
  · rw [ay1]; omega
  · simp [injectMoveEvent, move_x, move_y]

/-- C16 amended, at the vircon mouse on a 1024x768 surface: column 0 maps to 0
and column 1023 to 32735 = 32767 - ceil(32767 / 1024). -/
theorem injectMoveEvent_boundaries_witness :
    move_x vircon_mouse ⟨1024, 768, 16⟩ 0 = 0 ∧
      move_x vircon_mouse ⟨1024, 768, 16⟩ 1023 = 32735 ∧
      (32767 - (32767 - 0 + 1024 - 1) / 1024 ≤ move_x vircon_mouse ⟨1024, 768, 16⟩ 1023 ∧
        move_x vircon_mouse ⟨1024, 768, 16⟩ 1023 ≤ 32767) :=
  have h := injectMoveEvent_boundaries vircon_mouse ⟨1024, 768, 16⟩ (by decide) (by decide)
    (by decide) (by decide) (by decide) (by decide) (by decide) (by decide) (by decide)
  ⟨h.2.1, by decide, h.2.2.2.1⟩

/-! ## Session control: theorems -/

theorem sig_handler_clients (signo : Nat) (s : Session) :
    (sig_handler signo s).clients = s.clients := by
  unfold sig_handler
  split_ifs <;> rfl

/-- A shutdown request can leave `main` waiting: SIGTERM arrives inside the
`rfbProcessEvents` of the inner loop while a client is in the list, the client
is dropped before the call returns, and `main` is back in the inner loop with
the flag set and no client. -/
theorem shutdown_waits_for_client :
    session_run [Event.step true, Event.step true, Event.net 1, Event.signal SIGTERM,
        Event.net 0, Event.step true, Event.step true] session_start
      = ⟨Loc.wait_call, 1, 0⟩ := by
  decide

/-- When `/dev/tty0` cannot be opened as a console, `init_kbd` still returns:
`kfd` is -1 and the key count is 112. -/
theorem init_kbd_without_console (env : KbdEnv) (n : Nat) (hk : env.kbd_open = OpenResult.fd n)
    (hc : open_a_console env = -1) :
    init_kbd env = some ⟨n, -1, 112⟩ ∧
      ∀ i t, get_key_sym (console_via (-1) env.keymap) i t = 0 := by
  constructor
  · unfold init_kbd
    rw [hk]
    simp only [hc]
    rfl
  · intro i t
    simp [get_key_sym, console_via]

/-- C19, on the code: when `/dev/tty0` cannot be opened, `init_kbd` returns
with `kfd` = -1 and `nr_keys` = 112 instead of ending the process; the same
happens with key count 112 when the console opens but every key-entry query
fails.  Only a keyboard device that cannot be opened ends the process. -/
theorem init_kbd_returns_without_key_table :
    init_kbd env_no_console = some ⟨3, -1, 112⟩ ∧
      init_kbd env_no_keymap = some ⟨3, 4, 112⟩ ∧
      init_kbd { env_no_console with kbd_open := OpenResult.error } = none := by
  refine ⟨by decide, by decide, by decide⟩

/-! ## The diff pass: effect on snapshot and sink -/

theorem pixel_step_offsets (fb : Buf) (x y : Int) (s : Scan) :
    (pixel_step fb x y s).vb.r_offset = s.vb.r_offset ∧
      (pixel_step fb x y s).vb.g_offset = s.vb.g_offset ∧
      (pixel_step fb x y s).vb.b_offset = s.vb.b_offset := by
  unfold pixel_step
  dsimp only
  split_ifs <;> exact ⟨rfl, rfl, rfl⟩

theorem pixel_step_vncbuf (fb : Buf) (x y : Int) (s : Scan) (i : Nat) :
    (pixel_step fb x y s).vncbuf i =
      if i = s.pos ∧ fb i ≠ s.fbbuf i then
        PIXEL_FB_TO_RFB (fb i) s.vb.r_offset s.vb.g_offset s.vb.b_offset
      else s.vncbuf i := by
  unfold pixel_step
  dsimp only
  by_cases h : fb s.pos = s.fbbuf s.pos
  · rw [if_neg (not_not.mpr h)]
    rw [if_neg (fun ⟨e, hne⟩ => hne (by rw [e]; exact h))]
  · rw [if_pos h]
    dsimp only [Buf.store]
    by_cases e : i = s.pos
    · rw [if_pos e, if_pos ⟨e, by rw [e]; exact h⟩, e]
    · rw [if_neg e, if_neg (fun ⟨e', _⟩ => e e')]

theorem pixel_step_cmps (fb : Buf) (x y : Int) (s : Scan) :
    (pixel_step fb x y s).cmps = s.cmps ++ [s.pos] := by
  unfold pixel_step
  rfl

theorem row_loop_offsets (fb : Buf) (y : Int) :
    ∀ (n : Nat) (x : Int) (s : Scan),
      (row_loop fb y n x s).vb.r_offset = s.vb.r_offset ∧
        (row_loop fb y n x s).vb.g_offset = s.vb.g_offset ∧
        (row_loop fb y n x s).vb.b_offset = s.vb.b_offset := by
  intro n
  induction n with
  | zero => intro x s; exact ⟨rfl, rfl, rfl⟩
  | succ n ih =>
    intro x s
    simp only [row_loop]
    obtain ⟨a, b, c⟩ := ih (x + 2) (pixel_step fb x y s)
    obtain ⟨a', b', c'⟩ := pixel_step_offsets fb x y s
    exact ⟨a.trans a', b.trans b', c.trans c'⟩

theorem row_loop_cmps (fb : Buf) (y : Int) :
    ∀ (n : Nat) (x : Int) (s : Scan),
      (row_loop fb y n x s).cmps = s.cmps ++ List.range' s.pos n := by
  intro n
  induction n with
  | zero => intro x s; simp [row_loop]
  | succ n ih =>
    intro x s
    simp only [row_loop]
    rw [ih, pixel_step_cmps, pixel_step_pos, List.append_assoc]
    rfl

theorem row_loop_vncbuf (fb : Buf) (y : Int) :
    ∀ (n : Nat) (x : Int) (s : Scan) (i : Nat),
      (row_loop fb y n x s).vncbuf i =
        if (s.pos ≤ i ∧ i < s.pos + n) ∧ fb i ≠ s.fbbuf i then
          PIXEL_FB_TO_RFB (fb i) s.vb.r_offset s.vb.g_offset s.vb.b_offset
        else s.vncbuf i := by
  intro n
  induction n with
  | zero => intro x s i; rw [if_neg (by omega)]; rfl
  | succ n ih =>
    intro x s i
    simp only [row_loop]
    obtain ⟨a, b, c⟩ := pixel_step_offsets fb x y s
    rw [ih, pixel_step_pos, pixel_step_fbbuf, pixel_step_vncbuf, a, b, c]
    split_ifs <;> first | rfl | omega

theorem row_end_offsets (s : Scan) :
    (row_end s).vb.r_offset = s.vb.r_offset ∧ (row_end s).vb.g_offset = s.vb.g_offset ∧
      (row_end s).vb.b_offset = s.vb.b_offset := by
  unfold row_end
  dsimp only
  split_ifs <;> exact ⟨rfl, rfl, rfl⟩

theorem row_end_cmps (s : Scan) : (row_end s).cmps = s.cmps := by
  unfold row_end
  dsimp only
  split_ifs <;> rfl

theorem screen_loop_offsets (fb : Buf) (xres : Nat) :
    ∀ (n : Nat) (y : Int) (s : Scan),
      (screen_loop fb xres n y s).vb.r_offset = s.vb.r_offset ∧
        (screen_loop fb xres n y s).vb.g_offset = s.vb.g_offset ∧
        (screen_loop fb xres n y s).vb.b_offset = s.vb.b_offset := by
  intro n
  induction n with
  | zero => intro y s; exact ⟨rfl, rfl, rfl⟩
  | succ n ih =>
    intro y s
    simp only [screen_loop]
    obtain ⟨a, b, c⟩ := ih (y + 1) (row_end (row_loop fb y ((xres + 1) / 2) 0 s))
    obtain ⟨a1, b1, c1⟩ := row_end_offsets (row_loop fb y ((xres + 1) / 2) 0 s)
    obtain ⟨a2, b2, c2⟩ := row_loop_offsets fb y ((xres + 1) / 2) 0 s
    exact ⟨a.trans (a1.trans a2), b.trans (b1.trans b2), c.trans (c1.trans c2)⟩

theorem screen_loop_cmps (fb : Buf) (xres : Nat) :
    ∀ (n : Nat) (y : Int) (s : Scan),
      (screen_loop fb xres n y s).cmps =
        s.cmps ++ List.range' s.pos (n * ((xres + 1) / 2)) := by
  intro n
  induction n with
  | zero => intro y s; simp [screen_loop]
  | succ n ih =>
    intro y s
    simp only [screen_loop]
    rw [ih, row_end_cmps, row_end_pos, row_loop_cmps, row_loop_pos, List.append_assoc,
      List.range'_append_1, Nat.succ_mul, Nat.add_comm]

theorem screen_loop_vncbuf (fb : Buf) (xres : Nat) :
    ∀ (n : Nat) (y : Int) (s : Scan) (i : Nat),
      (screen_loop fb xres n y s).vncbuf i =
        if (s.pos ≤ i ∧ i < s.pos + n * ((xres + 1) / 2)) ∧ fb i ≠ s.fbbuf i then
          PIXEL_FB_TO_RFB (fb i) s.vb.r_offset s.vb.g_offset s.vb.b_offset
        else s.vncbuf i := by
  intro n
  induction n with
  | zero => intro y s i; rw [if_neg (by omega)]; rfl
  | succ n ih =>
    intro y s i
    simp only [screen_loop]
    obtain ⟨a1, b1, c1⟩ := row_end_offsets (row_loop fb y ((xres + 1) / 2) 0 s)
    obtain ⟨a2, b2, c2⟩ := row_loop_offsets fb y ((xres + 1) / 2) 0 s
    rw [ih, row_end_pos, row_end_fbbuf, row_end_vncbuf, row_loop_pos, row_loop_fbbuf,
      row_loop_vncbuf, a1, b1, c1, a2, b2, c2, Nat.succ_mul]
    split_ifs <;> first | rfl | omega

theorem final_flush_cmps (s : Scan) : (final_flush s).cmps = s.cmps := by
  unfold final_flush
  split <;> rfl

/-- The words that the scan compares and what it leaves in snapshot and sink. -/
theorem diff_scan_effect (st : State) (lu cp : Int) :
    (diff_scan st lu cp).cmps =
        List.range' 0 (st.scrinfo.yres * ((st.scrinfo.xres + 1) / 2)) ∧
      (∀ i, (diff_scan st lu cp).fbbuf i =
        if i < st.scrinfo.yres * ((st.scrinfo.xres + 1) / 2) then st.fbmmap i else st.fbbuf i) ∧
      (∀ i, (diff_scan st lu cp).vncbuf i =
        if i < st.scrinfo.yres * ((st.scrinfo.xres + 1) / 2) ∧ st.fbmmap i ≠ st.fbbuf i then
          PIXEL_FB_TO_RFB (st.fbmmap i) st.varblock.r_offset st.varblock.g_offset
            st.varblock.b_offset
        else st.vncbuf i) := by
  unfold diff_scan
  refine ⟨?_, ?_, ?_⟩
  · rw [final_flush_cmps, screen_loop_cmps]
    simp [scan_init]
  · intro i
    rw [final_flush_fbbuf, screen_loop_fbbuf]
    simp [scan_init]
  · intro i
    rw [final_flush_vncbuf, screen_loop_vncbuf]
    simp [scan_init]

/-- C20. Effect of a pass on snapshot and sink: after an `update_screen` pass
that returns 0, the compared words are the words 0 to yres * W - 1 (W words per
row), and for every compared word index `i`: if `capture[i]` differed from the
old `snapshot[i]`, the new `snapshot[i]` is `capture[i]` and the new `sink[i]`
is `PIXEL_FB_TO_RFB(capture[i], r_offset, g_offset, b_offset)`; otherwise
`snapshot[i]` and `sink[i]` are unchanged; in both cases the new snapshot
equals the capture at `i`.  Words that were not compared are unchanged. -/
theorem update_screen_effect (st : State) (m : fb_var_screeninfo) (lu cp : Int) (r : Pass)
    (hr : update_screen (some m) lu cp st = some r) (h0 : r.ret = 0) :
    r.cmps = List.range' 0 (st.scrinfo.yres * ((st.scrinfo.xres + 1) / 2)) ∧
      (∀ i ∈ r.cmps,
        (st.fbmmap i ≠ st.fbbuf i →
          r.st.fbbuf i = st.fbmmap i ∧
          r.st.vncbuf i = PIXEL_FB_TO_RFB (st.fbmmap i) st.varblock.r_offset
            st.varblock.g_offset st.varblock.b_offset) ∧
        (st.fbmmap i = st.fbbuf i →
          r.st.fbbuf i = st.fbbuf i ∧ r.st.vncbuf i = st.vncbuf i) ∧
        r.st.fbbuf i = st.fbmmap i) ∧
      (∀ i, i ∉ r.cmps → r.st.fbbuf i = st.fbbuf i ∧ r.st.vncbuf i = st.vncbuf i) := by
  by_cases hd : st.scrinfo.xres ≠ m.xres ∨ st.scrinfo.yres ≠ m.yres ∨
      st.scrinfo.bits_per_pixel ≠ m.bits_per_pixel
  · rw [update_screen_changed st m lu cp hd] at hr
    have e := Option.some.inj hr
    subst e
    exact absurd h0 (by norm_num)
  · rw [update_screen_unchanged st m lu cp hd] at hr
    have e := Option.some.inj hr
    subst e
    obtain ⟨hc, hf, hv⟩ := diff_scan_effect { st with scrinfo_m := m } lu cp
    dsimp only at hc hf hv ⊢
    refine ⟨hc, ?_, ?_⟩
    · intro i hi
      rw [hc, List.mem_range'_1] at hi
      have hlt : i < st.scrinfo.yres * ((st.scrinfo.xres + 1) / 2) := by omega
      refine ⟨fun hne => ⟨?_, ?_⟩, fun heq => ⟨?_, ?_⟩, ?_⟩
      · rw [hf, if_pos hlt]
      · rw [hv, if_pos ⟨hlt, hne⟩]
      · rw [hf, if_pos hlt, heq]
      · rw [hv, if_neg (fun h => h.2 heq)]
      · rw [hf, if_pos hlt]
    · intro i hi
      rw [hc, List.mem_range'_1] at hi
      have hge : ¬ i < st.scrinfo.yres * ((st.scrinfo.xres + 1) / 2) := by omega
      exact ⟨by rw [hf, if_neg hge], by rw [hv, if_neg (fun h => hge h.1)]⟩

/-- C20, at the 4x3 surface whose capture differs from the zero snapshot in
word 3 only: six words are compared, word 3 of the snapshot becomes 1 and word
3 of the sink becomes `PIXEL_FB_TO_RFB(1, 11, 6, 0)`. -/
theorem update_screen_effect_witness :
    (pass_of (some ⟨4, 3, 16⟩) 0 0 (sample_state ⟨4, 3, 16⟩ (cap_word 3) Buf.zero)).cmps
        = [0, 1, 2, 3, 4, 5] ∧
      (pass_of (some ⟨4, 3, 16⟩) 0 0 (sample_state ⟨4, 3, 16⟩ (cap_word 3) Buf.zero)).st.fbbuf 3
        = 1 ∧
      (pass_of (some ⟨4, 3, 16⟩) 0 0 (sample_state ⟨4, 3, 16⟩ (cap_word 3) Buf.zero)).st.vncbuf 3
        = PIXEL_FB_TO_RFB 1 11 6 0 :=
  have h := update_screen_effect (sample_state ⟨4, 3, 16⟩ (cap_word 3) Buf.zero) ⟨4, 3, 16⟩ 0 0
    (pass_of (some ⟨4, 3, 16⟩) 0 0 (sample_state ⟨4, 3, 16⟩ (cap_word 3) Buf.zero)) rfl rfl
  ⟨h.1, ((h.2.1 3 (by rw [h.1]; decide)).1 (by decide)).1,
    ((h.2.1 3 (by rw [h.1]; decide)).1 (by decide)).2⟩

/-! ## The run-length flush -/

theorem pixel_step_phase (clean : Prop) (fb : Buf) (x y : Int) (s : Scan)
    (h : BeforeChange clean s ∨ AfterChange clean s) :
    BeforeChange clean (pixel_step fb x y s) ∨ AfterChange clean (pixel_step fb x y s) := by
  unfold pixel_step
  dsimp only
  by_cases hc : fb s.pos ≠ s.fbbuf s.pos
  · rw [if_pos hc]
    right
    refine ⟨rfl, rfl, ?_⟩
    dsimp only
    rcases h with ⟨_, _, h | h⟩ | ⟨_, _, h⟩
    · exact Or.inl h.1
    · exact Or.inr ⟨h.1, h.2.1⟩
    · exact h
  · rw [if_neg hc]
    exact h

theorem row_loop_phase (clean : Prop) (fb : Buf) (y : Int) :
    ∀ (n : Nat) (x : Int) (s : Scan), BeforeChange clean s ∨ AfterChange clean s →
      BeforeChange clean (row_loop fb y n x s) ∨ AfterChange clean (row_loop fb y n x s) := by
  intro n
  induction n with
  | zero => intro x s h; exact h
  | succ n ih =>
    intro x s h
    simp only [row_loop]
    exact ih _ _ (pixel_step_phase clean fb x y s h)

theorem row_end_phase (clean : Prop) (s : Scan)
    (h : BeforeChange clean s ∨ AfterChange clean s) :
    BeforeChange clean (row_end s) ∨ AfterChange clean (row_end s) := by
  unfold row_end
  dsimp only
  rcases h with ⟨h0, hr, h⟩ | ⟨h1, h2, h⟩
  · left
    rw [if_pos h0]
    dsimp only
    obtain ⟨r1, r2, r3, r4⟩ := hr
    split_ifs with hf
    · refine ⟨h0, ⟨rfl, rfl, rfl, rfl⟩, ?_⟩
      dsimp only
      rcases h with ⟨e, hcl⟩ | ⟨_, _, e⟩
      · by_cases c : clean
        · exact absurd (hcl c) hf.2
        · right
          refine ⟨c, ?_, rfl⟩
          rw [e, r1, r2, r3, r4]
          rfl
      · exact absurd e hf.2
    · exact ⟨h0, ⟨r1, r2, r3, r4⟩, h⟩
  · right
    have hlc : ¬ s.line_changed = 0 := by rw [h1]; decide
    have hlu : ¬ (s.lines_unchanged > 5 ∧ s.changes_pending ≠ 0) := by
      rw [h2]; rintro ⟨a, _⟩; exact absurd a (by decide)
    rw [if_neg hlc, if_neg hlu]
    exact ⟨h1, h2, h⟩

theorem screen_loop_phase (clean : Prop) (fb : Buf) (xres : Nat) :
    ∀ (n : Nat) (y : Int) (s : Scan), BeforeChange clean s ∨ AfterChange clean s →
      BeforeChange clean (screen_loop fb xres n y s) ∨
        AfterChange clean (screen_loop fb xres n y s) := by
  intro n
  induction n with
  | zero => intro y s h; exact h
  | succ n ih =>
    intro y s h
    simp only [screen_loop]
    exact ih _ _ (row_end_phase clean _ (row_loop_phase clean fb y _ _ _ h))


theorem scan_init_phase (st : State) (lu cp : Int) :
    BeforeChange (cp = 0) (scan_init st lu cp) :=
  ⟨rfl, ⟨rfl, rfl, rfl, rfl⟩, Or.inl ⟨rfl, fun h => h⟩⟩

/-- Inside the loops of `update_screen` no accumulated bounding box is ever
flushed: whatever the capture, the snapshot and the start values of the two
locals, the rectangles marked before the final flush are none, or the one
flush of the reset box; and none when `changes_pending` starts at 0. -/
theorem screen_loop_marks_only_stale (st : State) (lu cp : Int) :
    ((screen_loop st.fbmmap st.scrinfo.xres st.scrinfo.yres 0 (scan_init st lu cp)).rects = [] ∨
      (cp ≠ 0 ∧
        (screen_loop st.fbmmap st.scrinfo.xres st.scrinfo.yres 0 (scan_init st lu cp)).rects
          = [stale_rect])) := by
  rcases screen_loop_phase (cp = 0) st.fbmmap st.scrinfo.xres st.scrinfo.yres 0 _
      (Or.inl (scan_init_phase st lu cp)) with ⟨_, _, h | h⟩ | ⟨_, _, h | h⟩
  · exact Or.inl h.1
  · exact Or.inr ⟨h.1, h.2.1⟩
  · exact Or.inl h
  · exact Or.inr h

theorem final_flush_rects (s : Scan) :
    ∃ fin, (final_flush s).rects = s.rects ++ fin ∧ fin.length ≤ 1 := by
  unfold final_flush
  split
  · exact ⟨_, rfl, le_refl _⟩
  · exact ⟨[], by simp, by simp⟩

/-- A pass of `update_screen` marks at most one rectangle that holds changed
words, the one of the final flush: the rectangles before it are none, or one
flush of the reset box when `changes_pending` started non-zero. -/
theorem update_screen_flush_only_at_end (io : Option fb_var_screeninfo) (lu cp : Int)
    (st : State) (r : Pass) (hr : update_screen io lu cp st = some r) :
    ∃ pre fin, r.rects = pre ++ fin ∧ (pre = [] ∨ (cp ≠ 0 ∧ pre = [stale_rect])) ∧
      fin.length ≤ 1 := by
  cases io with
  | none => simp [update_screen, readScreenInfo_m] at hr
  | some m =>
    by_cases hd : st.scrinfo.xres ≠ m.xres ∨ st.scrinfo.yres ≠ m.yres ∨
        st.scrinfo.bits_per_pixel ≠ m.bits_per_pixel
    · rw [update_screen_changed st m lu cp hd] at hr
      have e := Option.some.inj hr
      subst e
      exact ⟨[], [], rfl, Or.inl rfl, by simp⟩
    · rw [update_screen_unchanged st m lu cp hd] at hr
      have e := Option.some.inj hr
      subst e
      dsimp only [diff_scan]
      obtain ⟨fin, hfin, hlen⟩ := final_flush_rects
        (screen_loop st.fbmmap st.scrinfo.xres st.scrinfo.yres 0
          (scan_init { st with scrinfo_m := m } lu cp))
      exact ⟨_, fin, hfin, screen_loop_marks_only_stale { st with scrinfo_m := m } lu cp, hlen⟩

/-- The rectangles of a pass, for the pass that `pass_of` extracts. -/
theorem pass_of_flush_only_at_end (io : Option fb_var_screeninfo) (lu cp : Int) (st : State) :
    ∃ pre fin, (pass_of io lu cp st).rects = pre ++ fin ∧
      (pre = [] ∨ (cp ≠ 0 ∧ pre = [stale_rect])) ∧ fin.length ≤ 1 := by
  cases hu : update_screen io lu cp st with
  | none =>
    refine ⟨[], [], ?_, Or.inl rfl, by simp⟩
    unfold pass_of
    rw [hu]
    rfl
  | some r =>
    have e : pass_of io lu cp st = r := by
      unfold pass_of
      rw [hu]
      rfl
    rw [e]
    exact update_screen_flush_only_at_end io lu cp st r hu

set_option maxRecDepth 100000 in
/-- C21. Run-length flush, refuted.  At a 6x9 surface with a zero snapshot
whose capture has changed rows 0 and 8 (all three words of each) and seven
unchanged rows between them, the pass returns 0 and marks one rectangle,
(0, 0, 6, 9), and not the two rectangles (0, 0, 6, 1) and (0, 8, 6, 9).  For
every input, the rectangles of a pass are at most one flush of the reset box,
(9999, 9999, 1, 0), made before the first changed word and only when
`changes_pending` started non-zero, followed by at most one rectangle of the
final flush: the run-length test never flushes an accumulated box. -/
theorem update_screen_two_groups_one_rect :
    (pass_of (some ⟨6, 9, 16⟩) 0 0 (sample_state ⟨6, 9, 16⟩ (cap_rows 3 [0, 8]) Buf.zero)).ret
        = 0 ∧
      (pass_of (some ⟨6, 9, 16⟩) 0 0 (sample_state ⟨6, 9, 16⟩ (cap_rows 3 [0, 8]) Buf.zero)).rects
        = [⟨0, 0, 6, 9⟩] ∧
      ∀ (io : Option fb_var_screeninfo) (lu cp : Int) (st : State),
        ∃ pre fin, (pass_of io lu cp st).rects = pre ++ fin ∧
          (pre = [] ∨ (cp ≠ 0 ∧ pre = [stale_rect])) ∧ fin.length ≤ 1 := by
  refine ⟨by decide, by decide, ?_⟩
  intro io lu cp st
  exact pass_of_flush_only_at_end io lu cp st

/-! ## The scan stays inside the buffers -/

theorem pixel_step_agree (N : Nat) (fb fb' : Buf) (hfb : ∀ k, k < N → fb k = fb' k)
    (x y : Int) (s t : Scan) (hpos : s.pos < N) (h : ScanAgree N s t) :
    ScanAgree N (pixel_step fb x y s) (pixel_step fb' x y t) := by
  obtain ⟨hp, hf, hv, hvb, h1, h2, h3, h4, h5⟩ := h
  have e1 : fb s.pos = fb' t.pos := by rw [← hp]; exact hfb _ hpos
  have e2 : s.fbbuf s.pos = t.fbbuf t.pos := by rw [← hp]; exact hf _ hpos
  have e3 : fb t.pos = fb' t.pos := by rw [← hp]; exact hfb _ hpos
  unfold pixel_step
  dsimp only
  by_cases hc : fb s.pos ≠ s.fbbuf s.pos
  · have hc' : fb' t.pos ≠ t.fbbuf t.pos := by rw [← e1, ← e2]; exact hc
    rw [if_pos hc, if_pos hc']
    dsimp only
    refine ⟨by rw [hp], ?_, ?_, ?_, rfl, rfl, rfl, h4, by rw [h5, hp]⟩
    · intro k hk
      simp only [Buf.store]
      rw [hp, e3, hf k hk]
    · intro k hk
      simp only [Buf.store]
      rw [hp, e3, hv k hk, hvb]
    · rw [hvb]
  · have hc' : ¬ fb' t.pos ≠ t.fbbuf t.pos := by rw [← e1, ← e2]; exact hc
    rw [if_neg hc, if_neg hc']
    exact ⟨by rw [hp], hf, hv, hvb, h1, h2, h3, h4, by rw [h5, hp]⟩

theorem row_loop_agree (N : Nat) (fb fb' : Buf) (hfb : ∀ k, k < N → fb k = fb' k) (y : Int) :
    ∀ (n : Nat) (x : Int) (s t : Scan), s.pos + n ≤ N → ScanAgree N s t →
      ScanAgree N (row_loop fb y n x s) (row_loop fb' y n x t) := by
  intro n
  induction n with
  | zero => intro x s t _ h; exact h
  | succ n ih =>
    intro x s t hn h
    simp only [row_loop]
    refine ih _ _ _ ?_ (pixel_step_agree N fb fb' hfb x y s t (by omega) h)
    rw [pixel_step_pos]
    omega

theorem row_end_agree (N : Nat) (s t : Scan) (h : ScanAgree N s t) :
    ScanAgree N (row_end s) (row_end t) := by
  obtain ⟨hp, hf, hv, hvb, h1, h2, h3, h4, h5⟩ := h
  unfold row_end
  dsimp only
  rw [h1]
  by_cases c0 : t.line_changed = 0
  · rw [if_pos c0, if_pos c0]
    dsimp only
    rw [h2, h3]
    by_cases c1 : t.lines_unchanged + 1 > 5 ∧ t.changes_pending ≠ 0
    · rw [if_pos c1, if_pos c1]
      refine ⟨hp, hf, hv, ?_, ?_, ?_, ?_, ?_, h5⟩ <;>
        first | rfl | assumption | (dsimp only; rw [h4, hvb]) | (dsimp only; rw [hvb])
    · rw [if_neg c1, if_neg c1]
      refine ⟨hp, hf, hv, ?_, ?_, ?_, ?_, ?_, h5⟩ <;> first | rfl | assumption
  · rw [if_neg c0, if_neg c0]
    rw [h2, h3]
    by_cases c1 : t.lines_unchanged > 5 ∧ t.changes_pending ≠ 0
    · rw [if_pos c1, if_pos c1]
      refine ⟨hp, hf, hv, ?_, ?_, ?_, ?_, ?_, h5⟩ <;>
        first | rfl | assumption | (dsimp only; rw [h4, hvb]) | (dsimp only; rw [hvb])
    · rw [if_neg c1, if_neg c1]
      refine ⟨hp, hf, hv, ?_, ?_, ?_, ?_, ?_, h5⟩ <;> first | rfl | assumption

theorem screen_loop_agree (N : Nat) (fb fb' : Buf) (hfb : ∀ k, k < N → fb k = fb' k)
    (xres : Nat) :
    ∀ (n : Nat) (y : Int) (s t : Scan), s.pos + n * ((xres + 1) / 2) ≤ N → ScanAgree N s t →
      ScanAgree N (screen_loop fb xres n y s) (screen_loop fb' xres n y t) := by
  intro n
  induction n with
  | zero => intro y s t _ h; exact h
  | succ n ih =>
    intro y s t hn h
    simp only [screen_loop]
    rw [Nat.succ_mul] at hn
    refine ih _ _ _ ?_ (row_end_agree N _ _
      (row_loop_agree N fb fb' hfb y _ 0 s t (by omega) h))
    rw [row_end_pos, row_loop_pos]
    omega

theorem final_flush_agree (N : Nat) (s t : Scan) (h : ScanAgree N s t) :
    ScanAgree N (final_flush s) (final_flush t) := by
  obtain ⟨hp, hf, hv, hvb, h1, h2, h3, h4, h5⟩ := h
  unfold final_flush
  rw [hvb]
  by_cases c : t.vb.min_i < 9999
  · rw [if_pos c, if_pos c]
    exact ⟨hp, hf, hv, rfl, h1, h2, h3, by rw [h4], h5⟩
  · rw [if_neg c, if_neg c]
    exact ⟨hp, hf, hv, hvb, h1, h2, h3, h4, h5⟩


theorem diff_scan_agree (st st' : State) (lu cp : Int)
    (h : SameBelow (st.scrinfo.yres * ((st.scrinfo.xres + 1) / 2)) st st') :
    ScanAgree (st.scrinfo.yres * ((st.scrinfo.xres + 1) / 2)) (diff_scan st lu cp)
      (diff_scan st' lu cp) := by
  obtain ⟨hg, hvb, hb⟩ := h
  unfold diff_scan
  rw [hg]
  apply final_flush_agree
  apply screen_loop_agree
  · intro k hk; exact ((hb k hk).1).symm
  · simp [scan_init]
  · refine ⟨rfl, fun k hk => ((hb k hk).2.1).symm, fun k hk => ((hb k hk).2.2).symm, ?_,
      rfl, rfl, rfl, rfl, rfl⟩
    simp only [scan_init]
    rw [hvb]

theorem even_words (xres yres : Nat) (hx : xres % 2 = 0) :
    (xres + 1) / 2 = xres / 2 ∧ yres * ((xres + 1) / 2) = xres * yres / 2 := by
  obtain ⟨h, rfl⟩ : ∃ h, xres = 2 * h := ⟨xres / 2, by omega⟩
  have e : (2 * h + 1) / 2 = h := by omega
  refine ⟨by omega, ?_⟩
  rw [e, Nat.mul_assoc, Nat.mul_div_cancel_left _ (by norm_num : 0 < 2), Nat.mul_comm]


/-- The pass that `update_screen` returns when the geometry read is the
cached one. -/
theorem pass_of_unchanged (st : State) (m : fb_var_screeninfo) (lu cp : Int)
    (hd : ¬ (st.scrinfo.xres ≠ m.xres ∨ st.scrinfo.yres ≠ m.yres ∨
      st.scrinfo.bits_per_pixel ≠ m.bits_per_pixel)) :
    (pass_of (some m) lu cp st).ret = 0 ∧
      (pass_of (some m) lu cp st).rects = (diff_scan { st with scrinfo_m := m } lu cp).rects ∧
      (pass_of (some m) lu cp st).cmps = (diff_scan { st with scrinfo_m := m } lu cp).cmps := by
  unfold pass_of
  rw [update_screen_unchanged st m lu cp hd]
  exact ⟨rfl, rfl, rfl⟩

/-- On the 65536 x 65538 surface of 16 bits per pixel the product
`scrinfo.xres * scrinfo.yres` wraps to 131072, so capture, snapshot and sink
have 262144 bytes (65536 words), while a pass that returns 0 compares the
words 0 to 2^31 + 65535: word 65536, the first one behind the buffers, is
among them. -/
theorem scan_leaves_wrapped_buffers :
    wide_geom.xres % 2 = 0 ∧ wide_geom.bits_per_pixel = 16 ∧
      buffer_bytes wide_geom = 262144 ∧
      (pass_of (some wide_geom) 0 0 (sample_state wide_geom Buf.zero Buf.zero)).ret = 0 ∧
      65536 ∈ (pass_of (some wide_geom) 0 0 (sample_state wide_geom Buf.zero Buf.zero)).cmps ∧
      ¬ word_inside wide_geom 65536 := by
  have hp := pass_of_unchanged (sample_state wide_geom Buf.zero Buf.zero) wide_geom 0 0
    (by decide)
  refine ⟨by decide, rfl, by decide, hp.1, ?_, by decide⟩
  rw [hp.2.2, (diff_scan_effect _ 0 0).1, List.mem_range'_1]
  dsimp only [sample_state, wide_geom]
  omega

/-- C22. Scan stays inside the buffers: for a surface of 16 bits per pixel
with even `xres`, one `update_screen` pass that returns 0 compares exactly
the 32-bit words 0 to `xres * yres / 2 - 1`, each once and in increasing
order; the comparison for column `2 * j` of row `y` is at word
`y * (xres / 2) + j` (row-major); snapshot and sink are unchanged from word
`xres * yres / 2` on and the capture is not written; and the outcome does not
depend on what capture, snapshot and sink hold from that word on.  When the
pixel count `xres * yres` is below 2^31, the buffers hold exactly these words
(`xres * yres * 2` bytes), so every compared word lies inside them. -/
theorem update_screen_stays_inside (st : State) (m : fb_var_screeninfo) (lu cp : Int)
    (r : Pass) (h16 : st.scrinfo.bits_per_pixel = 16) (hx : st.scrinfo.xres % 2 = 0)
    (hr : update_screen (some m) lu cp st = some r) (h0 : r.ret = 0) :
    (st.scrinfo.xres * st.scrinfo.yres < 2 ^ 31 →
        buffer_bytes st.scrinfo = 4 * (st.scrinfo.xres * st.scrinfo.yres / 2) ∧
        ∀ k ∈ r.cmps, word_inside st.scrinfo k) ∧
      r.cmps = List.range' 0 (st.scrinfo.xres * st.scrinfo.yres / 2) ∧
      (∀ y j : Nat, y < st.scrinfo.yres → j < st.scrinfo.xres / 2 →
        (row_loop st.fbmmap y j 0
          (screen_loop st.fbmmap st.scrinfo.xres y 0 (scan_init st lu cp))).pos
            = y * (st.scrinfo.xres / 2) + j ∧
          y * (st.scrinfo.xres / 2) + j < st.scrinfo.xres * st.scrinfo.yres / 2) ∧
      (∀ k, st.scrinfo.xres * st.scrinfo.yres / 2 ≤ k →
        r.st.fbbuf k = st.fbbuf k ∧ r.st.vncbuf k = st.vncbuf k) ∧
      r.st.fbmmap = st.fbmmap ∧
      (∀ st', SameBelow (st.scrinfo.xres * st.scrinfo.yres / 2) st st' →
        ∃ r', update_screen (some m) lu cp st' = some r' ∧ r'.ret = 0 ∧
          r'.rects = r.rects ∧ r'.cmps = r.cmps ∧ r'.st.varblock = r.st.varblock ∧
          ∀ k, k < st.scrinfo.xres * st.scrinfo.yres / 2 →
            r'.st.fbbuf k = r.st.fbbuf k ∧ r'.st.vncbuf k = r.st.vncbuf k) := by
  obtain ⟨hW, hN⟩ := even_words st.scrinfo.xres st.scrinfo.yres hx
  have hbytes : st.scrinfo.xres * st.scrinfo.yres < 2 ^ 31 →
      buffer_bytes st.scrinfo = 4 * (st.scrinfo.xres * st.scrinfo.yres / 2) := by
    intro hsz
    unfold buffer_bytes pixels bytespp
    rw [h16, Nat.mod_eq_of_lt (by omega)]
    have : st.scrinfo.xres * st.scrinfo.yres % 2 = 0 := by
      rw [Nat.mul_mod, hx]; simp
    omega
  by_cases hd : st.scrinfo.xres ≠ m.xres ∨ st.scrinfo.yres ≠ m.yres ∨
      st.scrinfo.bits_per_pixel ≠ m.bits_per_pixel
  · rw [update_screen_changed st m lu cp hd] at hr
    have e := Option.some.inj hr
    subst e
    exact absurd h0 (by norm_num)
  · rw [update_screen_unchanged st m lu cp hd] at hr
    have e := Option.some.inj hr
    subst e
    obtain ⟨hc, hf, hv⟩ := diff_scan_effect { st with scrinfo_m := m } lu cp
    dsimp only at hc hf hv ⊢
    rw [hN] at hc hf hv
    refine ⟨fun hsz => ⟨hbytes hsz, ?_⟩, hc, ?_, ?_, rfl, ?_⟩
    · intro k hk
      rw [hc, List.mem_range'_1] at hk
      unfold word_inside
      rw [hbytes hsz]
      omega
    · intro y j hy hj
      rw [row_loop_pos, screen_loop_pos, hW]
      refine ⟨by simp [scan_init], ?_⟩
      rw [← hN, hW]
      have h1 : (y + 1) * (st.scrinfo.xres / 2) ≤ st.scrinfo.yres * (st.scrinfo.xres / 2) :=
        Nat.mul_le_mul_right _ hy
      rw [Nat.succ_mul] at h1
      omega
    · intro k hk
      exact ⟨by rw [hf, if_neg (by omega)], by rw [hv, if_neg (fun h => by omega)]⟩
    · intro st' hs
      have hs' : SameBelow (st.scrinfo.yres * ((st.scrinfo.xres + 1) / 2))
          { st with scrinfo_m := m } { st' with scrinfo_m := m } := by
        rw [hN]; exact hs
      have hd' : ¬ (st'.scrinfo.xres ≠ m.xres ∨ st'.scrinfo.yres ≠ m.yres ∨
          st'.scrinfo.bits_per_pixel ≠ m.bits_per_pixel) := by
        rw [hs.1]; exact hd
      obtain ⟨_, af, av, avb, _, _, _, ar, ac⟩ :=
        diff_scan_agree { st with scrinfo_m := m } { st' with scrinfo_m := m } lu cp hs'
      dsimp only at af av
      rw [hN] at af av
      refine ⟨_, update_screen_unchanged st' m lu cp hd', rfl, ar.symm, ac.symm, avb.symm, ?_⟩
      intro k hk
      exact ⟨(af k hk).symm, (av k hk).symm⟩

/-- C22, at the 4x3 surface of 16 bits per pixel whose capture differs from
the zero snapshot in word 3: the buffers have 24 bytes, the words 0 to 5
are compared, and word 6 of the snapshot is not written. -/
theorem update_screen_stays_inside_witness :
    buffer_bytes ⟨4, 3, 16⟩ = 24 ∧
      (pass_of (some ⟨4, 3, 16⟩) 0 0 (sample_state ⟨4, 3, 16⟩ (cap_word 3) Buf.zero)).cmps
        = [0, 1, 2, 3, 4, 5] ∧
      (pass_of (some ⟨4, 3, 16⟩) 0 0 (sample_state ⟨4, 3, 16⟩ (cap_word 3) Buf.zero)).st.fbbuf 6
        = 0 :=
  have h := update_screen_stays_inside (sample_state ⟨4, 3, 16⟩ (cap_word 3) Buf.zero)
    ⟨4, 3, 16⟩ 0 0
    (pass_of (some ⟨4, 3, 16⟩) 0 0 (sample_state ⟨4, 3, 16⟩ (cap_word 3) Buf.zero))
    rfl (by decide) rfl rfl
  ⟨(h.1 (by decide)).1, h.2.1, (h.2.2.2.1 6 (by decide)).1⟩

/-! ## The shape of the dirty rectangles -/

/-- C23. Dirty rectangles are well-formed, refuted: on every surface of 16
bits per pixel with even `xres` from 2 to 9998 and `yres` from 1 to 9998, a
pass over a zero snapshot and a capture whose only non-zero word is word 0
(pixel (0, 0) changed) returns 0 and marks exactly the rectangle
(0, 9999, 2, 10000), whose first row 9999 is not below `yres`. -/
theorem update_screen_rect_outside_surface (xres yres : Nat) (lu : Int)
    (hx : xres % 2 = 0) (hx0 : 2 ≤ xres) (hx1 : xres ≤ 9998) (hy0 : 1 ≤ yres)
    (hy1 : yres ≤ 9998) :
    (pass_of (some ⟨xres, yres, 16⟩) lu 0
        (sample_state ⟨xres, yres, 16⟩ (cap_word 0) Buf.zero)).ret = 0 ∧
      (pass_of (some ⟨xres, yres, 16⟩) lu 0
        (sample_state ⟨xres, yres, 16⟩ (cap_word 0) Buf.zero)).rects
          = [⟨0, 9999, 2, 10000⟩] ∧
      ¬ well_formed ⟨xres, yres, 16⟩ ⟨0, 9999, 2, 10000⟩ := by
  have hp := pass_of_unchanged (sample_state ⟨xres, yres, 16⟩ (cap_word 0) Buf.zero)
    ⟨xres, yres, 16⟩ lu 0 (by simp [sample_state])
  have hW : 0 < (xres + 1) / 2 := by omega
  have h := diff_scan_single_word
    { sample_state ⟨xres, yres, 16⟩ (cap_word 0) Buf.zero with scrinfo_m := ⟨xres, yres, 16⟩ }
    lu 0 0 (by simp only [sample_state]; exact Nat.mul_pos hy0 hW)
    (by simp) (by simp [sample_state, cap_word, Buf.zero])
    (by intro i _ hi; simp [sample_state, cap_word, Buf.zero, hi])
  refine ⟨hp.1, ?_, ?_⟩
  · rw [hp.2.1, h]
    simp
  · unfold well_formed
    dsimp only
    omega

/-- C23 at the 640x480 surface: the pass marks (0, 9999, 2, 10000). -/
theorem update_screen_rect_outside_surface_witness :
    (pass_of (some ⟨640, 480, 16⟩) 0 0
        (sample_state ⟨640, 480, 16⟩ (cap_word 0) Buf.zero)).rects = [⟨0, 9999, 2, 10000⟩] ∧
      ¬ well_formed ⟨640, 480, 16⟩ ⟨0, 9999, 2, 10000⟩ :=
  (update_screen_rect_outside_surface 640 480 0 (by decide) (by decide) (by decide)
    (by decide) (by decide)).2

/-! ## The mode check and the pan request of the driver -/

theorem to_int32_natCast (n : Nat) (h : n < 2 ^ 31) : to_int32 (n : Int) = n := by
  unfold to_int32
  have : (0 : Int) ≤ n := Int.ofNat_nonneg n
  have h2 : ((n : Int)) < 2 ^ 31 := by exact_mod_cast h
  omega

theorem and_mask_shift (lw m : Nat) (hlw : 5 ≤ lw) (hm : m < 2 ^ lw) :
    (m &&& (2 ^ lw - 32)) >>> 3 = m / 32 * 4 := by
  have e1 : 2 ^ lw - 32 = (2 ^ (lw - 5) - 1) <<< 5 := by
    rw [Nat.shiftLeft_eq, Nat.sub_mul, ← pow_add, Nat.sub_add_cancel hlw]
  have e2 : m / 32 * 4 = (m >>> 5) <<< 2 := by
    rw [Nat.shiftRight_eq_div_pow, Nat.shiftLeft_eq]
  rw [e1, e2]
  apply Nat.eq_of_testBit_eq
  intro i
  simp only [Nat.testBit_shiftRight, Nat.testBit_and, Nat.testBit_shiftLeft,
    Nat.testBit_two_pow_sub_one]
  by_cases h2 : 2 ≤ i
  · have e3 : 5 + (i - 2) = 3 + i := by omega
    rw [e3]
    by_cases h3 : 3 + i < lw
    · simp (disch := omega) only [decide_eq_true, decide_eq_false, ge_iff_le, Bool.and_true,
        Bool.true_and, h2]
      simp
    · have hz : m.testBit (3 + i) = false :=
        Nat.testBit_lt_two_pow (lt_of_lt_of_le hm (Nat.pow_le_pow_right (by norm_num) (by omega)))
      rw [hz]
      simp
  · simp [h2, show ¬ 5 ≤ 3 + i by omega]

theorem to_ulong_natCast (lw n : Nat) (h : n < 2 ^ lw) : to_ulong lw (n : Int) = n := by
  unfold to_ulong
  have e : ((n : Int)) % 2 ^ lw = ((n % 2 ^ lw : Nat) : Int) := by
    rw [Int.natCast_mod]; norm_cast
  rw [e, Nat.mod_eq_of_lt h, Int.toNat_ofNat]

/-- The line length that `get_line_length` returns when the `int` product
does not overflow: the bits of a line rounded up to a multiple of 32, in
bytes. -/
theorem get_line_length_eq (lw xv bpp : Nat) (hlw : 32 ≤ lw) (hb : 1 ≤ bpp)
    (hbb : bpp < 2 ^ 31) (h : xv * bpp < 2 ^ 31) :
    get_line_length lw (to_int32 xv) (to_int32 bpp) = (xv * bpp + 31) / 32 * 4 := by
  have hxv : xv < 2 ^ 31 := lt_of_le_of_lt (Nat.le_mul_of_pos_right xv hb) h
  have hpow : (2 : Nat) ^ 32 ≤ 2 ^ lw := Nat.pow_le_pow_right (by norm_num) hlw
  unfold get_line_length
  dsimp only
  rw [to_int32_natCast xv hxv, to_int32_natCast bpp hbb]
  have e : ((xv : Int)) * (bpp : Int) = ((xv * bpp : Nat) : Int) := by norm_cast
  rw [e, to_int32_natCast _ h, to_ulong_natCast lw _ (by omega),
    Nat.mod_eq_of_lt (by omega), and_mask_shift lw _ (by omega) (by omega)]

theorem round_depth_range (bpp : Nat) : 1 ≤ round_depth bpp ∧ round_depth bpp ≤ 32 := by
  unfold round_depth
  split_ifs <;> omega

theorem check_virtual_depth (v5 : fb_var) :
    (check_virtual v5).bits_per_pixel = round_depth v5.bits_per_pixel := by
  unfold check_virtual
  dsimp only
  split_ifs <;> rfl

theorem set_bitfields_geom (v : fb_var) :
    (set_bitfields v).xres_virtual = v.xres_virtual ∧
      (set_bitfields v).yres_virtual = v.yres_virtual ∧
      (set_bitfields v).bits_per_pixel = v.bits_per_pixel := by
  unfold set_bitfields
  dsimp only
  split_ifs <;> exact ⟨rfl, rfl, rfl⟩

/-- Where the memory limit of `vircon_check_var` is sound: when the function
returns 0 and neither the `int` product `xres_virtual * bits_per_pixel` nor
the `u_long` product `line_length * yres_virtual` of the adjusted mode leaves
its type, the byte size of the adjusted mode is at most `videomemorysize`. -/
theorem vircon_check_var_fits (lw vm : Nat) (info_var var : fb_var) (hlw : 32 ≤ lw)
    (h0 : (vircon_check_var lw vm info_var var).1 = 0)
    (hint : (vircon_check_var lw vm info_var var).2.xres_virtual *
      (vircon_check_var lw vm info_var var).2.bits_per_pixel < 2 ^ 31)
    (hul : mode_bytes (vircon_check_var lw vm info_var var).2 < 2 ^ lw) :
    mode_bytes (vircon_check_var lw vm info_var var).2 ≤ vm := by
  unfold vircon_check_var at h0 hint hul ⊢
  dsimp only at h0 hint hul ⊢
  generalize check_basic info_var var = v5 at h0 hint hul ⊢
  by_cases hb : v5.bits_per_pixel > 32
  · rw [if_pos hb] at h0
    simp [EINVAL] at h0
  · rw [if_neg hb] at h0 hint hul ⊢
    have hd := check_virtual_depth v5
    have hr := round_depth_range v5.bits_per_pixel
    generalize check_virtual v5 = v8 at h0 hint hul hd ⊢
    by_cases hm : get_line_length lw (to_int32 v8.xres_virtual) (to_int32 v8.bits_per_pixel) *
        v8.yres_virtual % 2 ^ lw > vm
    · rw [if_pos hm] at h0
      simp [ENOMEM] at h0
    · rw [if_neg hm] at hint hul ⊢
      obtain ⟨g1, g2, g3⟩ := set_bitfields_geom v8
      dsimp only at hint hul ⊢
      unfold mode_bytes at hul ⊢
      rw [g1, g2, g3] at hul ⊢
      rw [g1, g3] at hint
      rw [get_line_length_eq lw _ _ hlw (by omega) (by omega) hint,
        Nat.mod_eq_of_lt hul] at hm
      omega

/-- The mode check on ordinary requests: 1024x768 at 16 bits per pixel needs
1572864 bytes and is accepted; with a virtual height of 4096 it needs 8 MB and
is refused with `-ENOMEM`; a depth of 33 is refused with `-EINVAL`. -/
theorem vircon_check_var_samples :
    (vircon_check_var 64 VIDEOMEMSIZE vircon_default var_xga).1 = 0 ∧
      mode_bytes (vircon_check_var 64 VIDEOMEMSIZE vircon_default var_xga).2 = 1572864 ∧
      (vircon_check_var 64 VIDEOMEMSIZE vircon_default
        { var_xga with yres_virtual := 4096 }).1 = -ENOMEM ∧
      (vircon_check_var 64 VIDEOMEMSIZE vircon_default
        { var_xga with bits_per_pixel := 33 }).1 = -EINVAL := by
  decide

/-- C24. Accepted modes fit in video memory, refuted: with the default
`videomemorysize` of 4194304 bytes and `u_long` of 64 or of 32 bits,
`vircon_check_var` returns 0 for the default mode with `xres_virtual = 2^32 - 1`
(8 bits per pixel, `yres_virtual = 480`) and leaves these values in place,
although the mode needs 2^30 * 4 * 480 = 2061584302080 bytes: the `int`
argument of `get_line_length` is -1, the product -8, and `length + 31` wraps
to 23, so the line length is 0.  The same holds at 32 bits per pixel with
`xres_virtual = 2^30`, where the `int` product 2^35 wraps to 0. -/
theorem vircon_check_var_accepts_oversized :
    (∀ lw ∈ [32, 64],
      (vircon_check_var lw VIDEOMEMSIZE vircon_default var_wide).1 = 0 ∧
      (vircon_check_var lw VIDEOMEMSIZE vircon_default var_wide).2.xres_virtual = 4294967295 ∧
      (vircon_check_var lw VIDEOMEMSIZE vircon_default var_wide).2.yres_virtual = 480 ∧
      (vircon_check_var lw VIDEOMEMSIZE vircon_default var_wide).2.bits_per_pixel = 8 ∧
      mode_bytes (vircon_check_var lw VIDEOMEMSIZE vircon_default var_wide).2
        = 2061584302080 ∧
      (vircon_check_var lw VIDEOMEMSIZE vircon_default var_wide32).1 = 0 ∧
      mode_bytes (vircon_check_var lw VIDEOMEMSIZE vircon_default var_wide32).2
        = 2061584302080) ∧
      VIDEOMEMSIZE = 4194304 := by
  decide

theorem pan_store_fields (var info_var : fb_var) :
    (pan_store var info_var).xoffset = var.xoffset ∧
      (pan_store var info_var).yoffset = var.yoffset ∧
      (pan_store var info_var).xres = info_var.xres ∧
      (pan_store var info_var).yres = info_var.yres ∧
      (pan_store var info_var).xres_virtual = info_var.xres_virtual ∧
      (pan_store var info_var).yres_virtual = info_var.yres_virtual := by
  unfold pan_store
  dsimp only
  split_ifs <;> exact ⟨rfl, rfl, rfl, rfl, rfl, rfl⟩

/-- What the checks of `vircon_pan_display` do ensure: the function returns 0
or `-EINVAL`; with `-EINVAL` it leaves `info->var` unchanged; with 0 and
`FB_VMODE_YWRAP` the stored `xoffset` is 0 and the stored `yoffset` is below
`yres_virtual`; with 0 and no `FB_VMODE_YWRAP` the sums `xoffset + xres` and
`yoffset + yres` are within the virtual size modulo 2^32, and in exact
integers when the sums of the request are below 2^32. -/
theorem vircon_pan_display_checked (var info_var : fb_var) :
    ((vircon_pan_display var info_var).1 = 0 ∨
        (vircon_pan_display var info_var).1 = -EINVAL) ∧
      ((vircon_pan_display var info_var).1 = -EINVAL →
        (vircon_pan_display var info_var).2 = info_var) ∧
      ((vircon_pan_display var info_var).1 = 0 → var.vmode &&& FB_VMODE_YWRAP ≠ 0 →
        (vircon_pan_display var info_var).2.xoffset = 0 ∧
        (vircon_pan_display var info_var).2.yoffset <
          (vircon_pan_display var info_var).2.yres_virtual) ∧
      ((vircon_pan_display var info_var).1 = 0 → var.vmode &&& FB_VMODE_YWRAP = 0 →
        ((vircon_pan_display var info_var).2.xoffset +
            (vircon_pan_display var info_var).2.xres) % 2 ^ 32 ≤
          (vircon_pan_display var info_var).2.xres_virtual ∧
        ((vircon_pan_display var info_var).2.yoffset +
            (vircon_pan_display var info_var).2.yres) % 2 ^ 32 ≤
          (vircon_pan_display var info_var).2.yres_virtual ∧
        (var.xoffset + info_var.xres < 2 ^ 32 → var.yoffset + info_var.yres < 2 ^ 32 →
          (vircon_pan_display var info_var).2.xoffset +
              (vircon_pan_display var info_var).2.xres ≤
            (vircon_pan_display var info_var).2.xres_virtual ∧
          (vircon_pan_display var info_var).2.yoffset +
              (vircon_pan_display var info_var).2.yres ≤
            (vircon_pan_display var info_var).2.yres_virtual)) := by
  obtain ⟨p1, p2, p3, p4, p5, p6⟩ := pan_store_fields var info_var
  unfold vircon_pan_display
  by_cases hw : var.vmode &&& FB_VMODE_YWRAP ≠ 0
  · rw [if_pos hw]
    by_cases hc : var.yoffset ≥ info_var.yres_virtual ∨ var.xoffset ≠ 0
    · rw [if_pos hc]
      refine ⟨Or.inr rfl, fun _ => rfl, fun h => ?_, fun h => ?_⟩ <;>
        exact absurd h (by simp [EINVAL])
    · rw [if_neg hc]
      refine ⟨Or.inl rfl, fun h => ?_, fun _ _ => ?_, fun _ h => absurd h hw⟩
      · exact absurd h (by simp [EINVAL])
      · dsimp only
        rw [p1, p2, p6]
        omega
  · rw [if_neg hw]
    by_cases hc : (var.xoffset + info_var.xres) % 2 ^ 32 > info_var.xres_virtual ∨
        (var.yoffset + info_var.yres) % 2 ^ 32 > info_var.yres_virtual
    · rw [if_pos hc]
      refine ⟨Or.inr rfl, fun _ => rfl, fun h => ?_, fun h => ?_⟩ <;>
        exact absurd h (by simp [EINVAL])
    · rw [if_neg hc]
      refine ⟨Or.inl rfl, fun h => ?_, fun _ h => absurd h hw, fun _ _ => ?_⟩
      · exact absurd h (by simp [EINVAL])
      · dsimp only
        rw [p1, p2, p3, p4, p5, p6]
        refine ⟨by omega, by omega, fun hx hy => ?_⟩
        rw [Nat.mod_eq_of_lt hx, Nat.mod_eq_of_lt hy] at hc
        omega

/-- C25. Panning stays inside the virtual screen, refuted: on the default
mode (640x480, virtual 640x480) a pan request without `FB_VMODE_YWRAP` to
`xoffset = 2^32 - 640` is accepted, because the `__u32` sum `xoffset + xres`
wraps to 0; `vircon_pan_display` returns 0 and stores the offset, and in exact
integers `xoffset + xres` = 2^32 is above `xres_virtual` = 640. -/
theorem vircon_pan_display_wraps :
    var_pan.vmode &&& FB_VMODE_YWRAP = 0 ∧
      (vircon_pan_display var_pan vircon_default).1 = 0 ∧
      (vircon_pan_display var_pan vircon_default).2.xoffset = 4294966656 ∧
      (vircon_pan_display var_pan vircon_default).2.xres = 640 ∧
      (vircon_pan_display var_pan vircon_default).2.xres_virtual = 640 ∧
      ¬ ((vircon_pan_display var_pan vircon_default).2.xoffset +
          (vircon_pan_display var_pan vircon_default).2.xres ≤
        (vircon_pan_display var_pan vircon_default).2.xres_virtual) := by
  decide

/-! ## The static key tables are indexed in bounds -/

theorem table_at_getD (map : List Int) (k : Nat) (h : k < map.length) :
    table_at map (k : Int) = some (map.getD k 0) := by
  unfold table_at
  rw [if_pos (Int.ofNat_nonneg k), Int.toNat_ofNat, List.getElem?_eq_getElem h,
    List.getD_eq_getElem _ _ h]

theorem nav_index (code : Int) (h : 0xFF50 ≤ code ∧ code ≤ 0xFF58) :
    code.toNat &&& 0xF ≤ 8 := by
  obtain ⟨h1, h2⟩ := h
  interval_cases code <;> decide

theorem mod_index (code : Int) (h : 0xFFE1 ≤ code ∧ code ≤ 0xFFEE) :
    1 ≤ code.toNat &&& 0xF ∧ code.toNat &&& 0xF ≤ 14 := by
  obtain ⟨h1, h2⟩ := h
  interval_cases code <;> decide

theorem letter_index (code : Int) (h : (65 ≤ code ∧ code ≤ 90) ∨ (97 ≤ code ∧ code ≤ 122)) :
    65 ≤ code.toNat &&& 0x5F ∧ (code.toNat &&& 0x5F) - 65 ≤ 25 := by
  rcases h with ⟨h1, h2⟩ | ⟨h1, h2⟩ <;> interval_cases code <;> decide


theorem keysym2scancode_range (con : Console) (nr_keys down : Int) (key : Nat)
    (hn : nr_keys ≤ 256) :
    0 ≤ (keysym2scancode con nr_keys down key).scancode ∧
      (keysym2scancode con nr_keys down key).scancode ≤ 255 := by
  have hnav := getD_bound map_nav (by decide)
  have hfn := getD_bound map_fn (by decide)
  have hmod := getD_bound map_mod (by decide)
  have hlet := getD_bound map_letter (by decide)
  have hh := hunt_bound con (key_to_int key) nr_keys.toNat 0
  unfold keysym2scancode
  simp only []
  generalize key_to_int key = code at *
  by_cases c1 : 48 ≤ code ∧ code ≤ 57
  · rw [if_pos c1]
    have : code.toNat &&& 0xF < 2 ^ 4 := Nat.and_lt_two_pow _ (by norm_num)
    simp only [KEY_1]
    split <;> omega
  rw [if_neg c1]
  by_cases c2 : 0xFF50 ≤ code ∧ code ≤ 0xFF58
  · rw [if_pos c2]
    have := hnav (code.toNat &&& 0xF)
    dsimp only
    omega
  rw [if_neg c2]
  by_cases c3 : 0xFFBE ≤ code ∧ code ≤ 0xFFC9
  · rw [if_pos c3]
    have := hfn (code - 0xFFBE).toNat
    dsimp only
    omega
  rw [if_neg c3]
  by_cases c4 : 0xFFE1 ≤ code ∧ code ≤ 0xFFEE
  · rw [if_pos c4]
    have := hmod (code.toNat &&& 0xF)
    dsimp only
    omega
  rw [if_neg c4]
  by_cases c5 : (65 ≤ code ∧ code ≤ 90) ∨ (97 ≤ code ∧ code ≤ 122)
  · rw [if_pos c5]
    have := hlet ((code.toNat &&& 0x5F) - 65)
    dsimp only
    omega
  rw [if_neg c5]
  by_cases f : is_fixed_control code
  · unfold is_fixed_control at f
    rcases f with f | f | f | f | f | f <;> subst f <;>
      norm_num [KEY_BACKSPACE, KEY_ESC, KEY_TAB, KEY_ENTER, KEY_DELETE]
  · unfold is_fixed_control at f
    push_neg at f
    obtain ⟨f1, f2, f3, f4, f5, f6⟩ := f
    rw [if_neg f1, if_neg f2, if_neg f3, if_neg f4, if_neg f5, if_neg f6]
    have hz : (if code = 0xFFC8 then (⟨0, true⟩ : KeyResult) else ⟨0, false⟩).scancode = 0 := by
      split <;> rfl
    rw [if_pos hz]
    dsimp only
    omega

/-- C26. Static key tables are indexed in bounds: for every key symbol, with
`code = (int)key`, the index `code & 0xF` is at most 8 in the range
0xFF50..0xFF58 (table of 9 entries), `code - 0xFFBE` is from 0 to 11 in
0xFFBE..0xFFC9 (12 entries), `code & 0xF` is from 1 to 14 in 0xFFE1..0xFFEE
(15 entries), and `(code & 0x5F) - 'A'` is from 0 to 25 for the letters of
both cases (26 entries); `keysym2scancode` with checked table accesses
returns, and returns what `keysym2scancode` returns; and when `nr_keys` is at
most 256 the scancode is from 0 to 255. -/
theorem keysym2scancode_tables_in_bounds (con : Console) (nr_keys down : Int) (key : Nat) :
    (0xFF50 ≤ key_to_int key ∧ key_to_int key ≤ 0xFF58 →
        (key_to_int key).toNat &&& 0xF ≤ 8) ∧
      map_nav.length = 9 ∧
      (0xFFBE ≤ key_to_int key ∧ key_to_int key ≤ 0xFFC9 →
        0 ≤ key_to_int key - 0xFFBE ∧ key_to_int key - 0xFFBE ≤ 11) ∧
      map_fn.length = 12 ∧
      (0xFFE1 ≤ key_to_int key ∧ key_to_int key ≤ 0xFFEE →
        1 ≤ (key_to_int key).toNat &&& 0xF ∧ (key_to_int key).toNat &&& 0xF ≤ 14) ∧
      map_mod.length = 15 ∧
      ((65 ≤ key_to_int key ∧ key_to_int key ≤ 90) ∨
          (97 ≤ key_to_int key ∧ key_to_int key ≤ 122) →
        65 ≤ (key_to_int key).toNat &&& 0x5F ∧ ((key_to_int key).toNat &&& 0x5F) - 65 ≤ 25) ∧
      map_letter.length = 26 ∧
      keysym2scancode_checked con nr_keys down key
        = some (keysym2scancode con nr_keys down key) ∧
      (nr_keys ≤ 256 →
        0 ≤ (keysym2scancode con nr_keys down key).scancode ∧
        (keysym2scancode con nr_keys down key).scancode ≤ 255) := by
  refine ⟨nav_index _, rfl, fun h => by omega, rfl, mod_index _, rfl, letter_index _, rfl, ?_,
    keysym2scancode_range con nr_keys down key⟩
  unfold keysym2scancode_checked
  dsimp only
  by_cases c1 : 48 ≤ key_to_int key ∧ key_to_int key ≤ 57
  · rw [if_pos c1]
  rw [if_neg c1]
  by_cases c2 : 0xFF50 ≤ key_to_int key ∧ key_to_int key ≤ 0xFF58
  · rw [if_pos c2, table_at_getD _ _ (lt_of_le_of_lt (nav_index _ c2) (by decide))]
    unfold keysym2scancode
    simp only []
    rw [if_neg c1, if_pos c2]
    rfl
  rw [if_neg c2]
  by_cases c3 : 0xFFBE ≤ key_to_int key ∧ key_to_int key ≤ 0xFFC9
  · have e : key_to_int key - 0xFFBE = ((key_to_int key - 0xFFBE).toNat : Int) :=
      (Int.toNat_of_nonneg (by omega)).symm
    have hlt : (key_to_int key - 0xFFBE).toNat < map_fn.length := by
      have : map_fn.length = 12 := rfl
      omega
    rw [if_pos c3, e, table_at_getD _ _ hlt]
    unfold keysym2scancode
    simp only []
    rw [if_neg c1, if_neg c2, if_pos c3]
    rfl
  rw [if_neg c3]
  by_cases c4 : 0xFFE1 ≤ key_to_int key ∧ key_to_int key ≤ 0xFFEE
  · rw [if_pos c4, table_at_getD _ _ (lt_of_le_of_lt (mod_index _ c4).2 (by decide))]
    unfold keysym2scancode
    simp only []
    rw [if_neg c1, if_neg c2, if_neg c3, if_pos c4]
    rfl
  rw [if_neg c4]
  by_cases c5 : (65 ≤ key_to_int key ∧ key_to_int key ≤ 90) ∨
      (97 ≤ key_to_int key ∧ key_to_int key ≤ 122)
  · obtain ⟨l1, l2⟩ := letter_index _ c5
    have e : (((key_to_int key).toNat &&& 0x5F : Nat) : Int) - 65
        = ((((key_to_int key).toNat &&& 0x5F) - 65 : Nat) : Int) := by
      omega
    rw [if_pos c5, e, table_at_getD _ _ (lt_of_le_of_lt l2 (by decide))]
    unfold keysym2scancode
    simp only []
    rw [if_neg c1, if_neg c2, if_neg c3, if_neg c4, if_pos c5]
    rfl
  rw [if_neg c5]

/-- C26 at the symbol 0xFF58, the last of the navigation range, with the key
count 112: the index is 8, the checked function returns the entry 0 of the
table, and the scancode is in range. -/
theorem keysym2scancode_tables_in_bounds_witness :
    (key_to_int 0xFF58).toNat &&& 0xF ≤ 8 ∧
      keysym2scancode_checked console37 112 1 0xFF58
        = some (keysym2scancode console37 112 1 0xFF58) ∧
      0 ≤ (keysym2scancode console37 112 1 0xFF58).scancode ∧
      (keysym2scancode console37 112 1 0xFF58).scancode ≤ 255 :=
  have h := keysym2scancode_tables_in_bounds console37 112 1 0xFF58
  ⟨h.1 (by decide), h.2.2.2.2.2.2.2.2.1, h.2.2.2.2.2.2.2.2.2 (by decide)⟩

end Vircon
